import Mathlib

/-!
The parsing layer of `src/main.go` (package `info`).

A shallow embedding of the three text parsers (`ReadAndParseCPUInfo`,
`ReadAndParseTopOutput`, `ReadAndParseDiskInfo`) and of the composing handler
`HandleSystemInfo`, followed by theorems about them.

Conventions of the embedding.

* Go strings are sequences of characters (`Str = List Char`); byte lengths, where the
  Go library looks at them, are UTF-8 lengths.
* Go `int` is the 64-bit `int`; `int` and `int64` values are Lean `Int`s, and the
  library conversions saturate exactly where Go's do.
* A `float64` is `Float64`, its IEEE 754 bit pattern; `strconv.ParseFloat` reads the
  number exactly and rounds it once, to nearest with ties to even.
* `os.Open` followed by `bufio.NewScanner` is a `ScanSource`: the lines that successive
  `scanner.Scan()` calls deliver, and the error `scanner.Err()` reports afterwards.
* The Go standard library functions the program calls (`strconv`, `strings`, `regexp`,
  `sort`, `bufio`, `net/http`) are embedded from their sources and documentation;
  `sort.Slice` is the insertion sort it is on the short slices of this program.
-/

namespace Info

/-- Go `string`, as its sequence of characters. -/
abbrev Str := List Char

/-! ## strconv -/

/-- The two errors of package `strconv`: `ErrSyntax` and `ErrRange`. -/
inductive NumError
  | ErrSyntax
  | ErrRange
  deriving DecidableEq

/-- An ASCII decimal digit, `'0' <= c && c <= '9'`. -/
def isDigit (c : Char) : Bool := decide (48 ≤ c.toNat) && decide (c.toNat ≤ 57)

/-- The value `c - '0'` of a digit. -/
def digitVal (c : Char) : Nat := c.toNat - 48

/-- Byte length `len(s)` of a Go string. -/
def byteLen (s : Str) : Nat := (s.map Char.utf8Size).sum

/-- `maxUint64`. -/
def maxUint64 : Nat := 2 ^ 64 - 1

/-- The loop of `strconv.ParseUint(s, 10, 64)`: digits are accumulated left to right;
a character that is no digit is a syntax error; the first step that leaves the
`uint64` range stops the loop with `maxUint64` and a range error. -/
def parseUintLoop : Str → Nat → Nat × Option NumError
  | [], n => (n, none)
  | c :: cs, n =>
    if isDigit c then
      if n ≥ maxUint64 / 10 + 1 then (maxUint64, some NumError.ErrRange)
      else if n * 10 + digitVal c > maxUint64 then (maxUint64, some NumError.ErrRange)
      else parseUintLoop cs (n * 10 + digitVal c)
    else (0, some NumError.ErrSyntax)

/-- `strconv.ParseUint(s, 10, 64)`. -/
def ParseUint (s : Str) : Nat × Option NumError :=
  if s = [] then (0, some NumError.ErrSyntax) else parseUintLoop s 0

/-- `strconv.ParseInt(s, 10, 64)`: an optional sign, then `ParseUint`; a value outside
the `int64` range is replaced by the nearest bound and reported as a range error. -/
def ParseInt (s : Str) : Int × Option NumError :=
  match s with
  | [] => (0, some NumError.ErrSyntax)
  | c :: cs =>
    let neg : Bool := c = '-'
    let body : Str := if c = '+' ∨ c = '-' then cs else s
    match ParseUint body with
    | (_, some NumError.ErrSyntax) => (0, some NumError.ErrSyntax)
    | (un, _) =>
      if !neg && decide (un ≥ 2 ^ 63) then (2 ^ 63 - 1, some NumError.ErrRange)
      else if neg && decide (un > 2 ^ 63) then (-(2 ^ 63), some NumError.ErrRange)
      else (if neg then -(un : Int) else (un : Int), none)

/-- The digit loop of the fast path of `strconv.Atoi`. -/
def atoiFastLoop : Str → Nat → Option Nat
  | [], n => some n
  | c :: cs, n => if isDigit c then atoiFastLoop cs (n * 10 + digitVal c) else none

/-- `strconv.Atoi(s)` on a 64-bit platform: strings of 1 to 18 bytes take the fast
path (sign, then digits), all others go through `ParseInt(s, 10, 0)`. -/
def Atoi (s : Str) : Int × Option NumError :=
  if 0 < byteLen s ∧ byteLen s < 19 then
    match s with
    | [] => (0, some NumError.ErrSyntax)
    | c :: cs =>
      let body : Str := if c = '-' ∨ c = '+' then cs else s
      if body = [] then (0, some NumError.ErrSyntax)
      else
        match atoiFastLoop body 0 with
        | none => (0, some NumError.ErrSyntax)
        | some n => (if c = '-' then -(n : Int) else (n : Int), none)
  else ParseInt s

/-- A `float64` value, as its IEEE 754 binary64 bit pattern (`math.Float64bits`): one
sign bit, eleven bits of biased exponent, fifty-two bits of fraction. -/
structure Float64 where
  bits : Nat
  deriving DecidableEq

/-- The `float64` zero value. -/
def Float64.zero : Float64 := ⟨0⟩

/-- The infinity of the given sign (`math.Inf`). -/
def Float64.inf (neg : Bool) : Float64 :=
  ⟨(if neg then 2 ^ 63 else 0) + 2047 * 2 ^ 52⟩

/-- The NaN that `math.NaN()` returns. -/
def Float64.nan : Float64 := ⟨0x7FF8000000000001⟩

/-- A NaN has all exponent bits set and a fraction that is not zero. -/
def Float64.isNaN (f : Float64) : Bool := decide (2047 * 2 ^ 52 < f.bits % 2 ^ 63)

/-- The sign-and-magnitude integer of the bit pattern: it orders all values that are
not NaN as IEEE 754 does (both zeros at 0). -/
def Float64.key (f : Float64) : Int :=
  if f.bits < 2 ^ 63 then (f.bits : Int) else -((f.bits % 2 ^ 63 : Nat) : Int)

/-- Go's `a > b` on `float64`: false whenever an operand is NaN, by value otherwise. -/
def Float64.gt (a b : Float64) : Bool :=
  !a.isNaN && !b.isNaN && decide (b.key < a.key)

/-- Number of binary digits of `n`; `fuel` bounds the recursion, and `fuel = n` is
enough. -/
def bitLen : Nat → Nat → Nat
  | 0, _ => 0
  | fuel + 1, n => if n = 0 then 0 else bitLen fuel (n / 2) + 1

/-- For `num, den > 0`, the integer `e` with `2 ^ e ≤ num / den < 2 ^ (e + 1)`. -/
def floorLog2 (num den : Nat) : Int :=
  let e0 : Int := (bitLen num num : Int) - (bitLen den den : Int)
  if 0 ≤ e0 then (if den * 2 ^ e0.toNat ≤ num then e0 else e0 - 1)
  else (if den ≤ num * 2 ^ (-e0).toNat then e0 else e0 - 1)

/-- The integer nearest to `num / den`, ties going to the even one. -/
def roundHalfEven (num den : Nat) : Nat :=
  let f : Nat := num / den
  let r : Nat := num % den
  if 2 * r < den then f
  else if den < 2 * r then f + 1
  else if f % 2 = 0 then f else f + 1

/-- IEEE 754 binary64 rounding (to nearest, ties to even) of the magnitude `num / den`,
`num > 0`: with `e` the binary exponent of the value (at least -1022) and `n` the value
in units of `2 ^ (e - 52)` rounded to an integer, the bits below the sign bit are
`(e + 1022) * 2 ^ 52 + n`. -/
def roundBits (num den : Nat) : Nat :=
  let e : Int := max (floorLog2 num den) (-1022)
  let n : Nat :=
    if e ≤ 52 then roundHalfEven (num * 2 ^ (52 - e).toNat) den
    else roundHalfEven num (den * 2 ^ (e - 52).toNat)
  (e + 1022).toNat * 2 ^ 52 + n

/-- The `float64` nearest to `num / den` with sign `neg`, as `strconv.ParseFloat`
computes it: a result beyond the largest finite value is the infinity, reported as a
range error; underflow to zero is no error. -/
def roundFloat64 (neg : Bool) (num den : Nat) : Float64 × Option NumError :=
  if num = 0 then (⟨if neg then 2 ^ 63 else 0⟩, none)
  else if 2047 * 2 ^ 52 ≤ roundBits num den then (Float64.inf neg, some NumError.ErrRange)
  else (⟨(if neg then 2 ^ 63 else 0) + roundBits num den⟩, none)

/-- ASCII lower-casing as in `commonPrefixLenIgnoreCase`. -/
def asciiLower (c : Char) : Char :=
  if 65 ≤ c.toNat ∧ c.toNat ≤ 90 then Char.ofNat (c.toNat + 32) else c

/-- Length of the longest common beginning of `s` and `pat`, `s` lower-cased
(`commonPrefixLenIgnoreCase`). -/
def commonLenIgnoreCase : Str → Str → Nat
  | c :: cs, p :: ps => if asciiLower c = p then commonLenIgnoreCase cs ps + 1 else 0
  | _, _ => 0

/-- The function `special` of `strconv`: recognises a possibly signed "inf" or "infinity" and
an unsigned "nan", case-insensitively, at the start of `s`; returns the value and the
rest of the input. -/
def special (s : Str) : Option (Float64 × Str) :=
  match s with
  | [] => none
  | c :: cs =>
    if c = '+' ∨ c = '-' then
      let n := commonLenIgnoreCase cs "infinity".toList
      let n := if 3 < n ∧ n < 8 then 3 else n
      if n = 3 ∨ n = 8 then some (Float64.inf (c = '-'), cs.drop n) else none
    else if c = 'i' ∨ c = 'I' then
      let n := commonLenIgnoreCase s "infinity".toList
      let n := if 3 < n ∧ n < 8 then 3 else n
      if n = 3 ∨ n = 8 then some (Float64.inf false, s.drop n) else none
    else if c = 'n' ∨ c = 'N' then
      if commonLenIgnoreCase s "nan".toList = 3 then some (Float64.nan, s.drop 3) else none
    else none

/-- A hexadecimal letter digit, `'a' <= lower(c) && lower(c) <= 'f'`. -/
def isHexLetter (c : Char) : Bool :=
  (decide (65 ≤ c.toNat) && decide (c.toNat ≤ 70)) ||
    (decide (97 ≤ c.toNat) && decide (c.toNat ≤ 102))

/-- The value `lower(c) - 'a' + 10` of a hexadecimal letter digit. -/
def hexLetterVal (c : Char) : Nat :=
  if c.toNat ≤ 70 then c.toNat - 65 + 10 else c.toNat - 97 + 10

/-- The variables of the mantissa loop of `readFloat`; `mant` is the value of all
significant digits read (the library keeps the first 19 and a flag for the rest, and
rounds the exact value correctly). -/
structure MantState where
  sawdot : Bool
  sawdigits : Bool
  nd : Nat
  dp : Int
  mant : Nat
  underscores : Bool

/-- The mantissa loop of `readFloat`; returns the final variables and the unread rest of
the input. -/
def readMantissa (hex : Bool) : Str → MantState → MantState × Str
  | [], st => (st, [])
  | c :: cs, st =>
    if c = '_' then readMantissa hex cs { st with underscores := true }
    else if c = '.' then
      if st.sawdot then (st, c :: cs)
      else readMantissa hex cs { st with sawdot := true, dp := st.nd }
    else if isDigit c then
      if c = '0' ∧ st.nd = 0 then
        readMantissa hex cs { st with sawdigits := true, dp := st.dp - 1 }
      else
        readMantissa hex cs { st with
          sawdigits := true, nd := st.nd + 1
          mant := st.mant * (if hex then 16 else 10) + digitVal c }
    else if hex && isHexLetter c then
      readMantissa hex cs { st with
        sawdigits := true, nd := st.nd + 1, mant := st.mant * 16 + hexLetterVal c }
    else (st, c :: cs)

/-- The exponent digit loop of `readFloat`: the exponent stops growing once it has
reached 10000. Returns the exponent, whether an underscore was seen, and the rest. -/
def readExpDigits : Str → Nat → Bool → Nat × Bool × Str
  | [], e, us => (e, us, [])
  | c :: cs, e, us =>
    if isDigit c then readExpDigits cs (if e < 10000 then e * 10 + digitVal c else e) us
    else if c = '_' then readExpDigits cs e true
    else (e, us, c :: cs)

/-- The loop of `underscoreOK`; `saw` is the kind of the last character seen. -/
def underscoreLoop (hex : Bool) : Str → Char → Bool
  | [], saw => saw ≠ '_'
  | c :: cs, saw =>
    if isDigit c || (hex && isHexLetter c) then underscoreLoop hex cs '0'
    else if c = '_' then
      if saw ≠ '0' then false else underscoreLoop hex cs '_'
    else if saw = '_' then false
    else underscoreLoop hex cs '!'

/-- The function `underscoreOK` of `strconv`: underscores only between digits, or between a
base marker and a digit. -/
def underscoreOK (s : Str) : Bool :=
  let s1 : Str :=
    match s with
    | c :: cs => if c = '-' ∨ c = '+' then cs else s
    | [] => s
  match s1 with
  | '0' :: b :: rest =>
    if b = 'b' ∨ b = 'B' ∨ b = 'o' ∨ b = 'O' ∨ b = 'x' ∨ b = 'X' then
      underscoreLoop (b = 'x' ∨ b = 'X') rest '0'
    else underscoreLoop false s1 '^'
  | _ => underscoreLoop false s1 '^'

/-- What `readFloat` found: sign, exact magnitude `num / den`, unread rest of the
input. -/
structure FloatText where
  neg : Bool
  num : Nat
  den : Nat
  rest : Str

/-- The magnitude `mant * b ^ x` as a fraction of natural numbers. -/
def scaled (neg : Bool) (mant b : Nat) (x : Int) (rest : Str) : FloatText :=
  if 0 ≤ x then ⟨neg, mant * b ^ x.toNat, 1, rest⟩ else ⟨neg, mant, b ^ (-x).toNat, rest⟩

/-- The end of `readFloat`: the check of the underscores in the text read (all of `s`
but `rest`), and the number read, `mant` scaled by the position of the point `dp` among
the `nd` significant digits and by the exponent `e` (a power of 2 after a hexadecimal
mantissa). -/
def finishFloat (s : Str) (neg hex : Bool) (st : MantState) (dp e : Int) (us : Bool)
    (rest : Str) : Option FloatText :=
  if (st.underscores || us) && !underscoreOK (s.take (s.length - rest.length)) then none
  else if hex then some (scaled neg st.mant 2 (4 * (dp - st.nd) + e) rest)
  else some (scaled neg st.mant 10 (dp - st.nd + e) rest)

/-- The exponent part of `readFloat`, `r` being the input after the mantissa: an
optional `e` (or the mandatory `p` of a hexadecimal mantissa), an optional sign, and at
least one digit. -/
def readExponent (s : Str) (neg hex : Bool) (st : MantState) (dp : Int) (r : Str) :
    Option FloatText :=
  match r with
  | c :: r1 =>
    if (hex ∧ (c = 'p' ∨ c = 'P')) ∨ (¬ hex ∧ (c = 'e' ∨ c = 'E')) then
      match r1 with
      | [] => none
      | d :: r2 =>
        let esign : Int := if d = '-' then -1 else 1
        let r3 : Str := if d = '+' ∨ d = '-' then r2 else r1
        match r3 with
        | [] => none
        | d1 :: _ =>
          if !isDigit d1 then none
          else
            match readExpDigits r3 0 false with
            | (e, us, rest) => finishFloat s neg hex st dp ((e : Int) * esign) us rest
    else if hex then none
    else finishFloat s neg hex st dp 0 false r
  | [] => if hex then none else finishFloat s neg hex st dp 0 false r

/-- The test `i+2 < len(s) && s[i] == '0' && lower(s[i+1]) == 'x'` of `readFloat`: the
text after the sign starts a hexadecimal mantissa. -/
def isHexStart (s1 : Str) : Bool :=
  match s1 with
  | '0' :: x :: _ :: _ => x = 'x' ∨ x = 'X'
  | _ => false

/-- The function `readFloat` of `strconv` after the sign: `s` is the whole text, `s1`
the text after the sign. -/
def readUnsigned (s : Str) (neg : Bool) (s1 : Str) : Option FloatText :=
  match readMantissa (isHexStart s1) (if isHexStart s1 then s1.drop 2 else s1)
      ⟨false, false, 0, 0, 0, false⟩ with
  | (st, r) =>
    if !st.sawdigits then none
    else readExponent s neg (isHexStart s1) st (if st.sawdot then st.dp else st.nd) r

/-- The function `readFloat` of `strconv`: optional sign, decimal or `0x` hexadecimal mantissa
with at most one point, optional exponent. `none` when the text is no number. -/
def readFloat (s : Str) : Option FloatText :=
  match s with
  | [] => none
  | c0 :: cs0 => readUnsigned s (c0 = '-') (if c0 = '+' ∨ c0 = '-' then cs0 else s)

/-- `strconv.ParseFloat(s, 64)`: the special values, or the number `readFloat` reads
rounded to the nearest `float64`; text left unread is a syntax error, and every
syntax error comes with the value 0. -/
def ParseFloat (s : Str) : Float64 × Option NumError :=
  match special s with
  | some (v, rest) =>
    if rest = [] then (v, none) else (Float64.zero, some NumError.ErrSyntax)
  | none =>
    match readFloat s with
    | none => (Float64.zero, some NumError.ErrSyntax)
    | some r =>
      if r.rest = [] then roundFloat64 r.neg r.num r.den
      else (Float64.zero, some NumError.ErrSyntax)

/-! ## strings -/

/-- The function `unicode.IsSpace`: the white space characters of Unicode. -/
def isSpace (c : Char) : Bool :=
  let n := c.toNat
  n = 9 || n = 10 || n = 11 || n = 12 || n = 13 || n = 32 || n = 0x85 || n = 0xA0 ||
    n = 0x1680 || (decide (0x2000 ≤ n) && decide (n ≤ 0x200A)) || n = 0x2028 ||
    n = 0x2029 || n = 0x202F || n = 0x205F || n = 0x3000

/-- The scan of `strings.Fields`: `cur` is the field being read, last character first. -/
def fieldsAux : Str → Str → List Str
  | [], cur => if cur = [] then [] else [cur.reverse]
  | c :: cs, cur =>
    if isSpace c then
      if cur = [] then fieldsAux cs [] else cur.reverse :: fieldsAux cs []
    else fieldsAux cs (c :: cur)

/-- `strings.Fields(s)`: the maximal runs of characters of `s` that are not white
space, in order. -/
def Fields (s : Str) : List Str := fieldsAux s []

/-- `strings.Join(elems, sep)`. -/
def Join (elems : List Str) (sep : Str) : Str := sep.intercalate elems

/-! ## regexp

Both patterns of the program are a `^`, a sequence of repeated character classes,
some of them capture groups, and a `$`. `Atom` is one repeated class; matching is
leftmost-first (each repetition takes as much as it can and gives back one character
at a time), which is the match `regexp` reports. -/

/-- One repeated character class of a pattern: `cls+` (`min = 1`) or `cls*`
(`min = 0`), captured or not. -/
structure Atom where
  cls : Char → Bool
  min : Nat
  capture : Bool

/-- Tries the repetition `a` on `n`, `n - 1`, ..., `a.min` characters of `s`, the rest
of the pattern being `k`; the first success wins. -/
def tryLens (k : Str → Option (List Str)) (a : Atom) (s : Str) : Nat → Option (List Str)
  | 0 =>
    if a.min = 0 then
      (k s).map (fun caps => if a.capture then [] :: caps else caps)
    else none
  | n + 1 =>
    if n + 1 < a.min then none
    else
      match k (s.drop (n + 1)) with
      | some caps => some (if a.capture then s.take (n + 1) :: caps else caps)
      | none => tryLens k a s n

/-- Matches the whole of `s` (`^` ... `$`) against the atoms; the result is the list
of the captured texts. -/
def matchAtoms : List Atom → Str → Option (List Str)
  | [], s => if s = [] then some [] else none
  | a :: rest, s => tryLens (matchAtoms rest) a s (s.takeWhile a.cls).length

/-- The class `\s` of `regexp`: tab, newline, form feed, carriage return, space. -/
def reSpace (c : Char) : Bool :=
  c.toNat = 9 || c.toNat = 10 || c.toNat = 12 || c.toNat = 13 || c.toNat = 32

/-- The class `\S`. -/
def reNonSpace (c : Char) : Bool := !reSpace c

/-- The class `[\d.]`. -/
def reDigitDot (c : Char) : Bool := isDigit c || c = '.'

/-- The class `.`: any character but the newline. -/
def reAny (c : Char) : Bool := c.toNat ≠ 10

/-- The pattern
`^\s*(\d+)\s+(\S+)\s+(\d+)\s+(\d+)\s+(\d+)\s+(\d+)\s+(\d+)\s+(\S+)\s+([\d.]+)\s+([\d.]+)\s+(\S+)\s+(.*)$`. -/
def processInfoRegex : List Atom :=
  [⟨reSpace, 0, false⟩, ⟨isDigit, 1, true⟩,
   ⟨reSpace, 1, false⟩, ⟨reNonSpace, 1, true⟩,
   ⟨reSpace, 1, false⟩, ⟨isDigit, 1, true⟩,
   ⟨reSpace, 1, false⟩, ⟨isDigit, 1, true⟩,
   ⟨reSpace, 1, false⟩, ⟨isDigit, 1, true⟩,
   ⟨reSpace, 1, false⟩, ⟨isDigit, 1, true⟩,
   ⟨reSpace, 1, false⟩, ⟨isDigit, 1, true⟩,
   ⟨reSpace, 1, false⟩, ⟨reNonSpace, 1, true⟩,
   ⟨reSpace, 1, false⟩, ⟨reDigitDot, 1, true⟩,
   ⟨reSpace, 1, false⟩, ⟨reDigitDot, 1, true⟩,
   ⟨reSpace, 1, false⟩, ⟨reNonSpace, 1, true⟩,
   ⟨reSpace, 1, false⟩, ⟨reAny, 0, true⟩]

/-- The pattern `^(\S+)\s+(\S+)\s+(\S+)\s+(\S+)\s+(\S+)\s+(\S+)\s*$`. -/
def diskInfoRegex : List Atom :=
  [⟨reNonSpace, 1, true⟩, ⟨reSpace, 1, false⟩,
   ⟨reNonSpace, 1, true⟩, ⟨reSpace, 1, false⟩,
   ⟨reNonSpace, 1, true⟩, ⟨reSpace, 1, false⟩,
   ⟨reNonSpace, 1, true⟩, ⟨reSpace, 1, false⟩,
   ⟨reNonSpace, 1, true⟩, ⟨reSpace, 1, false⟩,
   ⟨reNonSpace, 1, true⟩, ⟨reSpace, 0, false⟩]

/-- `re.FindStringSubmatch(s)` for a pattern anchored at both ends: the matched text
(all of `s`) followed by the captured texts, or the empty slice without a match. -/
def FindStringSubmatch (re : List Atom) (s : Str) : List Str :=
  match matchAtoms re s with
  | some caps => s :: caps
  | none => []

/-! ## sort -/

/-- The inner loop of `insertionSortLessFunc`: `x` moves left past its neighbours for
as long as `less x neighbour`; `done` is the part already handled, last element
first. -/
def insertBack {α : Type} (less : α → α → Bool) (x : α) : List α → List α
  | [] => [x]
  | y :: ys => if less x y then y :: insertBack less x ys else x :: y :: ys

/-- `sort.Slice(data, less)` on a slice of at most 12 elements, where it is the
insertion sort `insertionSortLessFunc` (Go 1.19 and later); the program never sorts
more than 11 elements. -/
def sortSlice {α : Type} (less : α → α → Bool) (data : List α) : List α :=
  (data.foldl (fun done x => insertBack less x done) []).reverse

/-! ## The records -/

/-- The struct `ProcessInfo`. -/
structure ProcessInfo where
  PID : Int
  User : Str
  PR : Int
  NI : Int
  VIRT : Int
  RES : Int
  SHR : Int
  S : Str
  CPU : Float64
  MEM : Float64
  Time : Str
  Command : Str
  deriving DecidableEq

/-- The struct `CPUInfo`. -/
structure CPUInfo where
  Architecture : Str
  CPUOpModes : Str
  ByteOrder : Str
  CPUs : Int
  ThreadsPerCore : Int
  CoresPerSocket : Int
  Sockets : Int
  NUMANodes : Int
  VendorID : Str
  CPUFamily : Int
  Model : Int
  ModelName : Str
  CPUMHz : Float64
  BogoMIPS : Float64
  HypervisorVendor : Str
  VirtualizationType : Str
  L1DCache : Str
  L1ICache : Str
  L2Cache : Str
  L3Cache : Str
  NUMANode0CPUs : Str
  Flags : Str
  deriving DecidableEq

/-- The struct `DiskInfo`. -/
structure DiskInfo where
  Filesystem : Str
  Size : Str
  Used : Str
  Avail : Str
  UsePercent : Str
  MountedOn : Str
  deriving DecidableEq

/-- The struct `SystemInfo`. -/
structure SystemInfo where
  CPUInfo : CPUInfo
  ProcessInfo : List ProcessInfo
  DiskInfo : List DiskInfo
  deriving DecidableEq

/-- The zero value `CPUInfo{}` (`var cpuInfo CPUInfo`). -/
def CPUInfo.zero : CPUInfo :=
  ⟨[], [], [], 0, 0, 0, 0, 0, [], 0, 0, [], Float64.zero, Float64.zero,
   [], [], [], [], [], [], [], []⟩

/-! ## Files -/

/-- An error of the I/O layer, by its message `err.Error()`. -/
structure IOError where
  msg : Str
  deriving DecidableEq

/-- An opened file under a `bufio.Scanner`: the lines that the successive calls of
`scanner.Scan()` deliver until `Scan` returns false, and what `scanner.Err()` reports
then (an I/O error of the read, or `ErrTooLong`; `none` at the end of the file).
"Input" and "line", in the statements below, are the lines of a `ScanSource`. -/
structure ScanSource where
  lines : List Str
  err : Option IOError
  deriving DecidableEq

deriving instance DecidableEq for Except

/-- `bufio.MaxScanTokenSize`, the size the buffer of a `bufio.Scanner` grows to. -/
def maxScanTokenSize : Nat := 64 * 1024

/-- The error `bufio.ErrTooLong`. -/
def errTooLong : IOError := ⟨"bufio.Scanner: token too long".toList⟩

/-- The function `dropCR` of `bufio`: a carriage return at the end is dropped. -/
def dropCR (line : Str) : Str :=
  if line.getLast? = some '\r' then line.dropLast else line

/-- The scan of `bufio.ScanLines` under the buffer limit: `cur` is the line being read,
last character first. A line is delivered when its newline, or the end of the data,
is found with the line in the buffer; the scan stops with `ErrTooLong` at a line of
`maxScanTokenSize` bytes or more. -/
def scanLinesAux : Str → Str → List Str × Option IOError
  | [], cur =>
    if cur = [] then ([], none)
    else if maxScanTokenSize ≤ byteLen cur then ([], some errTooLong)
    else ([dropCR cur.reverse], none)
  | c :: cs, cur =>
    if c = '\n' then
      if maxScanTokenSize ≤ byteLen cur then ([], some errTooLong)
      else (dropCR cur.reverse :: (scanLinesAux cs []).1, (scanLinesAux cs []).2)
    else scanLinesAux cs (c :: cur)

/-- What a scanner delivers for a file with the text `data` that is read without an
I/O error. -/
def scanLines (data : Str) : ScanSource :=
  ⟨(scanLinesAux data []).1, (scanLinesAux data []).2⟩

/-- The file system: what `os.Open(filePath)` and the scanner give for each path. -/
abbrev FileSystem := Str → Except IOError ScanSource

/-! ## The parsers -/

/-- The `switch key` of `ReadAndParseCPUInfo`, cases in source order. -/
def cpuAssign (cpuInfo : CPUInfo) (key value : Str) : CPUInfo :=
  if key = "Architecture:".toList then { cpuInfo with Architecture := value }
  else if key = "CPUOpModes".toList then { cpuInfo with CPUOpModes := value }
  else if key = "Byte".toList then { cpuInfo with ByteOrder := value }
  else if key = "CPU(s):".toList then { cpuInfo with CPUs := (Atoi value).1 }
  else if key = "Thread(s)".toList then { cpuInfo with ThreadsPerCore := (Atoi value).1 }
  else if key = "Core(s)".toList then { cpuInfo with CoresPerSocket := (Atoi value).1 }
  else if key = "Socket(s):".toList then { cpuInfo with Sockets := (Atoi value).1 }
  else if key = "NUMANode0CPUs ".toList then { cpuInfo with NUMANodes := (Atoi value).1 }
  else if key = "VendorID ".toList then { cpuInfo with VendorID := value }
  else if key = "CPUFamily".toList then { cpuInfo with CPUFamily := (Atoi value).1 }
  else if key = "Model:".toList then { cpuInfo with Model := (Atoi value).1 }
  else if key = "ModelName".toList then { cpuInfo with ModelName := value }
  else if key = "CPUMHz".toList then { cpuInfo with CPUMHz := (ParseFloat value).1 }
  else if key = "BogoMIPS:".toList then { cpuInfo with BogoMIPS := (ParseFloat value).1 }
  else if key = "HypervisorVendor".toList then { cpuInfo with HypervisorVendor := value }
  else if key = "VirtualizationType ".toList then
    { cpuInfo with VirtualizationType := value }
  else if key = "L1DCache".toList then { cpuInfo with L1DCache := value }
  else if key = "L1ICache".toList then { cpuInfo with L1ICache := value }
  else if key = "L2Cache".toList then { cpuInfo with L2Cache := value }
  else if key = "L3Cache".toList then { cpuInfo with L3Cache := value }
  else if key = "NUMANode0CPUs".toList then { cpuInfo with NUMANode0CPUs := value }
  else if key = "Flags:".toList then { cpuInfo with Flags := value }
  else cpuInfo

/-- One iteration of the scan loop of `ReadAndParseCPUInfo`. -/
def cpuLine (cpuInfo : CPUInfo) (line : Str) : CPUInfo :=
  let fields := Fields line
  if fields.length < 2 then cpuInfo
  else cpuAssign cpuInfo (fields.headD []) (Join (fields.drop 1) " ".toList)

/-- `ReadAndParseCPUInfo(filePath)`, `file` being what `os.Open(filePath)` and the
scanner give. -/
def ReadAndParseCPUInfo (file : Except IOError ScanSource) : Except IOError CPUInfo :=
  match file with
  | Except.error err => Except.error err
  | Except.ok scanner =>
    let cpuInfo := scanner.lines.foldl cpuLine CPUInfo.zero
    match scanner.err with
    | some err => Except.error err
    | none => Except.ok cpuInfo

/-- The struct literal `ProcessInfo{...}` of `ReadAndParseTopOutput`, from the slice
`match` of the matched text and the twelve captured texts. -/
def processRecord (m : List Str) : ProcessInfo :=
  { PID := (Atoi (m.getD 1 [])).1
    User := m.getD 2 []
    PR := (Atoi (m.getD 3 [])).1
    NI := (Atoi (m.getD 4 [])).1
    VIRT := (ParseInt (m.getD 5 [])).1
    RES := (ParseInt (m.getD 6 [])).1
    SHR := (ParseInt (m.getD 7 [])).1
    S := m.getD 8 []
    CPU := (ParseFloat (m.getD 9 [])).1
    MEM := (ParseFloat (m.getD 10 [])).1
    Time := m.getD 11 []
    Command := m.getD 12 [] }

/-- The comparison handed to `sort.Slice`: `processInfoList[i].CPU > processInfoList[j].CPU`. -/
def cpuGreater (a b : ProcessInfo) : Bool := a.CPU.gt b.CPU

/-- One iteration of the scan loop of `ReadAndParseTopOutput`. -/
def topLine (processInfoList : List ProcessInfo) (line : Str) : List ProcessInfo :=
  let m := FindStringSubmatch processInfoRegex line
  if m.length = 13 then
    let sorted := sortSlice cpuGreater (processInfoList ++ [processRecord m])
    if sorted.length > 10 then sorted.take 10 else sorted
  else processInfoList

/-- `ReadAndParseTopOutput(filePath)`; `scanner.Err()` is not consulted. -/
def ReadAndParseTopOutput (file : Except IOError ScanSource) :
    Except IOError (List ProcessInfo) :=
  match file with
  | Except.error err => Except.error err
  | Except.ok scanner => Except.ok (scanner.lines.foldl topLine [])

/-- The struct literal `DiskInfo{...}` of `ReadAndParseDiskInfo`, from the slice `match`
of the matched text and the six captured texts. -/
def diskRecord (m : List Str) : DiskInfo :=
  { Filesystem := m.getD 1 [], Size := m.getD 2 [], Used := m.getD 3 []
    Avail := m.getD 4 [], UsePercent := m.getD 5 [], MountedOn := m.getD 6 [] }

/-- One iteration of the scan loop of `ReadAndParseDiskInfo`. -/
def diskLine (diskInfolist : List DiskInfo) (line : Str) : List DiskInfo :=
  let m := FindStringSubmatch diskInfoRegex line
  if m.length = 7 then diskInfolist ++ [diskRecord m] else diskInfolist

/-- `ReadAndParseDiskInfo(filePath)`; `scanner.Err()` is not consulted. -/
def ReadAndParseDiskInfo (file : Except IOError ScanSource) :
    Except IOError (List DiskInfo) :=
  match file with
  | Except.error err => Except.error err
  | Except.ok scanner => Except.ok (scanner.lines.foldl diskLine [])

/-! ## The handler -/

/-- What the handler wrote to the `http.ResponseWriter`. -/
structure Response where
  status : Nat
  contentType : Str
  body : Str
  deriving DecidableEq

/-- `http.Error(w, msg, code)`: a plain-text response, the message and a newline. -/
def httpError (msg : Str) (code : Nat) : Response :=
  ⟨code, "text/plain; charset=utf-8".toList, msg ++ "\n".toList⟩

/-- `HandleSystemInfo(w, r)`: `fs` is the file system at the time of the request,
`marshalIndent` stands for `json.MarshalIndent(systemInfo, "", "  ")`. -/
def HandleSystemInfo (fs : FileSystem) (marshalIndent : SystemInfo → Except IOError Str) :
    Response :=
  match ReadAndParseCPUInfo (fs "lscpu_out.txt".toList) with
  | Except.error err => httpError ("Error reading CPU info: ".toList ++ err.msg) 500
  | Except.ok cpuInfo =>
    match ReadAndParseTopOutput (fs "top.txt".toList) with
    | Except.error err => httpError ("Error reading top output: ".toList ++ err.msg) 500
    | Except.ok processInfoList =>
      match ReadAndParseDiskInfo (fs "df_output.txt".toList) with
      | Except.error err => httpError ("Error reading disk info: ".toList ++ err.msg) 500
      | Except.ok DiskInfoList =>
        let systemInfo : SystemInfo := ⟨cpuInfo, processInfoList, DiskInfoList⟩
        match marshalIndent systemInfo with
        | Except.error err =>
          httpError ("Error marshalling system info to JSON: ".toList ++ err.msg) 500
        | Except.ok jsonData => ⟨200, "application/json".toList, jsonData⟩

/-! ## Notions used to state the properties -/

/-- The number a string of decimal digits denotes. -/
def digitsVal (ds : Str) : Nat := ds.foldl (fun n c => n * 10 + digitVal c) 0

/-- A line matches the process-row pattern. -/
def IsProcessRow (line : Str) : Prop :=
  (FindStringSubmatch processInfoRegex line).length = 13

instance (line : Str) : Decidable (IsProcessRow line) :=
  inferInstanceAs (Decidable ((FindStringSubmatch processInfoRegex line).length = 13))

/-- The records of the lines that match the process-row pattern, in input order. -/
def processRows (lines : List Str) : List ProcessInfo :=
  (lines.filter (fun line => decide (IsProcessRow line))).map
    (fun line => processRecord (FindStringSubmatch processInfoRegex line))

/-- A line matches the disk-row pattern. -/
def IsDiskRow (line : Str) : Prop :=
  (FindStringSubmatch diskInfoRegex line).length = 7

instance (line : Str) : Decidable (IsDiskRow line) :=
  inferInstanceAs (Decidable ((FindStringSubmatch diskInfoRegex line).length = 7))

/-- The records of the lines that match the disk-row pattern, in input order. -/
def diskRows (lines : List Str) : List DiskInfo :=
  (lines.filter (fun line => decide (IsDiskRow line))).map
    (fun line => diskRecord (FindStringSubmatch diskInfoRegex line))

/-- The case labels of the `switch key` of `ReadAndParseCPUInfo`: the recognized keys. -/
def cpuKeys : List Str :=
  ["Architecture:".toList, "CPUOpModes".toList, "Byte".toList, "CPU(s):".toList,
   "Thread(s)".toList, "Core(s)".toList, "Socket(s):".toList, "NUMANode0CPUs ".toList,
   "VendorID ".toList, "CPUFamily".toList, "Model:".toList, "ModelName".toList,
   "CPUMHz".toList, "BogoMIPS:".toList, "HypervisorVendor".toList,
   "VirtualizationType ".toList, "L1DCache".toList, "L1ICache".toList, "L2Cache".toList,
   "L3Cache".toList, "NUMANode0CPUs".toList, "Flags:".toList]

/-- A token of the patterns: not empty, no character of the class `\s`. -/
def IsToken (t : Str) : Prop := t ≠ [] ∧ ∀ c ∈ t, reSpace c = false

/-- A separator of the patterns: a run of characters of the class `\s`, not empty. -/
def IsSep (w : Str) : Prop := w ≠ [] ∧ ∀ c ∈ w, reSpace c = true

/-- A string of decimal digits, not empty. -/
def IsDigits (ds : Str) : Prop := ds ≠ [] ∧ ∀ c ∈ ds, isDigit c = true

/-- The decimal numeral with integer digits `ip` and fraction digits `fp`: `ip` alone
when there are no fraction digits, `ip.fp` otherwise. -/
def decimalText (ip fp : Str) : Str := if fp = [] then ip else ip ++ '.' :: fp

/-- The text `text` is a decimal numeral of the integer `n`: digits, or a sign and
digits. -/
def IsIntText (text : Str) (n : Int) : Prop :=
  ∃ ds : Str, IsDigits ds ∧
    ((text = ds ∧ n = (digitsVal ds : Int)) ∨
     (text = '-' :: ds ∧ n = -(digitsVal ds : Int)) ∨
     (text = '+' :: ds ∧ n = (digitsVal ds : Int)))

/-- The first token of the line is not a number: after leading white space comes a
token, ended by white space or by the end of the line, with a character that is no
digit. -/
def FirstTokenNotDigits (line : Str) : Prop :=
  ∃ ws tok rest : Str, line = ws ++ (tok ++ rest) ∧ (∀ c ∈ ws, reSpace c = true) ∧
    IsToken tok ∧ (∀ c ∈ rest.head?, reSpace c = true) ∧ ∃ c ∈ tok, isDigit c = false

/-! ## Auxiliary notions of the proofs about sorting -/

/-- The comparison "the key of `a` is greater than the key of `b`". -/
def keyLess {α : Type} (f : α → Int) (a b : α) : Bool := decide (f b < f a)

/-- Insertion from the left: `x` is put before the first element that `less x` holds
of, at the end when there is none. -/
def insertFront {α : Type} (less : α → α → Bool) (x : α) : List α → List α
  | [] => [x]
  | b :: l => if less x b then x :: b :: l else b :: insertFront less x l

/-- The key that orders the process records: the sign-and-magnitude integer of the
CPU value. -/
def cpuKey (p : ProcessInfo) : Int := p.CPU.key

/-- The text of a process row, cut into its parts: leading white space, the twelve
columns, and the white space between them. The CPU and memory columns are decimal
numerals, given by their integer and fraction digits. -/
structure ProcessRowText where
  lead : Str
  pid : Str
  sep1 : Str
  user : Str
  sep2 : Str
  pr : Str
  sep3 : Str
  ni : Str
  sep4 : Str
  virt : Str
  sep5 : Str
  res : Str
  sep6 : Str
  shr : Str
  sep7 : Str
  state : Str
  sep8 : Str
  cpuInt : Str
  cpuFrac : Str
  sep9 : Str
  memInt : Str
  memFrac : Str
  sep10 : Str
  time : Str
  sep11 : Str
  command : Str

/-- The line the parts make. -/
def ProcessRowText.line (r : ProcessRowText) : Str :=
  r.lead ++ (r.pid ++ (r.sep1 ++ (r.user ++ (r.sep2 ++ (r.pr ++ (r.sep3 ++ (r.ni ++
    (r.sep4 ++ (r.virt ++ (r.sep5 ++ (r.res ++ (r.sep6 ++ (r.shr ++ (r.sep7 ++ (r.state ++
    (r.sep8 ++ (decimalText r.cpuInt r.cpuFrac ++ (r.sep9 ++
    (decimalText r.memInt r.memFrac ++ (r.sep10 ++ (r.time ++ (r.sep11 ++
    r.command))))))))))))))))))))))

/-- The parts are well formed: the six integer columns are strings of digits denoting
numbers below `2 ^ 63`; the CPU and memory columns are digits, with or without a point
and more digits; user, state and time are tokens; the separators are white space; the
command is the rest of the line, starting with no white space and holding no
newline. -/
def ProcessRowText.WellFormed (r : ProcessRowText) : Prop :=
  (∀ c ∈ r.lead, reSpace c = true) ∧
  (IsDigits r.pid ∧ digitsVal r.pid < 2 ^ 63) ∧
  (IsDigits r.pr ∧ digitsVal r.pr < 2 ^ 63) ∧
  (IsDigits r.ni ∧ digitsVal r.ni < 2 ^ 63) ∧
  (IsDigits r.virt ∧ digitsVal r.virt < 2 ^ 63) ∧
  (IsDigits r.res ∧ digitsVal r.res < 2 ^ 63) ∧
  (IsDigits r.shr ∧ digitsVal r.shr < 2 ^ 63) ∧
  (IsToken r.user ∧ IsToken r.state ∧ IsToken r.time) ∧
  (IsDigits r.cpuInt ∧ ∀ c ∈ r.cpuFrac, isDigit c = true) ∧
  (IsDigits r.memInt ∧ ∀ c ∈ r.memFrac, isDigit c = true) ∧
  (IsSep r.sep1 ∧ IsSep r.sep2 ∧ IsSep r.sep3 ∧ IsSep r.sep4 ∧ IsSep r.sep5 ∧
    IsSep r.sep6 ∧ IsSep r.sep7 ∧ IsSep r.sep8 ∧ IsSep r.sep9 ∧ IsSep r.sep10 ∧
    IsSep r.sep11) ∧
  (∀ c ∈ r.command.head?, reSpace c = false) ∧
  (∀ c ∈ r.command, reAny c = true)

/-- The record that carries the twelve values of the row: the numbers the integer
columns denote, the `float64` nearest to the two decimals, the four texts. -/
def ProcessRowText.record (r : ProcessRowText) : ProcessInfo :=
  { PID := digitsVal r.pid
    User := r.user
    PR := digitsVal r.pr
    NI := digitsVal r.ni
    VIRT := digitsVal r.virt
    RES := digitsVal r.res
    SHR := digitsVal r.shr
    S := r.state
    CPU := (roundFloat64 false (digitsVal (r.cpuInt ++ r.cpuFrac)) (10 ^ r.cpuFrac.length)).1
    MEM := (roundFloat64 false (digitsVal (r.memInt ++ r.memFrac)) (10 ^ r.memFrac.length)).1
    Time := r.time
    Command := r.command }

/-- A sample row, cut into its parts. -/
def sampleRow : ProcessRowText :=
  { lead := " ".toList, pid := "1234".toList, sep1 := " ".toList, user := "root".toList
    sep2 := "      ".toList, pr := "20".toList, sep3 := "   ".toList, ni := "0".toList
    sep4 := "  ".toList, virt := "123456".toList, sep5 := "   ".toList
    res := "7890".toList, sep6 := "   ".toList, shr := "1234".toList, sep7 := " ".toList
    state := "S".toList, sep8 := "  ".toList, cpuInt := "12".toList, cpuFrac := "5".toList
    sep9 := "   ".toList, memInt := "0".toList, memFrac := "3".toList
    sep10 := "   ".toList, time := "1:23.45".toList, sep11 := " ".toList
    command := "/usr/bin/foo --bar baz".toList }

/-- A sample process table: a header line, a blank line and fifteen rows with distinct
CPU values, not in order. -/
def sampleTop : List Str :=
  ["  PID USER      PR  NI    VIRT    RES    SHR S  %CPU  %MEM     TIME+ COMMAND".toList,
   "".toList,
   "  101 root      20   0   16912   1408   1284 S   3.5   0.1   0:01.10 systemd".toList,
   "  102 alice     20   0  910212  90344  30212 R  42.0   2.3   1:12.04 firefox".toList,
   "  103 bob       20   0   22704   5112   3380 S   0.7   0.1   0:00.31 bash".toList,
   "  104 root      20   0  123456   7890   1234 S  12.5   0.3   1:23.45 dockerd --debug".toList,
   "  105 carol     20   0  402112  41200  12004 S   7.1   1.0   0:44.09 code".toList,
   "  106 root      20   0    8120    904    800 S   0.0   0.0   0:00.02 cron".toList,
   "  107 dave      20   0  611004  70112  22100 R  99.9   1.8   9:59.59 stress -c 1".toList,
   "  108 root      20   0   30112   4100   3100 S   1.3   0.1   0:03.21 sshd".toList,
   "  109 erin      20   0  220100  18100   9100 S   5.0   0.4   0:10.00 vim notes.txt".toList,
   "  110 root      20   0   51200   6100   4100 S   2.2   0.1   0:05.55 rsyslogd".toList,
   "  111 frank     20   0  800100  99100  40100 R  63.4   2.5   4:04.04 chrome".toList,
   "  112 root      20   0   12100   2100   1100 S   0.3   0.0   0:00.77 agetty".toList,
   "  113 grace     20   0  300100  30100  10100 S  17.3   0.7   2:02.02 python3 app.py".toList,
   "  114 root      20   0   70100   8100   5100 S   8.5   0.2   0:30.30 nginx".toList,
   "  115 heidi     20   0  150100  15100   7100 S  25.0   0.4   3:03.03 java -jar a.jar".toList]

/-! ## Further notions used to state the properties -/

/-- Go's comparison `a >= b` on `float64`: false when an operand is a NaN. -/
def Float64.ge (a b : Float64) : Bool :=
  !a.isNaN && !b.isNaN && decide (b.key ≤ a.key)

/-- A list of records in descending (non-increasing) order of `CPU`: each record's
`CPU` is greater than or equal to that of every record after it. -/
def NonIncreasing (l : List ProcessInfo) : Prop :=
  l.Pairwise (fun a b => a.CPU.gt b.CPU = true ∨ a.CPU = b.CPU)

/-- The working list of `ReadAndParseTopOutput` after the lines `seen` have been
scanned. -/
def workingList (seen : List Str) : List ProcessInfo := seen.foldl topLine []

/-- The records of `l` whose `CPU` is `v`, in the order of `l`. -/
def withCPU (v : Float64) (l : List ProcessInfo) : List ProcessInfo :=
  l.filter (fun p => decide (p.CPU = v))

/-- Sorting once by `CPU` descending, records of equal `CPU` staying in their order:
each record, from the last to the first, is put in front of the first record of the
sorted rest that it is greater than or equal to. -/
def sortOnceStable (rows : List ProcessInfo) : List ProcessInfo :=
  List.insertionSort (fun a b => a.CPU.ge b.CPU = true) rows

/-- The collect-all reference: the records of all matching lines in input order,
sorted once by `CPU` descending with equal records in input order, cut to the first
ten. -/
def collectAllTop (lines : List Str) : List ProcessInfo :=
  (sortOnceStable (processRows lines)).take 10

/-- A line of exactly six tokens separated by white space, with no white space in
front and any white space behind; white space is the class `\s` of the pattern. -/
def SixTokens (line : Str) : Prop :=
  ∃ t1 w1 t2 w2 t3 w3 t4 w4 t5 w5 t6 w6 : Str,
    line = t1 ++ (w1 ++ (t2 ++ (w2 ++ (t3 ++ (w3 ++ (t4 ++ (w4 ++ (t5 ++ (w5 ++
      (t6 ++ w6)))))))))) ∧
    IsToken t1 ∧ IsSep w1 ∧ IsToken t2 ∧ IsSep w2 ∧ IsToken t3 ∧ IsSep w3 ∧
    IsToken t4 ∧ IsSep w4 ∧ IsToken t5 ∧ IsSep w5 ∧ IsToken t6 ∧
    (∀ c ∈ w6, reSpace c = true)

/-- A value held by a field of `CPUInfo`: a `string`, an `int` or a `float64`. -/
inductive FieldValue
  | text (s : Str)
  | int (n : Int)
  | float (x : Float64)
  deriving DecidableEq

/-- The fields of the struct `CPUInfo`. -/
inductive CPUField
  | Architecture | CPUOpModes | ByteOrder | CPUs | ThreadsPerCore | CoresPerSocket
  | Sockets | NUMANodes | VendorID | CPUFamily | Model | ModelName | CPUMHz | BogoMIPS
  | HypervisorVendor | VirtualizationType | L1DCache | L1ICache | L2Cache | L3Cache
  | NUMANode0CPUs | Flags
  deriving DecidableEq

/-- The case label of the `switch` of `ReadAndParseCPUInfo` whose body assigns the
field. -/
def CPUField.key : CPUField → Str
  | .Architecture => "Architecture:".toList
  | .CPUOpModes => "CPUOpModes".toList
  | .ByteOrder => "Byte".toList
  | .CPUs => "CPU(s):".toList
  | .ThreadsPerCore => "Thread(s)".toList
  | .CoresPerSocket => "Core(s)".toList
  | .Sockets => "Socket(s):".toList
  | .NUMANodes => "NUMANode0CPUs ".toList
  | .VendorID => "VendorID ".toList
  | .CPUFamily => "CPUFamily".toList
  | .Model => "Model:".toList
  | .ModelName => "ModelName".toList
  | .CPUMHz => "CPUMHz".toList
  | .BogoMIPS => "BogoMIPS:".toList
  | .HypervisorVendor => "HypervisorVendor".toList
  | .VirtualizationType => "VirtualizationType ".toList
  | .L1DCache => "L1DCache".toList
  | .L1ICache => "L1ICache".toList
  | .L2Cache => "L2Cache".toList
  | .L3Cache => "L3Cache".toList
  | .NUMANode0CPUs => "NUMANode0CPUs".toList
  | .Flags => "Flags:".toList

/-- The value of a field in a descriptor. -/
def CPUField.get : CPUField → CPUInfo → FieldValue
  | .Architecture, c => .text c.Architecture
  | .CPUOpModes, c => .text c.CPUOpModes
  | .ByteOrder, c => .text c.ByteOrder
  | .CPUs, c => .int c.CPUs
  | .ThreadsPerCore, c => .int c.ThreadsPerCore
  | .CoresPerSocket, c => .int c.CoresPerSocket
  | .Sockets, c => .int c.Sockets
  | .NUMANodes, c => .int c.NUMANodes
  | .VendorID, c => .text c.VendorID
  | .CPUFamily, c => .int c.CPUFamily
  | .Model, c => .int c.Model
  | .ModelName, c => .text c.ModelName
  | .CPUMHz, c => .float c.CPUMHz
  | .BogoMIPS, c => .float c.BogoMIPS
  | .HypervisorVendor, c => .text c.HypervisorVendor
  | .VirtualizationType, c => .text c.VirtualizationType
  | .L1DCache, c => .text c.L1DCache
  | .L1ICache, c => .text c.L1ICache
  | .L2Cache, c => .text c.L2Cache
  | .L3Cache, c => .text c.L3Cache
  | .NUMANode0CPUs, c => .text c.NUMANode0CPUs
  | .Flags, c => .text c.Flags

/-- The zero value of the type of a field: the empty string, `0` or `0.0`. -/
def CPUField.zeroValue (f : CPUField) : FieldValue :=
  match f.get CPUInfo.zero with
  | .text _ => .text []
  | .int _ => .int 0
  | .float _ => .float Float64.zero

/-- What the case body of a field stores for the value text of a line: the text
itself, or the first result of `strconv.Atoi` or of `strconv.ParseFloat`, the second
result being discarded. -/
def CPUField.stored (f : CPUField) (value : Str) : FieldValue :=
  match f.get CPUInfo.zero with
  | .text _ => .text value
  | .int _ => .int (Atoi value).1
  | .float _ => .float (ParseFloat value).1

/-- The error that the conversion of the value text of a field reports, `none` for a
text field and for a conversion that succeeds. -/
def CPUField.conversionError (f : CPUField) (value : Str) : Option NumError :=
  match f.get CPUInfo.zero with
  | .text _ => none
  | .int _ => (Atoi value).2
  | .float _ => (ParseFloat value).2

/-- The first token of a line, if it has one. -/
def firstToken (line : Str) : Option Str := (Fields line).head?

/-- A line of at least two tokens whose first token is `key`: a line on which the
`switch` of `ReadAndParseCPUInfo` is run with that key. -/
def HasKey (key : Str) (line : Str) : Prop :=
  firstToken line = some key ∧ 2 ≤ (Fields line).length

instance (key line : Str) : Decidable (HasKey key line) :=
  inferInstanceAs (Decidable (firstToken line = some key ∧ 2 ≤ (Fields line).length))

/-- The text of a process table whose second line has 65536 bytes, one more than a
scanner with the default buffer delivers. -/
def overlongTop : Str :=
  "1 root 20 0 9 8 7 S 1.5 0.1 0:01 init".toList ++ '\n' ::
    (List.replicate 65536 'x' ++ '\n' :: "2 root 20 0 9 8 7 S 2.5 0.1 0:02 sh\n".toList)

/-- The text of a disk table whose second line has 65536 bytes. -/
def overlongDisk : Str :=
  "/dev/sda1 50G 20G 30G 40% /".toList ++ '\n' ::
    (List.replicate 65536 'x' ++ '\n' :: "tmpfs 2G 0 2G 0% /tmp\n".toList)

/-- The header line of `df -h`: seven tokens. -/
def dfHeader : Str := "Filesystem      Size  Used Avail Use% Mounted on".toList

/-- A row with four columns. -/
def dfShortRow : Str := "tmpfs 2G 0 2G".toList

/-- A row whose mount point holds a space: seven tokens. -/
def dfSpacedMount : Str := "/dev/sdb1 1T 1G 1T 1% /mnt/my disk".toList

/-- A row of six tokens behind a blank. -/
def dfIndentedRow : Str := " /dev/sda1 50G 20G 30G 40% /".toList

/-- A row of six tokens with blanks behind. -/
def dfRow : Str := "/dev/sda1   50G  20G  30G  40% /  ".toList

/-- A process table of twelve rows that all have the CPU value `1.0`, with the process
ids 1 to 12 in input order. -/
def sampleTies : List Str :=
  ["1 root 20 0 9 8 7 S 1.0 0.1 0:01 a".toList, "2 root 20 0 9 8 7 S 1.0 0.1 0:01 b".toList,
   "3 root 20 0 9 8 7 S 1.0 0.1 0:01 c".toList, "4 root 20 0 9 8 7 S 1.0 0.1 0:01 d".toList,
   "5 root 20 0 9 8 7 S 1.0 0.1 0:01 e".toList, "6 root 20 0 9 8 7 S 1.0 0.1 0:01 f".toList,
   "7 root 20 0 9 8 7 S 1.0 0.1 0:01 g".toList, "8 root 20 0 9 8 7 S 1.0 0.1 0:01 h".toList,
   "9 root 20 0 9 8 7 S 1.0 0.1 0:01 i".toList, "10 root 20 0 9 8 7 S 1.0 0.1 0:01 j".toList,
   "11 root 20 0 9 8 7 S 1.0 0.1 0:01 k".toList, "12 root 20 0 9 8 7 S 1.0 0.1 0:01 l".toList]

/-- Lines that begin with the labels `VendorID`, `VirtualizationType` and
`NUMANode0CPUs` written without a space at the end. -/
def spaceKeyLines : List Str :=
  ["VendorID GenuineIntel".toList, "ModelName GenuineIntel".toList,
   "VirtualizationType full".toList, "NUMANode0CPUs 0-3".toList]

/-- The descriptor that `ReadAndParseCPUInfo` returns for `spaceKeyLines`. -/
def spaceKeyInfo : CPUInfo :=
  { CPUInfo.zero with ModelName := "GenuineIntel".toList, NUMANode0CPUs := "0-3".toList }

/-- Two lines for the CPU count, the second with a digit string beyond the `int`
range. -/
def repeatedCount : List Str :=
  ["CPU(s): 4".toList, "CPU(s): 99999999999999999999".toList]

/-- The text begins with a decimal numeral, with or without a plus sign, of a number
above the largest `int`: the digits `ds`, with `rest` behind them. -/
def AboveIntRange (text : Str) : Prop :=
  ∃ ds rest : Str, IsDigits ds ∧ (text = ds ++ rest ∨ text = '+' :: (ds ++ rest)) ∧
    2 ^ 63 ≤ digitsVal ds

/-- The text begins with a decimal numeral, with a minus sign, of a number below the
smallest `int`. -/
def BelowIntRange (text : Str) : Prop :=
  ∃ ds rest : Str, IsDigits ds ∧ text = '-' :: (ds ++ rest) ∧ 2 ^ 63 < digitsVal ds

/-- The text begins with a minus sign. -/
def HasMinus (text : Str) : Prop := text.head? = some '-'

/-- The value that the side of a range error gives a numeric field: for the text of a
number above the range the largest `int`, for one below it the smallest `int`; for a
floating-point text with a minus sign the negative infinity, for one without it the
positive infinity. -/
def RangeBound (text : Str) (stored : FieldValue) : Prop :=
  (AboveIntRange text ∧ stored = FieldValue.int (2 ^ 63 - 1)) ∨
  (BelowIntRange text ∧ stored = FieldValue.int (-(2 ^ 63))) ∨
  (¬ HasMinus text ∧ stored = FieldValue.float (Float64.inf false)) ∨
  (HasMinus text ∧ stored = FieldValue.float (Float64.inf true))

/-! ## The pattern matcher -/

theorem tryLens_hit (k : Str → Option (List Str)) (a : Atom) (s : Str) (n : Nat)
    (caps : List Str) (hmin : a.min ≤ n) (hk : k (s.drop n) = some caps) :
    tryLens k a s n = some (if a.capture then s.take n :: caps else caps) := by
  cases n with
  | zero =>
    have h0 : a.min = 0 := Nat.le_zero.mp hmin
    have hk0 : k s = some caps := by simpa using hk
    simp [tryLens, h0, hk0]
  | succ n =>
    have hlt : ¬ (n + 1 < a.min) := Nat.not_lt.mpr hmin
    simp [tryLens, hlt, hk]

theorem takeWhile_run (p : Char → Bool) (run tail : Str)
    (hrun : ∀ c ∈ run, p c = true) (htail : ∀ c ∈ tail.head?, p c = false) :
    (run ++ tail).takeWhile p = run := by
  induction run with
  | nil =>
    cases tail with
    | nil => rfl
    | cons c cs =>
      have hc : p c = false := htail c (by simp)
      simp [List.takeWhile, hc]
  | cons c cs ih =>
    have hc : p c = true := hrun c (by simp)
    have ih2 := ih (fun d hd => hrun d (by simp [hd]))
    simp [List.takeWhile, hc, ih2]

/-- A repetition that takes a whole run of its class, the rest of the pattern matching
what follows, is the match found. -/
theorem matchAtoms_run (a : Atom) (rest : List Atom) (run tail : Str) (caps : List Str)
    (hrun : ∀ c ∈ run, a.cls c = true) (htail : ∀ c ∈ tail.head?, a.cls c = false)
    (hmin : a.min ≤ run.length) (hrest : matchAtoms rest tail = some caps) :
    matchAtoms (a :: rest) (run ++ tail) =
      some (if a.capture then run :: caps else caps) := by
  have htw := takeWhile_run a.cls run tail hrun htail
  have hdrop : (run ++ tail).drop run.length = tail := by simp
  have htake : (run ++ tail).take run.length = run := by simp
  have h := tryLens_hit (matchAtoms rest) a (run ++ tail) run.length caps hmin
    (by rw [hdrop]; exact hrest)
  rw [htake] at h
  simp only [matchAtoms]
  rw [htw]
  exact h

theorem head_append_class (p : Char → Bool) (b : Bool) (nxt more : Str) (hne : nxt ≠ [])
    (h : ∀ c ∈ nxt, p c = b) : ∀ c ∈ (nxt ++ more).head?, p c = b := by
  intro c hc
  cases nxt with
  | nil => exact absurd rfl hne
  | cons d ds =>
    simp at hc
    subst hc
    exact h _ (by simp)

/-- A captured token followed by a separator. -/
theorem matchAtoms_token_sep (cls : Char → Bool) (rest : List Atom) (t w tail : Str)
    (caps : List Str) (hcls : ∀ c, cls c = true → reSpace c = false)
    (hne : t ≠ []) (ht : ∀ c ∈ t, cls c = true) (hw : IsSep w)
    (htail : ∀ c ∈ tail.head?, reSpace c = false)
    (hrest : matchAtoms rest tail = some caps) :
    matchAtoms (⟨cls, 1, true⟩ :: ⟨reSpace, 1, false⟩ :: rest) (t ++ (w ++ tail)) =
      some (t :: caps) := by
  have h2 : matchAtoms (⟨reSpace, 1, false⟩ :: rest) (w ++ tail) = some caps := by
    have := matchAtoms_run ⟨reSpace, 1, false⟩ rest w tail caps hw.2 htail
      (by
        have : 0 < w.length := List.length_pos.mpr hw.1
        exact this) hrest
    simpa using this
  have h1 := matchAtoms_run ⟨cls, 1, true⟩ (⟨reSpace, 1, false⟩ :: rest) t (w ++ tail) caps
    ht
    (by
      apply head_append_class cls false w tail hw.1
      intro c hc
      cases hcc : cls c with
      | false => rfl
      | true =>
        have := hcls c hcc
        rw [hw.2 c hc] at this
        exact absurd this (by decide))
    (List.length_pos.mpr hne) h2
  simpa using h1

theorem token_head (t more : Str) (ht : IsToken t) :
    ∀ c ∈ (t ++ more).head?, reSpace c = false :=
  head_append_class reSpace false t more ht.1 ht.2

theorem reNonSpace_class (c : Char) (h : reNonSpace c = true) : reSpace c = false := by
  simpa [reNonSpace] using h

/-- Six tokens with separators between them match the disk-row pattern, each capture
group holding its token. -/
theorem disk_match (t1 t2 t3 t4 t5 t6 w1 w2 w3 w4 w5 w6 : Str)
    (h1 : IsToken t1) (h2 : IsToken t2) (h3 : IsToken t3) (h4 : IsToken t4)
    (h5 : IsToken t5) (h6 : IsToken t6)
    (s1 : IsSep w1) (s2 : IsSep w2) (s3 : IsSep w3) (s4 : IsSep w4) (s5 : IsSep w5)
    (s6 : ∀ c ∈ w6, reSpace c = true) :
    matchAtoms diskInfoRegex
        (t1 ++ (w1 ++ (t2 ++ (w2 ++ (t3 ++ (w3 ++ (t4 ++ (w4 ++ (t5 ++ (w5 ++
          (t6 ++ w6))))))))))) =
      some [t1, t2, t3, t4, t5, t6] := by
  have ns : ∀ t : Str, IsToken t → ∀ c ∈ t, reNonSpace c = true := by
    intro t ht c hc
    simp [reNonSpace, ht.2 c hc]
  have e6 : matchAtoms [⟨reNonSpace, 1, true⟩, ⟨reSpace, 0, false⟩] (t6 ++ w6) =
      some [t6] := by
    have hw : matchAtoms [⟨reSpace, 0, false⟩] (w6 ++ []) = some [] := by
      have := matchAtoms_run ⟨reSpace, 0, false⟩ [] w6 [] [] s6 (by simp) (Nat.zero_le _)
        (by simp [matchAtoms])
      simpa using this
    rw [List.append_nil] at hw
    have := matchAtoms_run ⟨reNonSpace, 1, true⟩ [⟨reSpace, 0, false⟩] t6 w6 [] (ns t6 h6)
      (by
        intro c hc
        have hc2 : c ∈ w6 := List.mem_of_mem_head? hc
        simp [reNonSpace, s6 c hc2])
      (List.length_pos.mpr h6.1) hw
    simpa using this
  unfold diskInfoRegex
  exact matchAtoms_token_sep reNonSpace _ t1 w1 _ _ reNonSpace_class h1.1 (ns t1 h1) s1
    (token_head t2 _ h2)
    (matchAtoms_token_sep reNonSpace _ t2 w2 _ _ reNonSpace_class h2.1 (ns t2 h2) s2
      (token_head t3 _ h3)
      (matchAtoms_token_sep reNonSpace _ t3 w3 _ _ reNonSpace_class h3.1 (ns t3 h3) s3
        (token_head t4 _ h4)
        (matchAtoms_token_sep reNonSpace _ t4 w4 _ _ reNonSpace_class h4.1 (ns t4 h4) s4
          (token_head t5 _ h5)
          (matchAtoms_token_sep reNonSpace _ t5 w5 _ _ reNonSpace_class h5.1 (ns t5 h5) s5
            (token_head t6 _ h6) e6))))

/-! ## The disk parser -/

theorem foldl_diskLine (lines : List Str) (acc : List DiskInfo) :
    lines.foldl diskLine acc = acc ++ diskRows lines := by
  induction lines generalizing acc with
  | nil => simp [diskRows]
  | cons line rest ih =>
    rw [List.foldl_cons, ih]
    by_cases h : IsDiskRow line
    · have h7 : (FindStringSubmatch diskInfoRegex line).length = 7 := h
      simp [diskLine, diskRows, h, h7]
    · have h7 : ¬ (FindStringSubmatch diskInfoRegex line).length = 7 := h
      simp [diskLine, diskRows, h, h7]

/-! ## strconv on digit strings -/

theorem digitsVal_foldl_ge (ds : Str) (n : Nat) :
    n ≤ ds.foldl (fun n c => n * 10 + digitVal c) n := by
  induction ds generalizing n with
  | nil => simp
  | cons c cs ih =>
    simp only [List.foldl_cons]
    have := ih (n * 10 + digitVal c)
    omega

theorem parseUintLoop_digits (ds : Str) (n : Nat) (hd : ∀ c ∈ ds, isDigit c = true)
    (hr : ds.foldl (fun n c => n * 10 + digitVal c) n ≤ maxUint64) :
    parseUintLoop ds n = (ds.foldl (fun n c => n * 10 + digitVal c) n, none) := by
  induction ds generalizing n with
  | nil => simp [parseUintLoop]
  | cons c cs ih =>
    have hc : isDigit c = true := hd c (by simp)
    simp only [List.foldl_cons] at hr ⊢
    have hge := digitsVal_foldl_ge cs (n * 10 + digitVal c)
    have h1 : ¬ (n ≥ maxUint64 / 10 + 1) := by
      have : maxUint64 = 18446744073709551615 := by decide
      omega
    have h2 : ¬ (n * 10 + digitVal c > maxUint64) := by omega
    simp only [parseUintLoop, hc, if_true, h1, h2, if_false]
    exact ih _ (fun d hd' => hd d (by simp [hd'])) hr

theorem ParseUint_digits (ds : Str) (hds : IsDigits ds) (hr : digitsVal ds ≤ maxUint64) :
    ParseUint ds = (digitsVal ds, none) := by
  unfold ParseUint
  rw [if_neg hds.1]
  exact parseUintLoop_digits ds 0 hds.2 hr

theorem atoiFastLoop_digits (ds : Str) (n : Nat) (hd : ∀ c ∈ ds, isDigit c = true) :
    atoiFastLoop ds n = some (ds.foldl (fun n c => n * 10 + digitVal c) n) := by
  induction ds generalizing n with
  | nil => simp [atoiFastLoop]
  | cons c cs ih =>
    have hc : isDigit c = true := hd c (by simp)
    simp only [atoiFastLoop, hc, if_true, List.foldl_cons]
    exact ih _ (fun d hd' => hd d (by simp [hd']))

theorem digit_not_sign (c : Char) (hc : isDigit c = true) : c ≠ '+' ∧ c ≠ '-' := by
  constructor
  · intro h
    subst h
    exact absurd hc (by decide)
  · intro h
    subst h
    exact absurd hc (by decide)

/-- `ParseInt` on an unsigned digit string whose value fits in `int64`. -/
theorem ParseInt_digits (ds : Str) (hds : IsDigits ds) (hr : digitsVal ds < 2 ^ 63) :
    ParseInt ds = ((digitsVal ds : Int), none) := by
  obtain ⟨hne, hd⟩ := hds
  cases ds with
  | nil => exact absurd rfl hne
  | cons c cs =>
    have hc := digit_not_sign c (hd c (by simp))
    have hu := ParseUint_digits (c :: cs) ⟨hne, hd⟩
      (by have : maxUint64 = 18446744073709551615 := by decide
          omega)
    have hnot : ¬ (digitsVal (c :: cs) ≥ 2 ^ 63) := by omega
    simp [ParseInt, hc.1, hc.2, hu, hnot]
    omega

/-- `ParseInt` on a digit string with a minus sign whose value fits in `int64`. -/
theorem ParseInt_neg_digits (ds : Str) (hds : IsDigits ds) (hr : digitsVal ds ≤ 2 ^ 63) :
    ParseInt ('-' :: ds) = (-(digitsVal ds : Int), none) := by
  have hu := ParseUint_digits ds hds
    (by have : maxUint64 = 18446744073709551615 := by decide
        omega)
  have hnot : ¬ (digitsVal ds > 2 ^ 63) := by omega
  simp [ParseInt, hu, hnot]
  omega

/-- `ParseInt` on a digit string with a plus sign whose value fits in `int64`. -/
theorem ParseInt_pos_digits (ds : Str) (hds : IsDigits ds) (hr : digitsVal ds < 2 ^ 63) :
    ParseInt ('+' :: ds) = ((digitsVal ds : Int), none) := by
  have hu := ParseUint_digits ds hds
    (by have : maxUint64 = 18446744073709551615 := by decide
        omega)
  have hnot : ¬ (digitsVal ds ≥ 2 ^ 63) := by omega
  simp [ParseInt, hu, hnot]
  omega

/-- `Atoi` on an unsigned digit string whose value fits in `int`. -/
theorem Atoi_digits (ds : Str) (hds : IsDigits ds) (hr : digitsVal ds < 2 ^ 63) :
    Atoi ds = ((digitsVal ds : Int), none) := by
  unfold Atoi
  split
  · obtain ⟨hne, hd⟩ := hds
    cases ds with
    | nil => exact absurd rfl hne
    | cons c cs =>
      have hc := digit_not_sign c (hd c (by simp))
      have hl := atoiFastLoop_digits (c :: cs) 0 hd
      simp only [hc.1, hc.2, or_self, if_false, hl]
      simp [digitsVal]
  · exact ParseInt_digits ds hds hr

/-- `Atoi` on a digit string with a minus sign whose value fits in `int`. -/
theorem Atoi_neg_digits (ds : Str) (hds : IsDigits ds) (hr : digitsVal ds ≤ 2 ^ 63) :
    Atoi ('-' :: ds) = (-(digitsVal ds : Int), none) := by
  unfold Atoi
  split
  · have hl := atoiFastLoop_digits ds 0 hds.2
    simp [hds.1, hl, digitsVal]
  · exact ParseInt_neg_digits ds hds hr

/-- `Atoi` on a digit string with a plus sign whose value fits in `int`. -/
theorem Atoi_pos_digits (ds : Str) (hds : IsDigits ds) (hr : digitsVal ds < 2 ^ 63) :
    Atoi ('+' :: ds) = ((digitsVal ds : Int), none) := by
  unfold Atoi
  split
  · have hl := atoiFastLoop_digits ds 0 hds.2
    simp [hds.1, hl, digitsVal]
  · exact ParseInt_pos_digits ds hds hr

/-- `Atoi` on any decimal numeral of an integer in the `int` range. -/
theorem Atoi_intText (text : Str) (n : Int) (h : IsIntText text n)
    (hlo : -(2 ^ 63) ≤ n) (hhi : n < 2 ^ 63) : Atoi text = (n, none) := by
  obtain ⟨ds, hds, h | h | h⟩ := h
  · obtain ⟨h1, h2⟩ := h
    subst h1 h2
    exact Atoi_digits _ hds (by omega)
  · obtain ⟨h1, h2⟩ := h
    subst h1 h2
    exact Atoi_neg_digits ds hds (by omega)
  · obtain ⟨h1, h2⟩ := h
    subst h1 h2
    exact Atoi_pos_digits ds hds (by omega)

theorem ParseInt_syntax_zero (s : Str) (h : (ParseInt s).2 = some NumError.ErrSyntax) :
    (ParseInt s).1 = 0 := by
  cases s with
  | nil => rfl
  | cons c cs =>
    simp only [ParseInt] at h ⊢
    generalize (if c = '+' ∨ c = '-' then cs else c :: cs) = body at h ⊢
    generalize decide (c = '-') = neg at h ⊢
    rcases hpu : ParseUint body with ⟨un, _ | e⟩
    · rw [hpu] at h
      simp only at h
      split at h
      · simp at h
      · split at h <;> simp at h
    · cases e with
      | ErrSyntax => rfl
      | ErrRange =>
        rw [hpu] at h
        simp only at h
        split at h
        · simp at h
        · split at h <;> simp at h

theorem ParseInt_range_saturates (s : Str) (h : (ParseInt s).2 = some NumError.ErrRange) :
    (ParseInt s).1 = 2 ^ 63 - 1 ∨ (ParseInt s).1 = -(2 ^ 63) := by
  cases s with
  | nil => simp [ParseInt] at h
  | cons c cs =>
    simp only [ParseInt] at h ⊢
    generalize (if c = '+' ∨ c = '-' then cs else c :: cs) = body at h ⊢
    generalize decide (c = '-') = neg at h ⊢
    rcases hpu : ParseUint body with ⟨un, _ | e⟩
    · rw [hpu] at h
      simp only at h ⊢
      split
      · left; rfl
      · rename_i h1
        rw [if_neg h1] at h
        split
        · right; rfl
        · rename_i h2
          rw [if_neg h2] at h
          simp at h
    · cases e with
      | ErrSyntax =>
        rw [hpu] at h
        simp at h
      | ErrRange =>
        rw [hpu] at h
        simp only at h ⊢
        split
        · left; rfl
        · rename_i h1
          rw [if_neg h1] at h
          split
          · right; rfl
          · rename_i h2
            rw [if_neg h2] at h
            simp at h

theorem Atoi_syntax_zero (s : Str) (h : (Atoi s).2 = some NumError.ErrSyntax) :
    (Atoi s).1 = 0 := by
  unfold Atoi at h ⊢
  by_cases hlen : 0 < byteLen s ∧ byteLen s < 19
  · rw [if_pos hlen] at h ⊢
    cases s with
    | nil => rfl
    | cons c cs =>
      simp only at h ⊢
      generalize (if c = '-' ∨ c = '+' then cs else c :: cs) = body at h ⊢
      by_cases hb : body = []
      · rw [if_pos hb]
      · rw [if_neg hb] at h ⊢
        rcases hl : atoiFastLoop body 0 with _ | n
        · rfl
        · rw [hl] at h
          simp at h
  · rw [if_neg hlen] at h ⊢
    exact ParseInt_syntax_zero s h

theorem Atoi_range_saturates (s : Str) (h : (Atoi s).2 = some NumError.ErrRange) :
    (Atoi s).1 = 2 ^ 63 - 1 ∨ (Atoi s).1 = -(2 ^ 63) := by
  unfold Atoi at h ⊢
  by_cases hlen : 0 < byteLen s ∧ byteLen s < 19
  · rw [if_pos hlen] at h
    cases s with
    | nil => simp at h
    | cons c cs =>
      simp only at h
      generalize (if c = '-' ∨ c = '+' then cs else c :: cs) = body at h
      by_cases hb : body = []
      · rw [if_pos hb] at h
        simp at h
      · rw [if_neg hb] at h
        rcases hl : atoiFastLoop body 0 with _ | n
        · rw [hl] at h
          simp at h
        · rw [hl] at h
          simp at h
  · rw [if_neg hlen] at h ⊢
    exact ParseInt_range_saturates s h

theorem roundFloat64_no_syntax_error (neg : Bool) (num den : Nat) :
    (roundFloat64 neg num den).2 ≠ some NumError.ErrSyntax := by
  unfold roundFloat64
  split
  · simp
  · split <;> simp

theorem roundFloat64_range_inf (neg : Bool) (num den : Nat)
    (h : (roundFloat64 neg num den).2 = some NumError.ErrRange) :
    (roundFloat64 neg num den).1 = Float64.inf neg := by
  unfold roundFloat64 at h ⊢
  split at h
  · simp at h
  · rename_i h0
    rw [if_neg h0]
    split at h
    · rename_i h1
      rw [if_pos h1]
    · simp at h

theorem ParseFloat_syntax_zero (s : Str) (h : (ParseFloat s).2 = some NumError.ErrSyntax) :
    (ParseFloat s).1 = Float64.zero := by
  unfold ParseFloat at h ⊢
  rcases hsp : special s with _ | ⟨v, rest⟩
  · rw [hsp] at h
    simp only at h ⊢
    rcases hrf : readFloat s with _ | r
    · rfl
    · rw [hrf] at h
      simp only at h ⊢
      by_cases hrest : r.rest = []
      · rw [if_pos hrest] at h
        exact absurd h (roundFloat64_no_syntax_error _ _ _)
      · rw [if_neg hrest]
  · rw [hsp] at h
    simp only at h ⊢
    by_cases hrest : rest = []
    · rw [if_pos hrest] at h
      simp at h
    · rw [if_neg hrest]

theorem ParseFloat_range_inf (s : Str) (h : (ParseFloat s).2 = some NumError.ErrRange) :
    (ParseFloat s).1 = Float64.inf true ∨ (ParseFloat s).1 = Float64.inf false := by
  unfold ParseFloat at h ⊢
  rcases hsp : special s with _ | ⟨v, rest⟩
  · rw [hsp] at h
    simp only at h ⊢
    rcases hrf : readFloat s with _ | r
    · rw [hrf] at h
      simp at h
    · rw [hrf] at h
      simp only at h ⊢
      by_cases hrest : r.rest = []
      · rw [if_pos hrest] at h ⊢
        rw [roundFloat64_range_inf r.neg r.num r.den h]
        cases r.neg <;> simp
      · rw [if_neg hrest] at h
        simp at h
  · rw [hsp] at h
    simp only at h ⊢
    by_cases hrest : rest = []
    · rw [if_pos hrest] at h
      simp at h
    · rw [if_neg hrest] at h
      simp at h

/-! ## The CPU parser -/

theorem cpuLine_fields (cpuInfo : CPUInfo) (line key v : Str) (vs : List Str)
    (hf : Fields line = key :: v :: vs) :
    cpuLine cpuInfo line = cpuAssign cpuInfo key (Join (v :: vs) " ".toList) := by
  simp [cpuLine, hf]

theorem cpuLine_short (cpuInfo : CPUInfo) (line : Str) (h : (Fields line).length < 2) :
    cpuLine cpuInfo line = cpuInfo := by
  simp [cpuLine, h]

theorem cpuAssign_unrecognized (cpuInfo : CPUInfo) (key value : Str) (h : key ∉ cpuKeys) :
    cpuAssign cpuInfo key value = cpuInfo := by
  simp only [cpuKeys, List.mem_cons, List.mem_singleton, not_or, List.not_mem_nil,
    not_false_eq_true, and_true] at h
  obtain ⟨h1, h2, h3, h4, h5, h6, h7, h8, h9, h10, h11, h12, h13, h14, h15, h16, h17, h18,
    h19, h20, h21, h22⟩ := h
  simp only [cpuAssign, h1, h2, h3, h4, h5, h6, h7, h8, h9, h10, h11, h12, h13, h14, h15,
    h16, h17, h18, h19, h20, h21, h22, if_false]

theorem ReadAndParseCPUInfo_ok (lines : List Str) :
    ReadAndParseCPUInfo (Except.ok ⟨lines, none⟩) =
      Except.ok (lines.foldl cpuLine CPUInfo.zero) := rfl

theorem fieldsAux_tokens (s cur : Str) (hcur : ∀ c ∈ cur, isSpace c = false) :
    ∀ t ∈ fieldsAux s cur, t ≠ [] ∧ ∀ c ∈ t, isSpace c = false := by
  induction s generalizing cur with
  | nil =>
    intro t ht
    by_cases hc : cur = []
    · simp [fieldsAux, hc] at ht
    · simp only [fieldsAux, hc, if_false, List.mem_singleton] at ht
      subst ht
      refine ⟨by simpa using hc, ?_⟩
      intro c hcm
      exact hcur c (by simpa using hcm)
  | cons c cs ih =>
    intro t ht
    by_cases hsp : isSpace c = true
    · by_cases hc : cur = []
      · simp only [fieldsAux, hsp, if_true, hc] at ht
        exact ih [] (by simp) t ht
      · simp only [fieldsAux, hsp, if_true, hc, if_false, List.mem_cons] at ht
        rcases ht with ht | ht
        · subst ht
          refine ⟨by simpa using hc, ?_⟩
          intro d hdm
          exact hcur d (by simpa using hdm)
        · exact ih [] (by simp) t ht
    · have hsp2 : isSpace c = false := by simpa using hsp
      simp only [fieldsAux, hsp2] at ht
      apply ih (c :: cur) _ t
      · simpa using ht
      · intro d hd
        rcases List.mem_cons.mp hd with h | h
        · subst h; exact hsp2
        · exact hcur d h

/-- Every token `strings.Fields` returns is not empty and holds no white space. -/
theorem Fields_tokens (s : Str) : ∀ t ∈ Fields s, t ≠ [] ∧ ∀ c ∈ t, isSpace c = false :=
  fieldsAux_tokens s [] (by simp)

/-! ## Lines the process-row pattern rejects -/

theorem tryLens_none (k : Str → Option (List Str)) (a : Atom) (s : Str) (n : Nat)
    (h : ∀ m, m ≤ n → a.min ≤ m → k (s.drop m) = none) : tryLens k a s n = none := by
  induction n with
  | zero =>
    by_cases h0 : a.min = 0
    · have := h 0 (Nat.le_refl 0) (by omega)
      simp only [List.drop_zero] at this
      simp [tryLens, h0, this]
    · simp [tryLens, h0]
  | succ n ih =>
    by_cases hlt : n + 1 < a.min
    · simp [tryLens, hlt]
    · have hk := h (n + 1) (Nat.le_refl _) (by omega)
      have ih2 := ih (fun m hm hmin => h m (by omega) hmin)
      simp [tryLens, hlt, hk, ih2]

theorem matchAtoms_cons (a : Atom) (rest : List Atom) (s : Str) :
    matchAtoms (a :: rest) s =
      tryLens (matchAtoms rest) a s (s.takeWhile a.cls).length := rfl

/-- A repetition that needs a character of its class where there is none fails. -/
theorem matchAtoms_head_mismatch (a : Atom) (rest : List Atom) (s : Str)
    (hmin : 1 ≤ a.min) (h : ∀ c ∈ s.head?, a.cls c = false) :
    matchAtoms (a :: rest) s = none := by
  have htw : s.takeWhile a.cls = [] := by
    cases s with
    | nil => rfl
    | cons c cs =>
      have hc : a.cls c = false := h c (by simp)
      simp [List.takeWhile, hc]
  have hne : a.min ≠ 0 := by omega
  simp [matchAtoms, htw, tryLens, hne]

theorem head_drop_append (l more : Str) (x : Char) (j : Nat) :
    ∀ c ∈ (l.drop j ++ x :: more).head?, c ∈ l ∨ c = x := by
  intro c hc
  cases hd : l.drop j with
  | nil =>
    rw [hd] at hc
    simp at hc
    exact Or.inr hc.symm
  | cons d ds =>
    rw [hd] at hc
    simp at hc
    subst hc
    left
    have : d ∈ l.drop j := by rw [hd]; simp
    exact List.mem_of_mem_drop this

theorem split_at_first_failure (p : Char → Bool) (tok : Str)
    (h : ∃ c ∈ tok, p c = false) :
    ∃ run x tl, tok = run ++ x :: tl ∧ (∀ c ∈ run, p c = true) ∧ p x = false := by
  induction tok with
  | nil =>
    obtain ⟨c, hc, _⟩ := h
    simp at hc
  | cons d ds ih =>
    by_cases hd : p d = true
    · obtain ⟨c, hc, hpc⟩ := h
      have hc2 : c ∈ ds := by
        rcases List.mem_cons.mp hc with h1 | h1
        · subst h1
          rw [hd] at hpc
          exact absurd hpc (by decide)
        · exact h1
      obtain ⟨run, x, tl, he, hrun, hx⟩ := ih ⟨c, hc2, hpc⟩
      refine ⟨d :: run, x, tl, by simp [he], ?_, hx⟩
      intro e hem
      rcases List.mem_cons.mp hem with h1 | h1
      · subst h1; exact hd
      · exact hrun e h1
    · exact ⟨[], d, ds, rfl, by simp, by simpa using hd⟩

theorem isDigit_not_space (c : Char) (h : isDigit c = true) : reSpace c = false := by
  simp only [isDigit, Bool.and_eq_true, decide_eq_true_eq] at h
  simp only [reSpace, Bool.or_eq_false_iff, decide_eq_false_iff_not]
  omega

/-- The digits group followed by a separator fails on a token that is not all digits. -/
theorem digits_then_sep_fails (rest : List Atom) (tok more : Str) (ht : IsToken tok)
    (hnd : ∃ c ∈ tok, isDigit c = false) :
    matchAtoms (⟨isDigit, 1, true⟩ :: ⟨reSpace, 1, false⟩ :: rest) (tok ++ more) = none := by
  obtain ⟨run, x, tl, he, hrun, hx⟩ := split_at_first_failure isDigit tok hnd
  subst he
  have htw : ((run ++ x :: tl) ++ more).takeWhile isDigit = run := by
    rw [List.append_assoc]
    exact takeWhile_run isDigit run _ hrun (by simp [hx])
  rw [matchAtoms_cons, htw]
  apply tryLens_none
  intro m hm _
  apply matchAtoms_head_mismatch _ _ _ (Nat.le_refl 1)
  intro c hc
  have hdrop : ((run ++ x :: tl) ++ more).drop m = run.drop m ++ x :: (tl ++ more) := by
    rw [List.append_assoc, List.drop_append_of_le_length hm]
    simp
  rw [hdrop] at hc
  have hmem : c ∈ run ++ x :: tl := by
    rcases head_drop_append run (tl ++ more) x m c hc with h | h
    · exact List.mem_append_left _ h
    · subst h; simp
  exact ht.2 c hmem

/-- A line whose first token is not all digits does not match the process-row
pattern. -/
theorem not_processRow_of_first_token (line : Str) (h : FirstTokenNotDigits line) :
    matchAtoms processInfoRegex line = none := by
  obtain ⟨ws, tok, rest, he, hws, ht, _, hnd⟩ := h
  subst he
  have htw : (ws ++ (tok ++ rest)).takeWhile reSpace = ws :=
    takeWhile_run reSpace ws _ hws (token_head tok rest ht)
  unfold processInfoRegex
  rw [matchAtoms_cons, htw]
  apply tryLens_none
  intro m hm _
  rw [List.drop_append_of_le_length hm]
  cases hd : ws.drop m with
  | nil =>
    rw [List.nil_append]
    exact digits_then_sep_fails _ tok rest ht hnd
  | cons d ds =>
    apply matchAtoms_head_mismatch _ _ _ (Nat.le_refl 1)
    intro c hc
    simp at hc
    subst hc
    have hmem : d ∈ ws := List.mem_of_mem_drop (by rw [hd]; simp)
    have hsp := hws d hmem
    cases hdig : isDigit d with
    | false => exact hdig
    | true =>
      have := isDigit_not_space d hdig
      rw [hsp] at this
      exact absurd this (by decide)

/-- A blank line, empty or all white space, does not match the process-row pattern. -/
theorem not_processRow_of_blank (line : Str) (h : ∀ c ∈ line, reSpace c = true) :
    matchAtoms processInfoRegex line = none := by
  unfold processInfoRegex
  rw [matchAtoms_cons]
  apply tryLens_none
  intro m _ _
  apply matchAtoms_head_mismatch _ _ _ (Nat.le_refl 1)
  intro c hc
  have hmem : c ∈ line := List.mem_of_mem_drop (List.mem_of_mem_head? hc)
  have hsp := h c hmem
  cases hdig : isDigit c with
  | false => exact hdig
  | true =>
    have := isDigit_not_space c hdig
    rw [hsp] at this
    exact absurd this (by decide)

/-! ## The process parser -/

theorem topLine_unmatched (acc : List ProcessInfo) (line : Str) (h : ¬ IsProcessRow line) :
    topLine acc line = acc := by
  have h13 : ¬ (FindStringSubmatch processInfoRegex line).length = 13 := h
  simp [topLine, h13]

theorem not_processRow_of_no_match (line : Str)
    (h : matchAtoms processInfoRegex line = none) : ¬ IsProcessRow line := by
  simp [IsProcessRow, FindStringSubmatch, h]

/-! ## The insertion sort -/

theorem mem_insertBack {α : Type} (less : α → α → Bool) (x z : α) (l : List α) :
    z ∈ insertBack less x l ↔ z = x ∨ z ∈ l := by
  induction l with
  | nil => simp [insertBack]
  | cons y ys ih =>
    by_cases h : less x y = true
    · simp only [insertBack, h, if_true, List.mem_cons, ih]
      tauto
    · have hf : less x y = false := by simpa using h
      simp [insertBack, hf]

theorem perm_insertBack {α : Type} (less : α → α → Bool) (x : α) (l : List α) :
    (insertBack less x l).Perm (x :: l) := by
  induction l with
  | nil => simp [insertBack]
  | cons y ys ih =>
    by_cases h : less x y = true
    · simp only [insertBack, h, if_true]
      exact (List.Perm.cons y ih).trans (List.Perm.swap x y ys)
    · simp only [insertBack, h, if_false]
      exact List.Perm.refl _

theorem sortSlice_snoc {α : Type} (less : α → α → Bool) (R : List α) (x : α) :
    sortSlice less (R ++ [x]) =
      (insertBack less x (sortSlice less R).reverse).reverse := by
  simp [sortSlice, List.foldl_append]

/-- The sort returns a permutation of its input, whatever the comparison. -/
theorem perm_sortSlice {α : Type} (less : α → α → Bool) (R : List α) :
    (sortSlice less R).Perm R := by
  induction R using List.reverseRecOn with
  | nil => simp [sortSlice]
  | append_singleton l a ih =>
    rw [sortSlice_snoc]
    refine (List.reverse_perm _).trans ?_
    refine (perm_insertBack less a _).trans ?_
    refine (List.Perm.cons a ((List.reverse_perm _).trans ih)).trans ?_
    exact (List.perm_append_singleton a l).symm

theorem mem_sortSlice {α : Type} (less : α → α → Bool) (R : List α) (z : α) :
    z ∈ sortSlice less R ↔ z ∈ R :=
  (perm_sortSlice less R).mem_iff

theorem length_sortSlice {α : Type} (less : α → α → Bool) (R : List α) :
    (sortSlice less R).length = R.length :=
  (perm_sortSlice less R).length_eq

theorem insertBack_congr {α : Type} (less less2 : α → α → Bool) (x : α) (l : List α)
    (h : ∀ y ∈ l, less x y = less2 x y) : insertBack less x l = insertBack less2 x l := by
  induction l with
  | nil => rfl
  | cons y ys ih =>
    have hy := h y (by simp)
    have ih2 := ih (fun z hz => h z (by simp [hz]))
    simp only [insertBack, hy, ih2]

/-- Two comparisons that agree on the elements of a list sort it alike. -/
theorem sortSlice_congr {α : Type} (less less2 : α → α → Bool) (l : List α)
    (h : ∀ a ∈ l, ∀ b ∈ l, less a b = less2 a b) : sortSlice less l = sortSlice less2 l := by
  induction l using List.reverseRecOn with
  | nil => rfl
  | append_singleton l a ih =>
    have ih2 := ih (fun p hp q hq => h p (by simp [hp]) q (by simp [hq]))
    rw [sortSlice_snoc, sortSlice_snoc, ih2]
    congr 1
    apply insertBack_congr
    intro y hy
    have hy2 : y ∈ l := by
      rw [List.mem_reverse, mem_sortSlice] at hy
      exact hy
    exact h a (by simp) y (by simp [hy2])

theorem mem_insertFront {α : Type} (less : α → α → Bool) (x z : α) (l : List α) :
    z ∈ insertFront less x l ↔ z = x ∨ z ∈ l := by
  induction l with
  | nil => simp [insertFront]
  | cons y ys ih =>
    by_cases h : less x y = true
    · simp only [insertFront, h, if_true, List.mem_cons]
    · have hf : less x y = false := by simpa using h
      simp only [insertFront, hf, List.mem_cons, ih]
      simp only [Bool.false_eq_true, if_false, List.mem_cons, ih]
      tauto

theorem insertFront_append_beaten {α : Type} (less : α → α → Bool) (x y : α) (A : List α)
    (h : less x y = true) :
    insertFront less x (A ++ [y]) = insertFront less x A ++ [y] := by
  induction A with
  | nil => simp [insertFront, h]
  | cons b l ih =>
    by_cases hb : less x b = true
    · simp [insertFront, hb]
    · simp [insertFront, hb, ih]

theorem insertFront_none_beaten {α : Type} (less : α → α → Bool) (x : α) (A : List α)
    (h : ∀ z ∈ A, less x z = false) : insertFront less x A = A ++ [x] := by
  induction A with
  | nil => rfl
  | cons b l ih =>
    have hb := h b (by simp)
    have ih2 := ih (fun z hz => h z (by simp [hz]))
    simp [insertFront, hb, ih2]

/-- On a list in ascending key order, moving in from the back ends where inserting
from the front of the reversed list ends. -/
theorem insertBack_reverse {α : Type} (f : α → Int) (x : α) (U : List α)
    (hU : U.Pairwise (fun a b => f a ≤ f b)) :
    (insertBack (keyLess f) x U).reverse = insertFront (keyLess f) x U.reverse := by
  induction U with
  | nil => rfl
  | cons y ys ih =>
    have hy : ∀ z ∈ ys, f y ≤ f z := (List.pairwise_cons.mp hU).1
    have hys := (List.pairwise_cons.mp hU).2
    by_cases h : keyLess f x y = true
    · simp only [insertBack, h, if_true, List.reverse_cons, ih hys]
      exact (insertFront_append_beaten (keyLess f) x y ys.reverse h).symm
    · simp only [insertBack, h, if_false, List.reverse_cons]
      have hxy : f x ≤ f y := by
        simp only [keyLess, decide_eq_true_eq, not_lt] at h
        exact h
      symm
      have := insertFront_none_beaten (keyLess f) x (ys.reverse ++ [y]) (by
        intro z hz
        simp only [List.mem_append, List.mem_reverse, List.mem_singleton] at hz
        simp only [keyLess, decide_eq_false_iff_not, not_lt]
        rcases hz with hz | hz
        · exact le_trans hxy (hy z hz)
        · subst hz; exact hxy)
      simpa using this

theorem desc_insertFront {α : Type} (f : α → Int) (x : α) (S : List α)
    (h : S.Pairwise (fun a b => f b ≤ f a)) :
    (insertFront (keyLess f) x S).Pairwise (fun a b => f b ≤ f a) := by
  induction S with
  | nil => simp [insertFront]
  | cons b l ih =>
    have hb : ∀ z ∈ l, f z ≤ f b := (List.pairwise_cons.mp h).1
    have hl := (List.pairwise_cons.mp h).2
    by_cases hx : keyLess f x b = true
    · have hlt : f b < f x := by simpa [keyLess] using hx
      simp only [insertFront, hx, if_true]
      refine List.pairwise_cons.mpr ⟨?_, h⟩
      intro z hz
      rcases List.mem_cons.mp hz with hz | hz
      · subst hz; exact le_of_lt hlt
      · exact le_trans (hb z hz) (le_of_lt hlt)
    · have hle : f x ≤ f b := by
        simp only [keyLess, decide_eq_true_eq, not_lt] at hx
        exact hx
      simp only [insertFront, hx, if_false]
      refine List.pairwise_cons.mpr ⟨?_, ih hl⟩
      intro z hz
      rcases (mem_insertFront (keyLess f) x z l).mp hz with hz | hz
      · subst hz; exact hle
      · exact hb z hz

/-- Sorting by a key gives a list in descending key order. -/
theorem sortSlice_keyLess_desc {α : Type} (f : α → Int) (R : List α) :
    (sortSlice (keyLess f) R).Pairwise (fun a b => f b ≤ f a) := by
  induction R using List.reverseRecOn with
  | nil => simp [sortSlice]
  | append_singleton l a ih =>
    rw [sortSlice_snoc, insertBack_reverse f a _ (List.pairwise_reverse.mpr ih),
      List.reverse_reverse]
    exact desc_insertFront f a _ ih

theorem sortSlice_keyLess_snoc {α : Type} (f : α → Int) (R : List α) (x : α) :
    sortSlice (keyLess f) (R ++ [x]) =
      insertFront (keyLess f) x (sortSlice (keyLess f) R) := by
  rw [sortSlice_snoc,
    insertBack_reverse f x _ (List.pairwise_reverse.mpr (sortSlice_keyLess_desc f R)),
    List.reverse_reverse]

/-- A list already in descending key order is left as it is. -/
theorem sortSlice_of_desc {α : Type} (f : α → Int) (T : List α)
    (h : T.Pairwise (fun a b => f b ≤ f a)) : sortSlice (keyLess f) T = T := by
  induction T using List.reverseRecOn with
  | nil => rfl
  | append_singleton l a ih =>
    have hp := List.pairwise_append.mp h
    rw [sortSlice_keyLess_snoc, ih hp.1]
    apply insertFront_none_beaten
    intro z hz
    have := hp.2.2 z hz a (by simp)
    simp only [keyLess, decide_eq_false_iff_not, not_lt]
    exact this

theorem take_insertFront {α : Type} (less : α → α → Bool) (x : α) (n : Nat) (S : List α) :
    (insertFront less x (S.take n)).take n = (insertFront less x S).take n := by
  induction S generalizing n with
  | nil => simp
  | cons b l ih =>
    cases n with
    | zero => simp
    | succ n =>
      by_cases hb : less x b = true
      · simp only [List.take_succ_cons, insertFront, hb, if_true]
        congr 1
        cases n with
        | zero => simp
        | succ n => simp [List.take_take]
      · have hf : less x b = false := by simpa using hb
        simp only [List.take_succ_cons, insertFront, hf, Bool.false_eq_true, if_false]
        congr 1
        exact ih n

/-- Keeping the first `n` after each insertion loses nothing: sorting the kept ones
with a new element and cutting gives the first `n` of the sort of everything. -/
theorem take_sortSlice_step {α : Type} (f : α → Int) (n : Nat) (R : List α) (x : α) :
    (sortSlice (keyLess f) ((sortSlice (keyLess f) R).take n ++ [x])).take n =
      (sortSlice (keyLess f) (R ++ [x])).take n := by
  have hdesc := sortSlice_keyLess_desc f R
  have htake : ((sortSlice (keyLess f) R).take n).Pairwise (fun a b => f b ≤ f a) :=
    hdesc.sublist (List.take_sublist _ _)
  rw [sortSlice_keyLess_snoc, sortSlice_of_desc f _ htake, take_insertFront,
    sortSlice_keyLess_snoc]

/-! ## What the capture groups hold -/

theorem take_of_le_takeWhile (p : Char → Bool) (s : Str) (m : Nat)
    (h : m ≤ (s.takeWhile p).length) : ∀ c ∈ s.take m, p c = true := by
  induction s generalizing m with
  | nil => simp
  | cons d ds ih =>
    cases m with
    | zero => simp
    | succ m =>
      by_cases hd : p d = true
      · simp only [List.takeWhile, hd, List.length_cons] at h
        intro c hc
        simp only [List.take_succ_cons, List.mem_cons] at hc
        rcases hc with hc | hc
        · subst hc; exact hd
        · exact ih m (by omega) c hc
      · have hf : p d = false := by simpa using hd
        simp [List.takeWhile, hf] at h

theorem tryLens_some (k : Str → Option (List Str)) (a : Atom) (s : Str) (n : Nat)
    (caps : List Str) (h : tryLens k a s n = some caps) :
    ∃ m caps2, m ≤ n ∧ a.min ≤ m ∧ k (s.drop m) = some caps2 ∧
      caps = if a.capture then s.take m :: caps2 else caps2 := by
  induction n with
  | zero =>
    by_cases h0 : a.min = 0
    · simp only [tryLens, h0, if_true, Option.map_eq_some'] at h
      obtain ⟨caps2, hk, he⟩ := h
      refine ⟨0, caps2, Nat.le_refl 0, by omega, by simpa using hk, ?_⟩
      simp [← he]
    · simp [tryLens, h0] at h
  | succ n ih =>
    by_cases hlt : n + 1 < a.min
    · simp [tryLens, hlt] at h
    · simp only [tryLens, hlt, if_false] at h
      cases hk : k (s.drop (n + 1)) with
      | none =>
        rw [hk] at h
        obtain ⟨m, caps2, hm, hmin, hk2, he⟩ := ih h
        exact ⟨m, caps2, by omega, hmin, hk2, he⟩
      | some caps2 =>
        rw [hk] at h
        simp only [Option.some.injEq] at h
        exact ⟨n + 1, caps2, Nat.le_refl _, by omega, hk, h.symm⟩

/-- Every captured text consists of characters of the class of its group and has at
least the length the repetition asks for. -/
theorem matchAtoms_caps (atoms : List Atom) (s : Str) (caps : List Str)
    (h : matchAtoms atoms s = some caps) :
    List.Forall₂ (fun (a : Atom) (cap : Str) => a.min ≤ cap.length ∧ ∀ c ∈ cap, a.cls c = true)
      (atoms.filter (fun a => a.capture)) caps := by
  induction atoms generalizing s caps with
  | nil =>
    by_cases hs : s = []
    · simp [matchAtoms, hs] at h
      subst h
      exact List.Forall₂.nil
    · simp [matchAtoms, hs] at h
  | cons a rest ih =>
    rw [matchAtoms_cons] at h
    obtain ⟨m, caps2, hm, hmin, hk, he⟩ := tryLens_some _ a s _ caps h
    have hrest := ih _ caps2 hk
    by_cases hc : a.capture = true
    · simp only [hc, if_true] at he
      subst he
      simp only [List.filter_cons, hc, if_true]
      refine List.Forall₂.cons ⟨?_, take_of_le_takeWhile a.cls s m hm⟩ hrest
      have hlen : m ≤ s.length := le_trans hm (List.takeWhile_sublist a.cls).length_le
      simp [List.length_take, hlen, hmin]
    · have hf : a.capture = false := by simpa using hc
      simp only [hf, Bool.false_eq_true, if_false] at he
      subst he
      simpa [List.filter_cons, hf] using hrest

/-- The group of the CPU column of a matching line: not empty, digits and points. -/
theorem processRow_cpu_group (line : Str) (h : IsProcessRow line) :
    (FindStringSubmatch processInfoRegex line).getD 9 [] ≠ [] ∧
    ∀ c ∈ (FindStringSubmatch processInfoRegex line).getD 9 [], reDigitDot c = true := by
  unfold IsProcessRow at h
  cases hm : matchAtoms processInfoRegex line with
  | none => simp [FindStringSubmatch, hm] at h
  | some caps =>
    have hc := matchAtoms_caps processInfoRegex line caps hm
    have hf : processInfoRegex.filter (fun a => a.capture) =
        [⟨isDigit, 1, true⟩, ⟨reNonSpace, 1, true⟩, ⟨isDigit, 1, true⟩, ⟨isDigit, 1, true⟩,
         ⟨isDigit, 1, true⟩, ⟨isDigit, 1, true⟩, ⟨isDigit, 1, true⟩, ⟨reNonSpace, 1, true⟩,
         ⟨reDigitDot, 1, true⟩, ⟨reDigitDot, 1, true⟩, ⟨reNonSpace, 1, true⟩,
         ⟨reAny, 0, true⟩] := rfl
    rw [hf] at hc
    obtain ⟨g1, c1, _, hc1, e1⟩ := List.forall₂_cons_left_iff.mp hc
    obtain ⟨g2, c2, _, hc2, e2⟩ := List.forall₂_cons_left_iff.mp hc1
    obtain ⟨g3, c3, _, hc3, e3⟩ := List.forall₂_cons_left_iff.mp hc2
    obtain ⟨g4, c4, _, hc4, e4⟩ := List.forall₂_cons_left_iff.mp hc3
    obtain ⟨g5, c5, _, hc5, e5⟩ := List.forall₂_cons_left_iff.mp hc4
    obtain ⟨g6, c6, _, hc6, e6⟩ := List.forall₂_cons_left_iff.mp hc5
    obtain ⟨g7, c7, _, hc7, e7⟩ := List.forall₂_cons_left_iff.mp hc6
    obtain ⟨g8, c8, _, hc8, e8⟩ := List.forall₂_cons_left_iff.mp hc7
    obtain ⟨g9, c9, h9, _, e9⟩ := List.forall₂_cons_left_iff.mp hc8
    subst e9 e8 e7 e6 e5 e4 e3 e2 e1
    simp only [FindStringSubmatch, hm]
    have hg : (line :: g1 :: g2 :: g3 :: g4 :: g5 :: g6 :: g7 :: g8 :: g9 :: c9).getD 9 [] =
        g9 := rfl
    rw [hg]
    refine ⟨?_, h9.2⟩
    intro he
    rw [he] at h9
    simp at h9

/-! ## The CPU value of a process record -/

theorem finishFloat_neg (s : Str) (neg hex : Bool) (st : MantState) (dp e : Int) (us : Bool)
    (rest : Str) (r : FloatText) (h : finishFloat s neg hex st dp e us rest = some r) :
    r.neg = neg := by
  unfold finishFloat at h
  split at h
  · simp at h
  · split at h
    · simp only [Option.some.injEq] at h
      subst h
      unfold scaled
      split <;> rfl
    · simp only [Option.some.injEq] at h
      subst h
      unfold scaled
      split <;> rfl

theorem readExponent_neg (s : Str) (neg hex : Bool) (st : MantState) (dp : Int) (t : Str)
    (r : FloatText) (h : readExponent s neg hex st dp t = some r) : r.neg = neg := by
  unfold readExponent at h
  split at h
  · split at h
    · split at h
      · simp at h
      · simp only at h
        split at h
        · simp at h
        · split at h
          · simp at h
          · exact finishFloat_neg _ _ _ _ _ _ _ _ _ h
    · split at h
      · simp at h
      · exact finishFloat_neg _ _ _ _ _ _ _ _ _ h
  · split at h
    · simp at h
    · exact finishFloat_neg _ _ _ _ _ _ _ _ _ h

theorem readUnsigned_neg (s : Str) (neg : Bool) (s1 : Str) (r : FloatText)
    (h : readUnsigned s neg s1 = some r) : r.neg = neg := by
  unfold readUnsigned at h
  generalize readMantissa _ _ _ = res at h
  obtain ⟨st, t⟩ := res
  simp only at h
  split at h
  · simp at h
  · exact readExponent_neg _ _ _ _ _ _ _ h

theorem readFloat_neg (c0 : Char) (cs : Str) (r : FloatText)
    (h : readFloat (c0 :: cs) = some r) : r.neg = decide (c0 = '-') :=
  readUnsigned_neg _ _ _ r h

theorem roundFloat64_nonneg_bits (num den : Nat) :
    (roundFloat64 false num den).1.bits ≤ 2047 * 2 ^ 52 := by
  unfold roundFloat64
  split
  · simp
  · split
    · simp [Float64.inf]
    · rename_i h
      simp only [Bool.false_eq_true, if_false, Nat.zero_add]
      omega

theorem digitDot_head (c : Char) (h : reDigitDot c = true) :
    c ≠ '+' ∧ c ≠ '-' ∧ c ≠ 'i' ∧ c ≠ 'I' ∧ c ≠ 'n' ∧ c ≠ 'N' := by
  refine ⟨?_, ?_, ?_, ?_, ?_, ?_⟩ <;>
    (intro he; subst he; exact absurd h (by decide))

/-- The `float64` parsed from a text of digits and points is zero, a positive finite
value or the positive infinity: never a NaN, never negative. -/
theorem ParseFloat_digitDot_bits (s : Str) (hne : s ≠ [])
    (hs : ∀ c ∈ s, reDigitDot c = true) : (ParseFloat s).1.bits ≤ 2047 * 2 ^ 52 := by
  cases s with
  | nil => exact absurd rfl hne
  | cons c cs =>
    obtain ⟨h1, h2, h3, h4, h5, h6⟩ := digitDot_head c (hs c (by simp))
    have hsp : special (c :: cs) = none := by
      simp [special, h1, h2, h3, h4, h5, h6]
    unfold ParseFloat
    rw [hsp]
    simp only
    cases hrf : readFloat (c :: cs) with
    | none => simp [Float64.zero]
    | some r =>
      simp only
      by_cases hrest : r.rest = []
      · rw [if_pos hrest]
        have hneg := readFloat_neg c cs r hrf
        have hn : r.neg = false := by
          rw [hneg]
          simp [h2]
        rw [hn]
        exact roundFloat64_nonneg_bits _ _
      · rw [if_neg hrest]
        simp [Float64.zero]

theorem cpuGreater_of_bits (a b : ProcessInfo) (ha : a.CPU.bits ≤ 2047 * 2 ^ 52)
    (hb : b.CPU.bits ≤ 2047 * 2 ^ 52) :
    cpuGreater a b = decide (b.CPU.bits < a.CPU.bits) := by
  have e1 : a.CPU.bits % 2 ^ 63 = a.CPU.bits := Nat.mod_eq_of_lt (by omega)
  have e2 : b.CPU.bits % 2 ^ 63 = b.CPU.bits := Nat.mod_eq_of_lt (by omega)
  have k1 : a.CPU.bits < 2 ^ 63 := by omega
  have k2 : b.CPU.bits < 2 ^ 63 := by omega
  have n1 : ¬ (2047 * 2 ^ 52 < a.CPU.bits) := by omega
  have n2 : ¬ (2047 * 2 ^ 52 < b.CPU.bits) := by omega
  simp only [cpuGreater, Float64.gt, Float64.isNaN, Float64.key, e1, e2, k1, k2, n1, n2,
    if_true, decide_False, Bool.not_false, Bool.true_and, Nat.cast_lt]

theorem cpuGreater_eq_keyLess (a b : ProcessInfo) (ha : a.CPU.bits ≤ 2047 * 2 ^ 52)
    (hb : b.CPU.bits ≤ 2047 * 2 ^ 52) : cpuGreater a b = keyLess cpuKey a b := by
  rw [cpuGreater_of_bits a b ha hb]
  have k1 : a.CPU.bits < 2 ^ 63 := by omega
  have k2 : b.CPU.bits < 2 ^ 63 := by omega
  simp only [keyLess, cpuKey, Float64.key, k1, k2, if_true, Nat.cast_lt]

/-! ## The loop of the process parser -/

theorem processRows_append (a b : List Str) :
    processRows (a ++ b) = processRows a ++ processRows b := by
  simp [processRows, List.filter_append]

theorem processRows_single_matched (line : Str) (h : IsProcessRow line) :
    processRows [line] = [processRecord (FindStringSubmatch processInfoRegex line)] := by
  simp [processRows, List.filter_cons, h]

theorem processRows_single_unmatched (line : Str) (h : ¬ IsProcessRow line) :
    processRows [line] = [] := by
  simp [processRows, List.filter_cons, h]

/-- The CPU value of every record of a matching line is zero, positive or the positive
infinity. -/
theorem processRows_bits (lines : List Str) :
    ∀ r ∈ processRows lines, r.CPU.bits ≤ 2047 * 2 ^ 52 := by
  intro r hr
  simp only [processRows, List.mem_map, List.mem_filter, decide_eq_true_eq] at hr
  obtain ⟨line, ⟨_, hrow⟩, he⟩ := hr
  subst he
  obtain ⟨hne, hcls⟩ := processRow_cpu_group line hrow
  exact ParseFloat_digitDot_bits _ hne hcls

theorem sortSlice_cpuGreater (l : List ProcessInfo)
    (h : ∀ r ∈ l, r.CPU.bits ≤ 2047 * 2 ^ 52) :
    sortSlice cpuGreater l = sortSlice (keyLess cpuKey) l :=
  sortSlice_congr _ _ l (fun a ha b hb => cpuGreater_eq_keyLess a b (h a ha) (h b hb))

theorem topLine_matched (acc : List ProcessInfo) (line : Str) (h : IsProcessRow line) :
    topLine acc line =
      (sortSlice cpuGreater
        (acc ++ [processRecord (FindStringSubmatch processInfoRegex line)])).take 10 := by
  have h13 : (FindStringSubmatch processInfoRegex line).length = 13 := h
  simp only [topLine, h13, if_true]
  split
  · rfl
  · rename_i hlen
    exact (List.take_of_length_le (by omega)).symm

/-- The loop of `ReadAndParseTopOutput` ends with the first ten of the sort of the
records of all matching lines. -/
theorem foldl_topLine (lines : List Str) :
    lines.foldl topLine [] = (sortSlice cpuGreater (processRows lines)).take 10 := by
  induction lines using List.reverseRecOn with
  | nil => rfl
  | append_singleton l line ih =>
    rw [List.foldl_append, List.foldl_cons, List.foldl_nil, ih, processRows_append]
    by_cases h : IsProcessRow line
    · rw [topLine_matched _ line h, processRows_single_matched line h]
      have hR := processRows_bits l
      have hx : (processRecord (FindStringSubmatch processInfoRegex line)).CPU.bits ≤
          2047 * 2 ^ 52 :=
        processRows_bits [line] _ (by rw [processRows_single_matched line h]; simp)
      have hall : ∀ r ∈ processRows l ++
          [processRecord (FindStringSubmatch processInfoRegex line)],
          r.CPU.bits ≤ 2047 * 2 ^ 52 := by
        intro r hr
        rcases List.mem_append.mp hr with hr | hr
        · exact hR r hr
        · rw [List.mem_singleton] at hr
          subst hr
          exact hx
      rw [sortSlice_cpuGreater _ hR, sortSlice_cpuGreater _ hall]
      have htake : ∀ r ∈ (sortSlice (keyLess cpuKey) (processRows l)).take 10 ++
          [processRecord (FindStringSubmatch processInfoRegex line)],
          r.CPU.bits ≤ 2047 * 2 ^ 52 := by
        intro r hr
        rcases List.mem_append.mp hr with hr | hr
        · exact hR r ((mem_sortSlice _ _ r).mp (List.mem_of_mem_take hr))
        · rw [List.mem_singleton] at hr
          subst hr
          exact hx
      rw [sortSlice_cpuGreater _ htake]
      exact take_sortSlice_step cpuKey 10 _ _
    · rw [topLine_unmatched _ line h, processRows_single_unmatched line h,
        List.append_nil]

/-- With pairwise distinct CPU values, the sort of the records of the matching lines is
in strictly descending CPU order. -/
theorem sortSlice_processRows_strict (lines : List Str)
    (hdistinct : ((processRows lines).map (fun p => p.CPU)).Nodup) :
    (sortSlice cpuGreater (processRows lines)).Pairwise
      (fun a b => a.CPU.gt b.CPU = true) := by
  have hbits := processRows_bits lines
  have hperm := perm_sortSlice cpuGreater (processRows lines)
  have hdesc : (sortSlice cpuGreater (processRows lines)).Pairwise
      (fun a b => cpuKey b ≤ cpuKey a) := by
    rw [sortSlice_cpuGreater _ hbits]
    exact sortSlice_keyLess_desc cpuKey _
  have hne : (sortSlice cpuGreater (processRows lines)).Pairwise
      (fun a b => a.CPU ≠ b.CPU) := by
    have h1 : ((sortSlice cpuGreater (processRows lines)).map (fun p => p.CPU)).Nodup :=
      (hperm.map _).nodup_iff.mpr hdistinct
    exact List.pairwise_map.mp h1
  refine List.Pairwise.imp_of_mem ?_ (hdesc.and hne)
  intro a b ha hb hab
  have ha2 := hbits a ((mem_sortSlice _ _ a).mp ha)
  have hb2 := hbits b ((mem_sortSlice _ _ b).mp hb)
  have hk := hab.1
  have hd : a.CPU.bits ≠ b.CPU.bits := by
    intro he
    apply hab.2
    cases hA : a.CPU
    cases hB : b.CPU
    rw [hA, hB] at he
    simp only at he
    rw [he]
  have hgt := cpuGreater_of_bits a b ha2 hb2
  simp only [cpuGreater] at hgt
  rw [hgt]
  have k1 : a.CPU.bits < 2 ^ 63 := by omega
  have k2 : b.CPU.bits < 2 ^ 63 := by omega
  simp only [cpuKey, Float64.key, k1, k2, if_true, Nat.cast_le] at hk
  simp only [decide_eq_true_eq]
  omega

theorem gt_asymm (a b : Float64) (h1 : a.gt b = true) (h2 : b.gt a = true) : False := by
  simp only [Float64.gt, Bool.and_eq_true, decide_eq_true_eq] at h1 h2
  omega

/-- With pairwise distinct CPU values, the order of the input lines does not matter to
the sort of the records. -/
theorem sortSlice_processRows_perm (lines lines2 : List Str) (hp : lines2.Perm lines)
    (hdistinct : ((processRows lines).map (fun p => p.CPU)).Nodup) :
    sortSlice cpuGreater (processRows lines2) = sortSlice cpuGreater (processRows lines) := by
  have hrows : (processRows lines2).Perm (processRows lines) := by
    unfold processRows
    exact (hp.filter _).map _
  have hdistinct2 : ((processRows lines2).map (fun p => p.CPU)).Nodup :=
    (hrows.map _).nodup_iff.mpr hdistinct
  have s1 := sortSlice_processRows_strict lines hdistinct
  have s2 := sortSlice_processRows_strict lines2 hdistinct2
  have hperm : (sortSlice cpuGreater (processRows lines2)).Perm
      (sortSlice cpuGreater (processRows lines)) :=
    ((perm_sortSlice _ _).trans hrows).trans (perm_sortSlice _ _).symm
  haveI : IsAntisymm ProcessInfo (fun a b => a.CPU.gt b.CPU = true) :=
    ⟨fun a b h1 h2 => (gt_asymm a.CPU b.CPU h1 h2).elim⟩
  exact List.eq_of_perm_of_sorted hperm s2 s1

/-! ## `ParseFloat` on decimal numerals -/

theorem digit_not_mark (c : Char) (hc : isDigit c = true) : c ≠ '_' ∧ c ≠ '.' := by
  constructor <;> (intro h; subst h; exact absurd hc (by decide))

theorem readMantissa_cons (hex : Bool) (c : Char) (cs : Str) (st : MantState) :
    readMantissa hex (c :: cs) st =
      if c = '_' then readMantissa hex cs { st with underscores := true }
      else if c = '.' then
        if st.sawdot then (st, c :: cs)
        else readMantissa hex cs { st with sawdot := true, dp := st.nd }
      else if isDigit c then
        if c = '0' ∧ st.nd = 0 then
          readMantissa hex cs { st with sawdigits := true, dp := st.dp - 1 }
        else
          readMantissa hex cs { st with
            sawdigits := true, nd := st.nd + 1
            mant := st.mant * (if hex then 16 else 10) + digitVal c }
      else if hex && isHexLetter c then
        readMantissa hex cs { st with
          sawdigits := true, nd := st.nd + 1, mant := st.mant * 16 + hexLetterVal c }
      else (st, c :: cs) := by
  rw [readMantissa]

/-- The mantissa loop on a run of digits: the digits are appended to the mantissa, and
the point moves one place to the left of the end for each of them. -/
theorem readMantissa_digits (ds rest : Str) (st : MantState)
    (hd : ∀ c ∈ ds, isDigit c = true) (hinv : st.nd = 0 → st.mant = 0) :
    ∃ st2 : MantState, readMantissa false (ds ++ rest) st = readMantissa false rest st2 ∧
      st2.sawdot = st.sawdot ∧ st2.sawdigits = (st.sawdigits || decide (ds ≠ [])) ∧
      st2.mant = ds.foldl (fun n c => n * 10 + digitVal c) st.mant ∧
      st2.underscores = st.underscores ∧ (st2.nd = 0 → st2.mant = 0) ∧
      st2.dp - (st2.nd : Int) = st.dp - (st.nd : Int) - (ds.length : Int) := by
  induction ds generalizing st with
  | nil => exact ⟨st, rfl, rfl, by simp, rfl, rfl, hinv, by simp⟩
  | cons c cs ih =>
    have hc : isDigit c = true := hd c (by simp)
    obtain ⟨hc1, hc2⟩ := digit_not_mark c hc
    have hcs : ∀ d ∈ cs, isDigit d = true := fun d hd2 => hd d (by simp [hd2])
    by_cases hz : c = '0' ∧ st.nd = 0
    · obtain ⟨st2, h1, h2, h3, h4, h5, h6, h7⟩ :=
        ih { st with sawdigits := true, dp := st.dp - 1 } hcs hinv
      refine ⟨st2, ?_, h2, ?_, ?_, h5, h6, ?_⟩
      · rw [List.cons_append, readMantissa_cons, if_neg hc1, if_neg hc2, if_pos hc,
          if_pos hz]
        exact h1
      · simp [h3]
      · rw [h4]
        have hm : st.mant = 0 := hinv hz.2
        have hv : digitVal c = 0 := by rw [hz.1]; decide
        simp [List.foldl_cons, hm, hv]
      · rw [h7]
        simp only [List.length_cons, Nat.cast_add, Nat.cast_one]
        omega
    · obtain ⟨st2, h1, h2, h3, h4, h5, h6, h7⟩ :=
        ih { st with sawdigits := true, nd := st.nd + 1, mant := st.mant * 10 + digitVal c }
          hcs (by simp)
      refine ⟨st2, ?_, h2, ?_, ?_, h5, h6, ?_⟩
      · rw [List.cons_append, readMantissa_cons, if_neg hc1, if_neg hc2, if_pos hc,
          if_neg hz]
        exact h1
      · simp [h3]
      · rw [h4]
        simp [List.foldl_cons]
      · rw [h7]
        simp only [List.length_cons, Nat.cast_add, Nat.cast_one]
        omega

theorem digitsVal_append (a b : Str) :
    digitsVal (a ++ b) = b.foldl (fun n c => n * 10 + digitVal c) (digitsVal a) := by
  simp [digitsVal, List.foldl_append]

theorem isHexStart_digit (c : Char) (cs : Str)
    (hcs : ∀ d ∈ cs.head?, isDigit d = true ∨ d = '.') : isHexStart (c :: cs) = false := by
  unfold isHexStart
  split
  · rename_i x y ys heq
    simp only [List.cons.injEq] at heq
    obtain ⟨_, h2⟩ := heq
    subst h2
    have := hcs x (by simp)
    rcases this with h | h
    · have h1 : x ≠ 'x' := by intro he; subst he; exact absurd h (by decide)
      have h2 : x ≠ 'X' := by intro he; subst he; exact absurd h (by decide)
      simp [h1, h2]
    · subst h
      decide
  · rfl

theorem readUnsigned_decimal (s s1 : Str) (neg : Bool) (st : MantState)
    (hhex : isHexStart s1 = false)
    (hm : readMantissa false s1 ⟨false, false, 0, 0, 0, false⟩ = (st, []))
    (hsd : st.sawdigits = true) (hus : st.underscores = false) :
    readUnsigned s neg s1 =
      some (scaled neg st.mant 10 ((if st.sawdot then st.dp else st.nd) - st.nd + 0) []) := by
  unfold readUnsigned
  rw [hhex]
  simp only [Bool.false_eq_true, if_false]
  rw [hm]
  simp only [hsd, Bool.not_true, Bool.false_eq_true, if_false, readExponent, finishFloat, hus,
    Bool.or_self, Bool.false_and]

/-- `ParseFloat` on a decimal numeral: no error, and the `float64` nearest to the
number it denotes. -/
theorem ParseFloat_decimal (ip fp : Str) (hip : IsDigits ip)
    (hfp : ∀ c ∈ fp, isDigit c = true) :
    ParseFloat (decimalText ip fp) =
      roundFloat64 false (digitsVal (ip ++ fp)) (10 ^ fp.length) := by
  obtain ⟨hne, hd⟩ := hip
  cases ip with
  | nil => exact absurd rfl hne
  | cons c cs =>
    have hc : isDigit c = true := hd c (by simp)
    obtain ⟨hs1, hs2⟩ := digit_not_sign c hc
    have hdd : reDigitDot c = true := by simp [reDigitDot, hc]
    obtain ⟨h1, h2, h3, h4, h5, h6⟩ := digitDot_head c hdd
    have hstart : ∀ t : Str, special (c :: t) = none := by
      intro t
      simp [special, h1, h2, h3, h4, h5, h6]
    have hrfu : ∀ t : Str, readFloat (c :: t) = readUnsigned (c :: t) false (c :: t) := by
      intro t
      simp [readFloat, hs1, hs2]
    by_cases hf : fp = []
    · subst hf
      obtain ⟨st2, e1, e2, e3, e4, e5, e6, e7⟩ :=
        readMantissa_digits (c :: cs) [] ⟨false, false, 0, 0, 0, false⟩ hd (by simp)
      rw [List.append_nil] at e1
      have hhex := isHexStart_digit c cs (by
        intro d hdm
        exact Or.inl (hd d (List.mem_cons_of_mem _ (List.mem_of_mem_head? hdm))))
      have hm : readMantissa false (c :: cs) ⟨false, false, 0, 0, 0, false⟩ = (st2, []) := by
        rw [e1]; rfl
      have hsd : st2.sawdigits = true := by rw [e3]; simp
      have hsdot : st2.sawdot = false := e2
      have hru := readUnsigned_decimal (c :: cs) (c :: cs) false st2 hhex hm hsd e5
      have hdt : decimalText (c :: cs) [] = c :: cs := by simp [decimalText]
      unfold ParseFloat
      rw [hdt, hstart, hrfu, hru]
      simp only [hsdot, Bool.false_eq_true, if_false, scaled, sub_self, add_zero, le_refl,
        if_true, Int.toNat_zero, pow_zero, Nat.mul_one, List.append_nil, List.length_nil]
      rw [e4]
      rfl
    · obtain ⟨st2, e1, e2, e3, e4, e5, e6, e7⟩ :=
        readMantissa_digits (c :: cs) ('.' :: fp) ⟨false, false, 0, 0, 0, false⟩ hd (by simp)
      obtain ⟨st3, f1, f2, f3, f4, f5, f6, f7⟩ :=
        readMantissa_digits fp [] { st2 with sawdot := true, dp := st2.nd } hfp e6
      rw [List.append_nil] at f1
      have hhex := isHexStart_digit c (cs ++ '.' :: fp) (by
        intro d hdm
        cases cs with
        | nil =>
          simp at hdm
          exact Or.inr hdm.symm
        | cons y ys =>
          simp at hdm
          subst hdm
          exact Or.inl (hd _ (by simp)))
      have hsd2 : st2.sawdot = false := e2
      have hdot : readMantissa false ('.' :: fp) st2 =
          readMantissa false fp { st2 with sawdot := true, dp := st2.nd } := by
        rw [readMantissa_cons, if_neg (by decide), if_pos rfl]
        simp [hsd2]
      have hm : readMantissa false (c :: (cs ++ '.' :: fp)) ⟨false, false, 0, 0, 0, false⟩ =
          (st3, []) := by
        rw [← List.cons_append, e1, hdot, f1]
        rfl
      have hsd : st3.sawdigits = true := by
        rw [f3]
        simp [hf]
      have hsdot : st3.sawdot = true := f2
      have hus : st3.underscores = false := by rw [f5]; exact e5
      have hru := readUnsigned_decimal (c :: (cs ++ '.' :: fp)) (c :: (cs ++ '.' :: fp))
        false st3 hhex hm hsd hus
      have hx : st3.dp - (st3.nd : Int) = -(fp.length : Int) := by
        rw [f7]
        simp
      have hlen : 0 < fp.length := List.length_pos.mpr hf
      have hdt : decimalText (c :: cs) fp = c :: (cs ++ '.' :: fp) := by
        simp [decimalText, hf]
      unfold ParseFloat
      rw [hdt, hstart, hrfu, hru]
      simp only [hsdot, if_true, scaled]
      have hneg : ¬ (0 : Int) ≤ st3.dp - (st3.nd : Int) + 0 := by omega
      rw [if_neg hneg]
      have hexp : (-(st3.dp - (st3.nd : Int) + 0)).toNat = fp.length := by omega
      simp only [hexp, List.nil_eq, if_true]
      rw [f4, digitsVal_append]
      simp only
      rw [e4]
      rfl

/-! ## A well-formed row matches the process-row pattern -/

theorem head_class (t more : Str) (hne : t ≠ []) (h : ∀ c ∈ t, reSpace c = false) :
    ∀ c ∈ (t ++ more).head?, reSpace c = false :=
  head_append_class reSpace false t more hne h

theorem reDigitDot_not_space (c : Char) (h : reDigitDot c = true) : reSpace c = false := by
  simp only [reDigitDot, Bool.or_eq_true, decide_eq_true_eq] at h
  rcases h with h | h
  · exact isDigit_not_space c h
  · subst h
    decide

theorem decimalText_class (ip fp : Str) (hip : IsDigits ip)
    (hfp : ∀ c ∈ fp, isDigit c = true) :
    decimalText ip fp ≠ [] ∧ ∀ c ∈ decimalText ip fp, reDigitDot c = true := by
  unfold decimalText
  split
  · refine ⟨hip.1, ?_⟩
    intro c hc
    simp [reDigitDot, hip.2 c hc]
  · constructor
    · intro h
      have := congrArg List.length h
      simp at this
    · intro c hc
      simp only [List.mem_append, List.mem_cons] at hc
      rcases hc with hc | hc | hc
      · simp [reDigitDot, hip.2 c hc]
      · subst hc
        decide
      · simp [reDigitDot, hfp c hc]

/-- A well-formed row matches the pattern, and the twelve groups hold the twelve
columns. -/
theorem processRow_match (r : ProcessRowText) (h : r.WellFormed) :
    matchAtoms processInfoRegex r.line =
      some [r.pid, r.user, r.pr, r.ni, r.virt, r.res, r.shr, r.state,
        decimalText r.cpuInt r.cpuFrac, decimalText r.memInt r.memFrac, r.time,
        r.command] := by
  obtain ⟨hlead, hpid, hpr, hni, hvirt, hres, hshr, ⟨huser, hstate, htime⟩, hcpu, hmem,
    ⟨s1, s2, s3, s4, s5, s6, s7, s8, s9, s10, s11⟩, hcmd1, hcmd2⟩ := h
  have dsp : ∀ t : Str, IsDigits t → ∀ c ∈ t, reSpace c = false :=
    fun t ht c hc => isDigit_not_space c (ht.2 c hc)
  have hcpuc := decimalText_class r.cpuInt r.cpuFrac hcpu.1 hcpu.2
  have hmemc := decimalText_class r.memInt r.memFrac hmem.1 hmem.2
  have ddsp : ∀ t : Str, (∀ c ∈ t, reDigitDot c = true) → ∀ c ∈ t, reSpace c = false :=
    fun t ht c hc => reDigitDot_not_space c (ht c hc)
  have ns : ∀ t : Str, IsToken t → ∀ c ∈ t, reNonSpace c = true := by
    intro t ht c hc
    simp [reNonSpace, ht.2 c hc]
  have e12 : matchAtoms [⟨reAny, 0, true⟩] r.command = some [r.command] := by
    have := matchAtoms_run ⟨reAny, 0, true⟩ [] r.command [] [] hcmd2 (by simp)
      (Nat.zero_le _) (by simp [matchAtoms])
    simpa using this
  have e11 := matchAtoms_token_sep reNonSpace _ r.time r.sep11 r.command _ reNonSpace_class
    htime.1 (ns _ htime) s11 hcmd1 e12
  have e10 := matchAtoms_token_sep reDigitDot _ (decimalText r.memInt r.memFrac) r.sep10 _ _
    reDigitDot_not_space hmemc.1 hmemc.2 s10 (head_class r.time _ htime.1 htime.2) e11
  have e9 := matchAtoms_token_sep reDigitDot _ (decimalText r.cpuInt r.cpuFrac) r.sep9 _ _
    reDigitDot_not_space hcpuc.1 hcpuc.2 s9
    (head_class _ _ hmemc.1 (ddsp _ hmemc.2)) e10
  have e8 := matchAtoms_token_sep reNonSpace _ r.state r.sep8 _ _ reNonSpace_class
    hstate.1 (ns _ hstate) s8 (head_class _ _ hcpuc.1 (ddsp _ hcpuc.2)) e9
  have e7 := matchAtoms_token_sep isDigit _ r.shr r.sep7 _ _ isDigit_not_space
    hshr.1.1 hshr.1.2 s7 (head_class _ _ hstate.1 hstate.2) e8
  have e6 := matchAtoms_token_sep isDigit _ r.res r.sep6 _ _ isDigit_not_space
    hres.1.1 hres.1.2 s6 (head_class _ _ hshr.1.1 (dsp _ hshr.1)) e7
  have e5 := matchAtoms_token_sep isDigit _ r.virt r.sep5 _ _ isDigit_not_space
    hvirt.1.1 hvirt.1.2 s5 (head_class _ _ hres.1.1 (dsp _ hres.1)) e6
  have e4 := matchAtoms_token_sep isDigit _ r.ni r.sep4 _ _ isDigit_not_space
    hni.1.1 hni.1.2 s4 (head_class _ _ hvirt.1.1 (dsp _ hvirt.1)) e5
  have e3 := matchAtoms_token_sep isDigit _ r.pr r.sep3 _ _ isDigit_not_space
    hpr.1.1 hpr.1.2 s3 (head_class _ _ hni.1.1 (dsp _ hni.1)) e4
  have e2 := matchAtoms_token_sep reNonSpace _ r.user r.sep2 _ _ reNonSpace_class
    huser.1 (ns _ huser) s2 (head_class _ _ hpr.1.1 (dsp _ hpr.1)) e3
  have e1 := matchAtoms_token_sep isDigit _ r.pid r.sep1 _ _ isDigit_not_space
    hpid.1.1 hpid.1.2 s1 (head_class _ _ huser.1 huser.2) e2
  have e0 := matchAtoms_run ⟨reSpace, 0, false⟩ _ r.lead _ _ hlead
    (head_class _ _ hpid.1.1 (dsp _ hpid.1)) (Nat.zero_le _) e1
  exact e0

theorem sortSlice_singleton {α : Type} (less : α → α → Bool) (x : α) :
    sortSlice less [x] = [x] := rfl

/-! ## The sort keeps records of equal key in their order -/

theorem filter_insertFront {α : Type} (f : α → Int) (P : α → Bool)
    (hP : ∀ a b, P a = true → P b = true → f a = f b) (x : α) (S : List α)
    (hS : S.Pairwise (fun a b => f b ≤ f a)) :
    (insertFront (keyLess f) x S).filter P = S.filter P ++ [x].filter P := by
  induction S with
  | nil => simp [insertFront]
  | cons b l ih =>
    rw [List.pairwise_cons] at hS
    by_cases hb : keyLess f x b = true
    · have hlt : f b < f x := by simpa [keyLess] using hb
      simp only [insertFront, hb, if_true]
      by_cases hx : P x = true
      · have hnone : (b :: l).filter P = [] := by
          rw [List.filter_eq_nil_iff]
          intro a ha hPa
          have h1 := hP a x hPa hx
          rcases List.mem_cons.1 ha with rfl | hal
          · omega
          · have h2 := hS.1 a hal; omega
        rw [List.filter_cons, hnone]; simp [hx]
      · rw [List.filter_cons]; simp [hx]
    · have hf : keyLess f x b = false := by simpa using hb
      simp only [insertFront, hf, Bool.false_eq_true, if_false]
      rw [List.filter_cons, ih hS.2, List.filter_cons]
      by_cases hPb : P b = true <;> simp [hPb]

theorem filter_sortSlice_keyLess {α : Type} (f : α → Int) (P : α → Bool)
    (hP : ∀ a b, P a = true → P b = true → f a = f b) (R : List α) :
    (sortSlice (keyLess f) R).filter P = R.filter P := by
  induction R using List.reverseRecOn with
  | nil => rfl
  | append_singleton R x ih =>
    rw [sortSlice_keyLess_snoc, filter_insertFront f P hP x _ (sortSlice_keyLess_desc f R), ih,
      List.filter_append]

theorem withCPU_sortSlice (v : Float64) (R : List ProcessInfo) :
    withCPU v (sortSlice (keyLess cpuKey) R) = withCPU v R := by
  unfold withCPU
  apply filter_sortSlice_keyLess
  intro a b ha hb
  have ea : a.CPU = v := by simpa using ha
  have eb : b.CPU = v := by simpa using hb
  simp [cpuKey, ea, eb]

/-! ## The sort as an insertion sort from the back -/

theorem insertFront_orderedInsert {α : Type} (f : α → Int) (a x : α) (S : List α) :
    insertFront (keyLess f) x (List.orderedInsert (fun a b => f b ≤ f a) a S) =
      List.orderedInsert (fun a b => f b ≤ f a) a (insertFront (keyLess f) x S) := by
  induction S with
  | nil =>
    by_cases h : f a < f x
    · have h2 : ¬ f x ≤ f a := by omega
      simp [insertFront, keyLess, h, h2]
    · have h2 : f x ≤ f a := by omega
      simp [insertFront, keyLess, h, h2]
  | cons b l ih =>
    by_cases h1 : f b ≤ f a <;> by_cases h2 : f b < f x
    · by_cases h : f a < f x
      · have h3 : ¬ f x ≤ f a := by omega
        simp [insertFront, keyLess, h, h1, h2, h3]
      · have h3 : f x ≤ f a := by omega
        simp [insertFront, keyLess, h, h1, h2, h3]
    · have h3 : ¬ f a < f x := by omega
      simp [insertFront, keyLess, h1, h2, h3]
    · have h3 : ¬ f x ≤ f a := by omega
      simp [insertFront, keyLess, h1, h2, h3]
    · simp [insertFront, keyLess, h1, h2, ih]

theorem sortSlice_keyLess_cons {α : Type} (f : α → Int) (a : α) (R : List α) :
    sortSlice (keyLess f) (a :: R) =
      List.orderedInsert (fun a b => f b ≤ f a) a (sortSlice (keyLess f) R) := by
  induction R using List.reverseRecOn with
  | nil => rfl
  | append_singleton R x ih =>
    rw [← List.cons_append, sortSlice_keyLess_snoc, ih, insertFront_orderedInsert,
      sortSlice_keyLess_snoc]

theorem sortSlice_keyLess_insertionSort {α : Type} (f : α → Int) (R : List α) :
    sortSlice (keyLess f) R = List.insertionSort (fun a b => f b ≤ f a) R := by
  induction R with
  | nil => rfl
  | cons a R ih => rw [sortSlice_keyLess_cons, ih]; rfl

theorem orderedInsert_congr {α : Type} (r s : α → α → Prop) [DecidableRel r] [DecidableRel s]
    (a : α) (l : List α) (h : ∀ b ∈ l, r a b ↔ s a b) :
    List.orderedInsert r a l = List.orderedInsert s a l := by
  induction l with
  | nil => rfl
  | cons b l ih =>
    have hb := h b (List.mem_cons_self b l)
    have ih2 := ih (fun c hc => h c (List.mem_cons_of_mem b hc))
    by_cases hr : r a b
    · simp [List.orderedInsert, hr, hb.1 hr]
    · have hs : ¬ s a b := fun hs => hr (hb.2 hs)
      simp [List.orderedInsert, hr, hs, ih2]

theorem insertionSort_congr {α : Type} (r s : α → α → Prop) [DecidableRel r] [DecidableRel s]
    (l : List α) (h : ∀ a ∈ l, ∀ b ∈ l, r a b ↔ s a b) :
    List.insertionSort r l = List.insertionSort s l := by
  induction l with
  | nil => rfl
  | cons a l ih =>
    have ih2 := ih (fun x hx y hy => h x (List.mem_cons_of_mem a hx) y (List.mem_cons_of_mem a hy))
    simp only [List.insertionSort]
    rw [ih2]
    apply orderedInsert_congr
    intro b hb
    have hb2 : b ∈ l := (List.perm_insertionSort s l).mem_iff.1 hb
    exact h a (List.mem_cons_self a l) b (List.mem_cons_of_mem a hb2)

theorem ge_of_bits (a b : ProcessInfo) (ha : a.CPU.bits ≤ 2047 * 2 ^ 52)
    (hb : b.CPU.bits ≤ 2047 * 2 ^ 52) :
    a.CPU.ge b.CPU = true ↔ cpuKey b ≤ cpuKey a := by
  have ha2 : a.CPU.bits % 2 ^ 63 = a.CPU.bits := Nat.mod_eq_of_lt (by omega)
  have hb2 : b.CPU.bits % 2 ^ 63 = b.CPU.bits := Nat.mod_eq_of_lt (by omega)
  have na : a.CPU.isNaN = false := by simp [Float64.isNaN, ha2]; omega
  have nb : b.CPU.isNaN = false := by simp [Float64.isNaN, hb2]; omega
  simp [Float64.ge, na, nb, cpuKey]

theorem sortSlice_sortOnceStable (R : List ProcessInfo)
    (h : ∀ r ∈ R, r.CPU.bits ≤ 2047 * 2 ^ 52) :
    sortSlice cpuGreater R = sortOnceStable R := by
  rw [sortSlice_cpuGreater R h, sortSlice_keyLess_insertionSort]
  unfold sortOnceStable
  apply insertionSort_congr
  intro a ha b hb
  exact (ge_of_bits a b (h a ha) (h b hb)).symm

/-- For records with plain values, the key order is the order of `>` and `==`. -/
theorem ge_cases_of_key (a b : ProcessInfo) (ha : a.CPU.bits ≤ 2047 * 2 ^ 52)
    (hb : b.CPU.bits ≤ 2047 * 2 ^ 52) (h : cpuKey b ≤ cpuKey a) :
    a.CPU.gt b.CPU = true ∨ a.CPU = b.CPU := by
  have hg := cpuGreater_of_bits a b ha hb
  unfold cpuGreater at hg
  have ha2 : a.CPU.bits % 2 ^ 63 = a.CPU.bits := Nat.mod_eq_of_lt (by omega)
  have hb2 : b.CPU.bits % 2 ^ 63 = b.CPU.bits := Nat.mod_eq_of_lt (by omega)
  have ka : cpuKey a = (a.CPU.bits : Int) := by
    have : a.CPU.bits < 2 ^ 63 := by omega
    unfold cpuKey Float64.key; rw [if_pos this]
  have kb : cpuKey b = (b.CPU.bits : Int) := by
    have : b.CPU.bits < 2 ^ 63 := by omega
    unfold cpuKey Float64.key; rw [if_pos this]
  rw [ka, kb] at h
  by_cases hlt : b.CPU.bits < a.CPU.bits
  · left; rw [hg]; simpa using hlt
  · right
    have : a.CPU.bits = b.CPU.bits := by omega
    cases ha3 : a.CPU; cases hb3 : b.CPU
    simp [ha3, hb3] at this; simp [this]

theorem workingList_nonIncreasing (seen : List Str) : NonIncreasing (workingList seen) := by
  unfold NonIncreasing workingList
  rw [foldl_topLine, sortSlice_cpuGreater _ (processRows_bits seen)]
  have hd := sortSlice_keyLess_desc cpuKey (processRows seen)
  have hbits : ∀ r ∈ sortSlice (keyLess cpuKey) (processRows seen), r.CPU.bits ≤ 2047 * 2 ^ 52 :=
    fun r hr => processRows_bits seen r ((mem_sortSlice _ _ r).1 hr)
  have hd2 : (sortSlice (keyLess cpuKey) (processRows seen)).Pairwise
      (fun a b => a.CPU.gt b.CPU = true ∨ a.CPU = b.CPU) :=
    List.Pairwise.imp_of_mem (fun ha hb h => ge_cases_of_key _ _ (hbits _ ha) (hbits _ hb) h) hd
  exact hd2.sublist (List.take_sublist 10 _)

theorem workingList_length (seen : List Str) :
    (workingList seen).length = min 10 (processRows seen).length := by
  unfold workingList
  rw [foldl_topLine, List.length_take, length_sortSlice]

theorem workingList_collectAll (lines : List Str) : workingList lines = collectAllTop lines := by
  unfold workingList collectAllTop
  rw [foldl_topLine, sortSlice_sortOnceStable _ (processRows_bits lines)]

theorem workingList_withCPU (v : Float64) (lines : List Str) :
    withCPU v (workingList lines) <+: withCPU v (processRows lines) := by
  have h : withCPU v (workingList lines) <+:
      withCPU v (sortSlice (keyLess cpuKey) (processRows lines)) := by
    unfold workingList withCPU
    rw [foldl_topLine, sortSlice_cpuGreater _ (processRows_bits lines)]
    exact List.IsPrefix.filter _ (List.take_prefix 10 _)
  rwa [withCPU_sortSlice] at h

theorem workingList_snoc (seen : List Str) (line : Str) :
    workingList (seen ++ [line]) = topLine (workingList seen) line := by
  simp [workingList, List.foldl_append]

/-! ## One `switch` run touches one field -/

theorem cpuAssign_other (f : CPUField) (cpuInfo : CPUInfo) (key value : Str)
    (h : key ≠ f.key) : f.get (cpuAssign cpuInfo key value) = f.get cpuInfo := by
  by_cases hk : key ∈ cpuKeys
  · simp only [cpuKeys, List.mem_cons, List.mem_singleton, List.not_mem_nil, or_false] at hk
    rcases hk with hk | hk | hk | hk | hk | hk | hk | hk | hk | hk | hk | hk | hk | hk | hk |
      hk | hk | hk | hk | hk | hk | hk <;> subst hk <;> cases f <;>
      first
      | rfl
      | exact absurd rfl h
  · rw [cpuAssign_unrecognized cpuInfo key value hk]

theorem cpuAssign_key (f : CPUField) (cpuInfo : CPUInfo) (value : Str) :
    f.get (cpuAssign cpuInfo f.key value) = f.stored value := by
  cases f <;> rfl

theorem get_zero (f : CPUField) : f.get CPUInfo.zero = f.zeroValue := by
  cases f <;> rfl

theorem stored_syntax_zero (f : CPUField) (value : Str)
    (h : f.conversionError value = some NumError.ErrSyntax) : f.stored value = f.zeroValue := by
  cases f <;>
    first
    | exact congrArg FieldValue.int (Atoi_syntax_zero value h)
    | exact congrArg FieldValue.float (ParseFloat_syntax_zero value h)
    | (simp [CPUField.conversionError, CPUField.get] at h)

theorem stored_range_not_zero (f : CPUField) (value : Str)
    (h : f.conversionError value = some NumError.ErrRange) : f.stored value ≠ f.zeroValue := by
  cases f <;>
    first
    | (simp [CPUField.conversionError, CPUField.get] at h; done)
    | (intro e
       have e2 : (Atoi value).1 = 0 := FieldValue.int.inj e
       rcases Atoi_range_saturates value h with h1 | h1 <;> rw [h1] at e2 <;> omega)
    | (intro e
       have e2 : (ParseFloat value).1 = Float64.zero := FieldValue.float.inj e
       rcases ParseFloat_range_inf value h with h1 | h1 <;> rw [h1] at e2 <;>
         exact absurd e2 (by decide))

theorem cpuLine_other (f : CPUField) (cpuInfo : CPUInfo) (line : Str)
    (h : ¬ HasKey f.key line) : f.get (cpuLine cpuInfo line) = f.get cpuInfo := by
  by_cases hs : (Fields line).length < 2
  · rw [cpuLine_short cpuInfo line hs]
  · rcases hfl : Fields line with _ | ⟨k, _ | ⟨v, vs⟩⟩
    · rw [hfl] at hs; simp at hs
    · rw [hfl] at hs; simp at hs
    · rw [cpuLine_fields cpuInfo line k v vs hfl]
      apply cpuAssign_other
      intro hk
      apply h
      unfold HasKey firstToken
      rw [hfl, hk]
      exact ⟨rfl, by simp⟩

theorem foldl_cpuLine_other (f : CPUField) (lines : List Str)
    (h : ∀ l ∈ lines, ¬ HasKey f.key l) (cpuInfo : CPUInfo) :
    f.get (lines.foldl cpuLine cpuInfo) = f.get cpuInfo := by
  induction lines generalizing cpuInfo with
  | nil => rfl
  | cons l ls ih =>
    rw [List.foldl_cons, ih (fun x hx => h x (List.mem_cons_of_mem l hx)),
      cpuLine_other f cpuInfo l (h l (List.mem_cons_self l ls))]

theorem firstToken_no_space (line key : Str) (c : Char) (hc : c ∈ key)
    (hs : isSpace c = true) : firstToken line ≠ some key := by
  intro h
  unfold firstToken at h
  have hm : key ∈ Fields line := List.mem_of_mem_head? h
  have := (Fields_tokens line key hm).2 c hc
  rw [hs] at this
  exact absurd this (by decide)

theorem not_hasKey_of_firstToken (key line : Str) (h : firstToken line ≠ some key) :
    ¬ HasKey key line := fun hk => h hk.1

theorem foldl_cpuLine_last (f : CPUField) (pre post : List Str) (line v : Str) (vs : List Str)
    (hf : Fields line = f.key :: v :: vs) (hpost : ∀ l ∈ post, ¬ HasKey f.key l)
    (cpuInfo : CPUInfo) :
    f.get ((pre ++ line :: post).foldl cpuLine cpuInfo) =
      f.stored (Join (v :: vs) " ".toList) := by
  rw [List.foldl_append, List.foldl_cons, foldl_cpuLine_other f post hpost,
    cpuLine_fields _ line f.key v vs hf, cpuAssign_key]

/-! ## A match splits the text into one run for each item of the pattern -/

theorem matchAtoms_runs (atoms : List Atom) (s : Str) (caps : List Str)
    (h : matchAtoms atoms s = some caps) :
    ∃ runs : List Str, s = runs.foldr (fun r t => r ++ t) [] ∧
      List.Forall₂ (fun (a : Atom) (run : Str) => a.min ≤ run.length ∧ ∀ c ∈ run, a.cls c = true)
        atoms runs := by
  induction atoms generalizing s caps with
  | nil =>
    by_cases hs : s = []
    · exact ⟨[], by simp [hs], List.Forall₂.nil⟩
    · simp [matchAtoms, hs] at h
  | cons a rest ih =>
    rw [matchAtoms_cons] at h
    obtain ⟨m, caps2, hm, hmin, hk, _⟩ := tryLens_some _ a s _ caps h
    obtain ⟨runs, hs, hF⟩ := ih _ caps2 hk
    refine ⟨s.take m :: runs, ?_, List.Forall₂.cons ⟨?_, take_of_le_takeWhile a.cls s m hm⟩ hF⟩
    · rw [List.foldr_cons, ← hs, List.take_append_drop]
    · have hlen : m ≤ s.length := le_trans hm (List.takeWhile_sublist a.cls).length_le
      simp [List.length_take, hlen, hmin]

theorem token_of_run (t : Str) (h : 1 ≤ t.length ∧ ∀ c ∈ t, reNonSpace c = true) : IsToken t :=
  ⟨fun e => by rw [e] at h; simp at h,
   fun c hc => by have := h.2 c hc; simpa [reNonSpace] using this⟩

theorem sep_of_run (w : Str) (h : 1 ≤ w.length ∧ ∀ c ∈ w, reSpace c = true) : IsSep w :=
  ⟨fun e => by rw [e] at h; simp at h, h.2⟩

theorem sixTokens_of_match (line : Str) (caps : List Str)
    (h : matchAtoms diskInfoRegex line = some caps) : SixTokens line := by
  obtain ⟨runs, hs, hF⟩ := matchAtoms_runs diskInfoRegex line caps h
  unfold diskInfoRegex at hF
  simp only [List.forall₂_cons_left_iff, List.forall₂_nil_left_iff] at hF
  obtain ⟨t1, r1, h1, ⟨w1, r2, s1, ⟨t2, r3, h2, ⟨w2, r4, s2, ⟨t3, r5, h3, ⟨w3, r6, s3,
    ⟨t4, r7, h4, ⟨w4, r8, s4, ⟨t5, r9, h5, ⟨w5, r10, s5, ⟨t6, r11, h6, ⟨w6, r12, s6, e12, e11⟩,
    e10⟩, e9⟩, e8⟩, e7⟩, e6⟩, e5⟩, e4⟩, e3⟩, e2⟩, e1⟩, e0⟩ := hF
  subst e12 e11 e10 e9 e8 e7 e6 e5 e4 e3 e2 e1 e0
  refine ⟨t1, w1, t2, w2, t3, w3, t4, w4, t5, w5, t6, w6, ?_, token_of_run t1 h1,
    sep_of_run w1 s1, token_of_run t2 h2, sep_of_run w2 s2, token_of_run t3 h3,
    sep_of_run w3 s3, token_of_run t4 h4, sep_of_run w4 s4, token_of_run t5 h5,
    sep_of_run w5 s5, token_of_run t6 h6, s6.2⟩
  rw [hs]
  simp

theorem isDiskRow_iff_sixTokens (line : Str) : IsDiskRow line ↔ SixTokens line := by
  constructor
  · intro h
    unfold IsDiskRow at h
    cases hm : matchAtoms diskInfoRegex line with
    | none => simp [FindStringSubmatch, hm] at h
    | some caps => exact sixTokens_of_match line caps hm
  · rintro ⟨t1, w1, t2, w2, t3, w3, t4, w4, t5, w5, t6, w6, rfl, h1, s1, h2, s2, h3, s3, h4,
      s4, h5, s5, h6, s6⟩
    have hm := disk_match t1 t2 t3 t4 t5 t6 w1 w2 w3 w4 w5 w6 h1 h2 h3 h4 h5 h6 s1 s2 s3 s4
      s5 s6
    simp [IsDiskRow, FindStringSubmatch, hm]

theorem diskLine_matched (list : List DiskInfo) (line : Str) (h : IsDiskRow line) :
    diskLine list line = list ++ [diskRecord (FindStringSubmatch diskInfoRegex line)] := by
  unfold IsDiskRow at h
  simp [diskLine, h]

theorem diskLine_unmatched (list : List DiskInfo) (line : Str) (h : ¬ IsDiskRow line) :
    diskLine list line = list := by
  unfold IsDiskRow at h
  simp [diskLine, h]

theorem diskRows_skip (pre post : List Str) (line : Str) (h : ¬ IsDiskRow line) :
    diskRows (pre ++ line :: post) = diskRows (pre ++ post) := by
  simp [diskRows, List.filter_append, List.filter_cons, h]

theorem append_singleton_ne {α : Type} (l : List α) (x : α) : l ≠ l ++ [x] := by
  intro h
  have := congrArg List.length h
  simp at this

/-! ## The scanner on one line -/

theorem byteLen_reverse (l : Str) : byteLen l.reverse = byteLen l := by
  simp [byteLen, List.map_reverse, List.sum_reverse]

theorem byteLen_replicate_x (n : Nat) : byteLen (List.replicate n 'x') = n := by
  have h : Char.utf8Size 'x' = 1 := by decide
  simp [byteLen, List.map_replicate, List.sum_replicate, h]

theorem scanLinesAux_run (l rest cur : Str) (hl : ∀ c ∈ l, c ≠ '\n') :
    scanLinesAux (l ++ rest) cur = scanLinesAux rest (l.reverse ++ cur) := by
  induction l generalizing cur with
  | nil => rfl
  | cons c cs ih =>
    have hc : c ≠ '\n' := hl c (List.mem_cons_self c cs)
    rw [List.cons_append, scanLinesAux, if_neg hc,
      ih (c :: cur) (fun d hd => hl d (List.mem_cons_of_mem c hd))]
    simp

theorem scanLinesAux_line (l rest : Str) (hl : ∀ c ∈ l, c ≠ '\n')
    (hlen : byteLen l < maxScanTokenSize) :
    scanLinesAux (l ++ '\n' :: rest) [] =
      (dropCR l :: (scanLinesAux rest []).1, (scanLinesAux rest []).2) := by
  have h2 : ¬ maxScanTokenSize ≤ byteLen (l.reverse ++ []) := by
    rw [List.append_nil, byteLen_reverse]; omega
  rw [scanLinesAux_run l _ [] hl, scanLinesAux, if_pos rfl, if_neg h2]
  simp

theorem scanLinesAux_overlong (l rest : Str) (hl : ∀ c ∈ l, c ≠ '\n')
    (hlen : maxScanTokenSize ≤ byteLen l) :
    scanLinesAux (l ++ '\n' :: rest) [] = ([], some errTooLong) := by
  have h2 : maxScanTokenSize ≤ byteLen (l.reverse ++ []) := by
    rw [List.append_nil, byteLen_reverse]; exact hlen
  rw [scanLinesAux_run l _ [] hl, scanLinesAux, if_pos rfl, if_pos h2]

theorem scanLines_overlong (l rest : Str) (hl : ∀ c ∈ l, c ≠ '\n')
    (hlen : byteLen l < maxScanTokenSize) (n : Nat) (hn : maxScanTokenSize ≤ n) :
    scanLines (l ++ '\n' :: (List.replicate n 'x' ++ '\n' :: rest)) =
      ⟨[dropCR l], some errTooLong⟩ := by
  have hx : ∀ c ∈ List.replicate n 'x', c ≠ '\n' := by
    intro c hc
    rw [List.eq_of_mem_replicate hc]
    decide
  unfold scanLines
  rw [scanLinesAux_line l _ hl hlen,
    scanLinesAux_overlong _ rest hx (by rw [byteLen_replicate_x]; exact hn)]

/-! ## The side of a range error -/

theorem maxUint64_val : maxUint64 = 18446744073709551615 := by decide

theorem parseUintLoop_range (s : Str) (n : Nat)
    (h : (parseUintLoop s n).2 = some NumError.ErrRange) :
    (parseUintLoop s n).1 = maxUint64 ∧
    ∃ ds rest : Str, s = ds ++ rest ∧ ds ≠ [] ∧ (∀ c ∈ ds, isDigit c = true) ∧
      maxUint64 < ds.foldl (fun n c => n * 10 + digitVal c) n := by
  induction s generalizing n with
  | nil => simp [parseUintLoop] at h
  | cons c cs ih =>
    rw [parseUintLoop] at h ⊢
    by_cases hc : isDigit c = true
    · rw [if_pos hc] at h ⊢
      by_cases h1 : n ≥ maxUint64 / 10 + 1
      · rw [if_pos h1]
        refine ⟨rfl, [c], cs, rfl, by simp, by simpa using hc, ?_⟩
        simp only [List.foldl_cons, List.foldl_nil]
        rw [maxUint64_val] at h1 ⊢
        omega
      · rw [if_neg h1] at h ⊢
        by_cases h2 : n * 10 + digitVal c > maxUint64
        · rw [if_pos h2]
          exact ⟨rfl, [c], cs, rfl, by simp, by simpa using hc, by simpa using h2⟩
        · rw [if_neg h2] at h ⊢
          obtain ⟨hv, ds, rest, e, _, hd, hgt⟩ := ih _ h
          refine ⟨hv, c :: ds, rest, by simp [e], by simp, ?_, by simpa using hgt⟩
          intro d hd2
          rcases List.mem_cons.1 hd2 with rfl | h3
          · exact hc
          · exact hd d h3
    · rw [if_neg hc] at h
      simp at h

theorem parseUintLoop_none (s : Str) (n : Nat) (h : (parseUintLoop s n).2 = none) :
    (∀ c ∈ s, isDigit c = true) ∧
    (parseUintLoop s n).1 = s.foldl (fun n c => n * 10 + digitVal c) n := by
  induction s generalizing n with
  | nil => simp [parseUintLoop]
  | cons c cs ih =>
    rw [parseUintLoop] at h ⊢
    by_cases hc : isDigit c = true
    · rw [if_pos hc] at h ⊢
      by_cases h1 : n ≥ maxUint64 / 10 + 1
      · rw [if_pos h1] at h
        simp at h
      · rw [if_neg h1] at h ⊢
        by_cases h2 : n * 10 + digitVal c > maxUint64
        · rw [if_pos h2] at h
          simp at h
        · rw [if_neg h2] at h ⊢
          obtain ⟨hd, hv⟩ := ih _ h
          refine ⟨?_, by simpa using hv⟩
          intro d hd2
          rcases List.mem_cons.1 hd2 with rfl | h3
          · exact hc
          · exact hd d h3
    · rw [if_neg hc] at h
      simp at h

theorem parseUintLoop_over (ds : Str) (n : Nat) (hd : ∀ c ∈ ds, isDigit c = true)
    (hn : n ≤ maxUint64)
    (hgt : maxUint64 < ds.foldl (fun n c => n * 10 + digitVal c) n) :
    parseUintLoop ds n = (maxUint64, some NumError.ErrRange) := by
  induction ds generalizing n with
  | nil => simp at hgt; omega
  | cons c cs ih =>
    have hc : isDigit c = true := hd c (by simp)
    rw [parseUintLoop, if_pos hc]
    by_cases h1 : n ≥ maxUint64 / 10 + 1
    · rw [if_pos h1]
    · rw [if_neg h1]
      by_cases h2 : n * 10 + digitVal c > maxUint64
      · rw [if_pos h2]
      · rw [if_neg h2]
        exact ih _ (fun d hd2 => hd d (List.mem_cons_of_mem c hd2)) (by omega)
          (by simpa using hgt)

/-- What `ParseUint` has read when it reports no syntax error: digits `ds`, either the
whole text with their value returned, or enough of it to pass `maxUint64`. -/
theorem ParseUint_read (body : Str) (h : (ParseUint body).2 ≠ some NumError.ErrSyntax) :
    ∃ ds rest : Str, IsDigits ds ∧ body = ds ++ rest ∧
      (((ParseUint body).2 = none ∧ rest = [] ∧ (ParseUint body).1 = digitsVal ds) ∨
       ((ParseUint body).2 = some NumError.ErrRange ∧ (ParseUint body).1 = maxUint64 ∧
          maxUint64 < digitsVal ds)) := by
  unfold ParseUint at h ⊢
  by_cases hb : body = []
  · rw [if_pos hb] at h
    simp at h
  · rw [if_neg hb] at h ⊢
    rcases he : (parseUintLoop body 0).2 with _ | e
    · obtain ⟨hd, hv⟩ := parseUintLoop_none body 0 he
      exact ⟨body, [], ⟨hb, hd⟩, by simp, Or.inl ⟨rfl, rfl, hv⟩⟩
    · cases e with
      | ErrSyntax => exact absurd he h
      | ErrRange =>
        obtain ⟨hv, ds, rest, e1, hne, hd, hgt⟩ := parseUintLoop_range body 0 he
        exact ⟨ds, rest, ⟨hne, hd⟩, e1, Or.inr ⟨rfl, hv, hgt⟩⟩

theorem ParseInt_range_side (s : Str) (h : (ParseInt s).2 = some NumError.ErrRange) :
    (AboveIntRange s ∧ (ParseInt s).1 = 2 ^ 63 - 1) ∨
    (BelowIntRange s ∧ (ParseInt s).1 = -(2 ^ 63)) := by
  cases s with
  | nil => simp [ParseInt] at h
  | cons c cs =>
    simp only [ParseInt] at h ⊢
    generalize hbody : (if c = '+' ∨ c = '-' then cs else c :: cs) = body at h ⊢
    generalize hneg : decide (c = '-') = neg at h ⊢
    have hns : (ParseUint body).2 ≠ some NumError.ErrSyntax := by
      intro hs
      rcases hpu : ParseUint body with ⟨un, e⟩
      rw [hpu] at hs h
      simp only at hs
      subst hs
      simp at h
    obtain ⟨ds, rest, hds, hb, hcase⟩ := ParseUint_read body hns
    have hun : 2 ^ 63 ≤ (ParseUint body).1 → 2 ^ 63 ≤ digitsVal ds := by
      intro hu
      rcases hcase with ⟨_, _, hv⟩ | ⟨_, _, hgt⟩
      · omega
      · rw [maxUint64_val] at hgt; omega
    have hun2 : 2 ^ 63 < (ParseUint body).1 → 2 ^ 63 < digitsVal ds := by
      intro hu
      rcases hcase with ⟨_, _, hv⟩ | ⟨_, _, hgt⟩
      · omega
      · rw [maxUint64_val] at hgt; omega
    rcases hpu : ParseUint body with ⟨un, e⟩
    rw [hpu] at h hns hun hun2
    simp only at h hns hun hun2 ⊢
    cases neg with
    | false =>
      have hcm : c ≠ '-' := by simpa using hneg
      by_cases hu : (9223372036854775808 : Nat) ≤ un
      · left
        refine ⟨⟨ds, rest, hds, ?_, hun (by omega)⟩, by simp [hu]⟩
        by_cases hcp : c = '+'
        · right
          rw [← hb, ← hbody, hcp]
          simp
        · left
          rw [← hb, ← hbody]
          simp [hcp, hcm]
      · simp [hu] at h
    | true =>
      have hcm : c = '-' := by simpa using hneg
      by_cases hu : (9223372036854775808 : Nat) < un
      · right
        refine ⟨⟨ds, rest, hds, ?_, hun2 (by omega)⟩, by simp [hu]⟩
        rw [← hb, ← hbody, hcm]
        simp
      · simp [hu] at h

theorem Atoi_range_side (s : Str) (h : (Atoi s).2 = some NumError.ErrRange) :
    (AboveIntRange s ∧ (Atoi s).1 = 2 ^ 63 - 1) ∨
    (BelowIntRange s ∧ (Atoi s).1 = -(2 ^ 63)) := by
  unfold Atoi at h ⊢
  by_cases hlen : 0 < byteLen s ∧ byteLen s < 19
  · rw [if_pos hlen] at h
    cases s with
    | nil => simp at h
    | cons c cs =>
      simp only at h
      generalize (if c = '-' ∨ c = '+' then cs else c :: cs) = body at h
      by_cases hb : body = []
      · rw [if_pos hb] at h
        simp at h
      · rw [if_neg hb] at h
        rcases hl : atoiFastLoop body 0 with _ | n
        · rw [hl] at h
          simp at h
        · rw [hl] at h
          simp at h
  · rw [if_neg hlen] at h ⊢
    exact ParseInt_range_side s h

/-! ## Numerals beyond the range of `int` -/

theorem digitsVal_lt_pow (ds : Str) (hd : ∀ c ∈ ds, isDigit c = true) (n : Nat) :
    ds.foldl (fun n c => n * 10 + digitVal c) n < (n + 1) * 10 ^ ds.length := by
  induction ds generalizing n with
  | nil => simp
  | cons c cs ih =>
    have hc : isDigit c = true := hd c (by simp)
    have hv : digitVal c ≤ 9 := by
      simp only [isDigit, Bool.and_eq_true, decide_eq_true_eq] at hc
      unfold digitVal
      omega
    have h1 := ih (fun d hd2 => hd d (List.mem_cons_of_mem c hd2)) (n * 10 + digitVal c)
    simp only [List.foldl_cons, List.length_cons]
    calc List.foldl (fun n c => n * 10 + digitVal c) (n * 10 + digitVal c) cs
        < (n * 10 + digitVal c + 1) * 10 ^ cs.length := h1
      _ ≤ ((n + 1) * 10) * 10 ^ cs.length := Nat.mul_le_mul_right _ (by omega)
      _ = (n + 1) * 10 ^ (cs.length + 1) := by ring

theorem byteLen_digits (ds : Str) (hd : ∀ c ∈ ds, isDigit c = true) :
    byteLen ds = ds.length := by
  induction ds with
  | nil => rfl
  | cons c cs ih =>
    have hc : isDigit c = true := hd c (by simp)
    have h1 : Char.utf8Size c = 1 := by
      simp only [isDigit, Bool.and_eq_true, decide_eq_true_eq] at hc
      have hle : c.val.toNat ≤ 127 := by
        have : c.toNat = c.val.toNat := rfl
        omega
      simp only [Char.utf8Size]
      rw [if_pos]
      show c.val.toNat ≤ 127
      exact hle
    have ih2 := ih (fun d hd2 => hd d (List.mem_cons_of_mem c hd2))
    simp only [byteLen, List.map_cons, List.sum_cons, List.length_cons] at ih2 ⊢
    omega

theorem ParseUint_big (ds : Str) (hds : IsDigits ds) (h : 2 ^ 63 ≤ digitsVal ds) :
    ∃ un e, ParseUint ds = (un, e) ∧ e ≠ some NumError.ErrSyntax ∧ 2 ^ 63 ≤ un ∧
      (2 ^ 63 < digitsVal ds → 2 ^ 63 < un) := by
  by_cases hr : digitsVal ds ≤ maxUint64
  · exact ⟨digitsVal ds, none, ParseUint_digits ds hds hr, by simp, h, fun h2 => h2⟩
  · refine ⟨maxUint64, some NumError.ErrRange, ?_, by simp, ?_, fun _ => ?_⟩
    · unfold ParseUint
      rw [if_neg hds.1]
      exact parseUintLoop_over ds 0 hds.2 (Nat.zero_le _) (by unfold digitsVal at hr; omega)
    · rw [maxUint64_val]; omega
    · rw [maxUint64_val]; omega

theorem ParseInt_above (ds : Str) (hds : IsDigits ds) (h : 2 ^ 63 ≤ digitsVal ds) :
    ParseInt ds = (2 ^ 63 - 1, some NumError.ErrRange) ∧
    ParseInt ('+' :: ds) = (2 ^ 63 - 1, some NumError.ErrRange) := by
  obtain ⟨un, e, hu, he, hge, _⟩ := ParseUint_big ds hds h
  have hge2 : (9223372036854775808 : Nat) ≤ un := by omega
  obtain ⟨hne, hd⟩ := hds
  constructor
  · cases ds with
    | nil => exact absurd rfl hne
    | cons c cs =>
      have hc := digit_not_sign c (hd c (by simp))
      rcases e with _ | e
      · simp [ParseInt, hu, hc.1, hc.2, hge2]
      · cases e
        · exact absurd rfl he
        · simp [ParseInt, hu, hc.1, hc.2, hge2]
  · rcases e with _ | e
    · simp [ParseInt, hu, hge2]
    · cases e
      · exact absurd rfl he
      · simp [ParseInt, hu, hge2]

theorem ParseInt_below (ds : Str) (hds : IsDigits ds) (h : 2 ^ 63 < digitsVal ds) :
    ParseInt ('-' :: ds) = (-(2 ^ 63), some NumError.ErrRange) := by
  obtain ⟨un, e, hu, he, _, hgt⟩ := ParseUint_big ds hds (by omega)
  have hgt2 : (9223372036854775808 : Nat) < un := by have := hgt h; omega
  rcases e with _ | e
  · simp [ParseInt, hu, hgt2]
  · cases e
    · exact absurd rfl he
    · simp [ParseInt, hu, hgt2]

theorem length_of_big (ds : Str) (hds : IsDigits ds) (h : 2 ^ 63 ≤ digitsVal ds) :
    19 ≤ byteLen ds := by
  rw [byteLen_digits ds hds.2]
  by_contra hlt
  have h1 := digitsVal_lt_pow ds hds.2 0
  have h2 : 10 ^ ds.length ≤ 10 ^ 18 := Nat.pow_le_pow_right (by decide) (by omega)
  unfold digitsVal at h
  have h3 : (10 : Nat) ^ 18 < 2 ^ 63 := by decide
  omega

theorem byteLen_cons_ge (c : Char) (s : Str) : byteLen s ≤ byteLen (c :: s) := by
  simp [byteLen]

/-- `Atoi` on a decimal numeral of an integer above the `int` range. -/
theorem Atoi_intText_above (text : Str) (n : Int) (ht : IsIntText text n) (h : 2 ^ 63 ≤ n) :
    Atoi text = (2 ^ 63 - 1, some NumError.ErrRange) := by
  obtain ⟨ds, hds, ht | ht | ht⟩ := ht
  · obtain ⟨h1, h2⟩ := ht
    subst h1 h2
    have hb : 2 ^ 63 ≤ digitsVal text := by omega
    have hl := length_of_big text hds hb
    unfold Atoi
    rw [if_neg (by omega)]
    exact (ParseInt_above text hds hb).1
  · obtain ⟨_, h2⟩ := ht
    omega
  · obtain ⟨h1, h2⟩ := ht
    subst h1 h2
    have hb : 2 ^ 63 ≤ digitsVal ds := by omega
    have hl := length_of_big ds hds hb
    have hl2 := byteLen_cons_ge '+' ds
    unfold Atoi
    rw [if_neg (by omega)]
    exact (ParseInt_above ds hds hb).2

/-- `Atoi` on a decimal numeral of an integer below the `int` range. -/
theorem Atoi_intText_below (text : Str) (n : Int) (ht : IsIntText text n)
    (h : n < -(2 ^ 63)) : Atoi text = (-(2 ^ 63), some NumError.ErrRange) := by
  obtain ⟨ds, hds, ht | ht | ht⟩ := ht
  · obtain ⟨_, h2⟩ := ht
    omega
  · obtain ⟨h1, h2⟩ := ht
    subst h1 h2
    have hb : 2 ^ 63 < digitsVal ds := by omega
    have hl := length_of_big ds hds (by omega)
    have hl2 := byteLen_cons_ge '-' ds
    unfold Atoi
    rw [if_neg (by omega)]
    exact ParseInt_below ds hds hb
  · obtain ⟨_, h2⟩ := ht
    omega

/-! ## The side of a floating-point range error -/

theorem ParseFloat_range_side (s : Str) (h : (ParseFloat s).2 = some NumError.ErrRange) :
    (¬ HasMinus s ∧ (ParseFloat s).1 = Float64.inf false) ∨
    (HasMinus s ∧ (ParseFloat s).1 = Float64.inf true) := by
  unfold ParseFloat at h ⊢
  rcases hsp : special s with _ | ⟨v, rest⟩
  · rw [hsp] at h
    simp only at h ⊢
    rcases hrf : readFloat s with _ | r
    · rw [hrf] at h
      simp at h
    · rw [hrf] at h
      simp only at h ⊢
      by_cases hrest : r.rest = []
      · rw [if_pos hrest] at h ⊢
        rw [roundFloat64_range_inf r.neg r.num r.den h]
        cases s with
        | nil => simp [readFloat] at hrf
        | cons c0 cs =>
          have hn := readFloat_neg c0 cs r hrf
          by_cases hc : c0 = '-'
          · right
            rw [hn]
            exact ⟨by simp [HasMinus, hc], by simp [hc]⟩
          · left
            rw [hn]
            exact ⟨by simp [HasMinus, hc], by simp [hc]⟩
      · rw [if_neg hrest] at h
        simp at h
  · rw [hsp] at h
    simp only at h ⊢
    by_cases hrest : rest = []
    · rw [if_pos hrest] at h
      simp at h
    · rw [if_neg hrest] at h
      simp at h

theorem stored_range_bound (f : CPUField) (value : Str)
    (h : f.conversionError value = some NumError.ErrRange) :
    RangeBound value (f.stored value) := by
  cases f <;>
    first
    | (simp [CPUField.conversionError, CPUField.get] at h; done)
    | (rcases Atoi_range_side value h with ⟨h1, h2⟩ | ⟨h1, h2⟩
       · exact Or.inl ⟨h1, congrArg FieldValue.int h2⟩
       · exact Or.inr (Or.inl ⟨h1, congrArg FieldValue.int h2⟩))
    | (rcases ParseFloat_range_side value h with ⟨h1, h2⟩ | ⟨h1, h2⟩
       · exact Or.inr (Or.inr (Or.inl ⟨h1, congrArg FieldValue.float h2⟩))
       · exact Or.inr (Or.inr (Or.inr ⟨h1, congrArg FieldValue.float h2⟩)))

/-! ## The claims -/

/-- C1. When the input holds at least ten lines that match the process-row pattern and
the CPU values of the matching lines are pairwise distinct, `ReadAndParseTopOutput`
returns exactly ten records, in strictly descending CPU order, all of them records of
matching lines, and every record of a matching line that is left out has a smaller
CPU value than each of the ten; the same ten records are returned for the lines in
any other order. -/
theorem top_ten_highest (lines : List Str) (err : Option IOError)
    (hcount : 10 ≤ (processRows lines).length)
    (hdistinct : ((processRows lines).map (fun p => p.CPU)).Nodup) :
    (∃ result, ReadAndParseTopOutput (Except.ok ⟨lines, err⟩) = Except.ok result ∧
      result.length = 10 ∧
      result.Pairwise (fun a b => a.CPU.gt b.CPU = true) ∧
      (∀ r ∈ result, r ∈ processRows lines) ∧
      (∀ r ∈ processRows lines, r ∉ result → ∀ s ∈ result, s.CPU.gt r.CPU = true)) ∧
    (∀ lines2 : List Str, lines2.Perm lines →
      ReadAndParseTopOutput (Except.ok ⟨lines2, err⟩) =
        ReadAndParseTopOutput (Except.ok ⟨lines, err⟩)) := by
  have hstrict := sortSlice_processRows_strict lines hdistinct
  constructor
  · refine ⟨(sortSlice cpuGreater (processRows lines)).take 10, ?_, ?_, ?_, ?_, ?_⟩
    · simp [ReadAndParseTopOutput, foldl_topLine]
    · rw [List.length_take, length_sortSlice]
      omega
    · exact hstrict.sublist (List.take_sublist _ _)
    · intro r hr
      exact (mem_sortSlice _ _ r).mp (List.mem_of_mem_take hr)
    · intro r hr hnot s hs
      have hrS : r ∈ sortSlice cpuGreater (processRows lines) :=
        (mem_sortSlice _ _ r).mpr hr
      rw [← List.take_append_drop 10 (sortSlice cpuGreater (processRows lines))]
        at hrS hstrict
      have hrd : r ∈ (sortSlice cpuGreater (processRows lines)).drop 10 := by
        rcases List.mem_append.mp hrS with h | h
        · exact absurd h hnot
        · exact h
      exact (List.pairwise_append.mp hstrict).2.2 s hs r hrd
  · intro lines2 hp
    simp only [ReadAndParseTopOutput, foldl_topLine]
    rw [sortSlice_processRows_perm lines lines2 hp hdistinct]

/-- A witness of C1: fifteen rows with distinct CPU values. -/
theorem top_ten_highest_witness :
    (∃ result, ReadAndParseTopOutput (Except.ok ⟨sampleTop, none⟩) = Except.ok result ∧
      result.length = 10 ∧
      result.Pairwise (fun a b => a.CPU.gt b.CPU = true) ∧
      (∀ r ∈ result, r ∈ processRows sampleTop) ∧
      (∀ r ∈ processRows sampleTop, r ∉ result → ∀ s ∈ result, s.CPU.gt r.CPU = true)) ∧
    ReadAndParseTopOutput (Except.ok ⟨sampleTop.reverse, none⟩) =
      ReadAndParseTopOutput (Except.ok ⟨sampleTop, none⟩) :=
  have h := top_ten_highest sampleTop none (by decide) (by decide)
  ⟨h.1, h.2 sampleTop.reverse (List.reverse_perm sampleTop)⟩

set_option maxRecDepth 100000 in
/-- The ten records returned for the sample, by process id. -/
theorem sampleTop_result :
    (ReadAndParseTopOutput (Except.ok ⟨sampleTop, none⟩)).map
      (fun l => l.map (fun p => p.PID)) =
      Except.ok [107, 111, 102, 115, 113, 104, 114, 105, 109, 101] := by
  decide

/-- C2, as the code has it. A line of twelve columns separated by white space, in which
the process id, priority, nice value and the three memory sizes are strings of digits
denoting numbers below `2 ^ 63`, CPU and memory share are decimal numerals (digits,
with or without a point and more digits), user, state and time are tokens, and the
command is the rest of the line, matches the pattern and gives the record of these
twelve values: the numbers of the integer columns, the `float64` nearest to the two
decimals, and the four texts as they stand. -/
theorem top_row_record (r : ProcessRowText) (err : Option IOError) (h : r.WellFormed) :
    IsProcessRow r.line ∧
    processRecord (FindStringSubmatch processInfoRegex r.line) = r.record ∧
    ReadAndParseTopOutput (Except.ok ⟨[r.line], err⟩) = Except.ok [r.record] := by
  have hm := processRow_match r h
  have hrow : IsProcessRow r.line := by
    simp [IsProcessRow, FindStringSubmatch, hm]
  obtain ⟨_, hpid, hpr, hni, hvirt, hres, hshr, _, hcpu, hmem, _, _, _⟩ := h
  have hrec : processRecord (FindStringSubmatch processInfoRegex r.line) = r.record := by
    simp only [FindStringSubmatch, hm, processRecord, ProcessRowText.record]
    have g1 := Atoi_digits r.pid hpid.1 hpid.2
    have g3 := Atoi_digits r.pr hpr.1 hpr.2
    have g4 := Atoi_digits r.ni hni.1 hni.2
    have g5 := ParseInt_digits r.virt hvirt.1 hvirt.2
    have g6 := ParseInt_digits r.res hres.1 hres.2
    have g7 := ParseInt_digits r.shr hshr.1 hshr.2
    have g9 := ParseFloat_decimal r.cpuInt r.cpuFrac hcpu.1 hcpu.2
    have g10 := ParseFloat_decimal r.memInt r.memFrac hmem.1 hmem.2
    simp only [List.getD_cons_succ, List.getD_cons_zero, g1, g3, g4, g5, g6, g7, g9, g10]
  refine ⟨hrow, hrec, ?_⟩
  simp only [ReadAndParseTopOutput, List.foldl_cons, List.foldl_nil]
  rw [topLine_matched [] r.line hrow, hrec, List.nil_append, sortSlice_singleton]
  rfl

/-- A witness of the amended C2: the sample row; 12.5 and 0.3 as `float64` bits. -/
theorem top_row_record_witness :
    ReadAndParseTopOutput (Except.ok ⟨[" 1234 root      20   0  123456   7890   1234 S  12.5   0.3   1:23.45 /usr/bin/foo --bar baz".toList], none⟩) =
      Except.ok [⟨1234, "root".toList, 20, 0, 123456, 7890, 1234, "S".toList,
        ⟨4623226492472524800⟩, ⟨4599075939470750515⟩, "1:23.45".toList,
        "/usr/bin/foo --bar baz".toList⟩] :=
  (top_row_record sampleRow none
    (by
      unfold ProcessRowText.WellFormed IsDigits IsToken IsSep
      exact ⟨by decide, by decide, by decide, by decide, by decide, by decide, by decide,
        by decide, by decide, by decide, by decide, by decide, by decide⟩)).2.2.trans
    (by decide)

/-- C2 as stated fails. A row whose nice value is the integer -5 is not matched and
gives no record; a row whose process id is an integer beyond the `int` range gives a
record whose PID is the largest `int`, not that integer. -/
theorem top_row_integer_columns_counterexample :
    ¬ IsProcessRow "1 root 20 -5 100 50 10 S 1.5 0.3 0:00.01 init".toList ∧
    ReadAndParseTopOutput
        (Except.ok ⟨["1 root 20 -5 100 50 10 S 1.5 0.3 0:00.01 init".toList], none⟩) =
      Except.ok [] ∧
    (ReadAndParseTopOutput (Except.ok
        ⟨["99999999999999999999 root 20 0 100 50 10 S 1.5 0.3 0:00.01 init".toList],
          none⟩)).map (fun l => l.map (fun p => p.PID)) =
      Except.ok [9223372036854775807] := by
  refine ⟨by decide, by decide, by decide⟩

/-- C3. A line of six tokens with white space between them (single blanks in
particular; trailing white space allowed) makes `ReadAndParseDiskInfo` emit, at the
place of the line, exactly one record, whose six fields are the six tokens as they
stand. A token is any text that is not empty and has no character of the class `\s`;
no conversion is applied to it. -/
theorem disk_line_of_six_tokens (t1 t2 t3 t4 t5 t6 w1 w2 w3 w4 w5 w6 : Str)
    (pre post : List Str) (err : Option IOError)
    (h1 : IsToken t1) (h2 : IsToken t2) (h3 : IsToken t3) (h4 : IsToken t4)
    (h5 : IsToken t5) (h6 : IsToken t6)
    (s1 : IsSep w1) (s2 : IsSep w2) (s3 : IsSep w3) (s4 : IsSep w4) (s5 : IsSep w5)
    (s6 : ∀ c ∈ w6, reSpace c = true) :
    ReadAndParseDiskInfo (Except.ok ⟨pre ++
        (t1 ++ (w1 ++ (t2 ++ (w2 ++ (t3 ++ (w3 ++ (t4 ++ (w4 ++ (t5 ++ (w5 ++
          (t6 ++ w6))))))))))) :: post, err⟩) =
      Except.ok (diskRows pre ++ ⟨t1, t2, t3, t4, t5, t6⟩ :: diskRows post) := by
  have hm := disk_match t1 t2 t3 t4 t5 t6 w1 w2 w3 w4 w5 w6 h1 h2 h3 h4 h5 h6 s1 s2 s3 s4 s5 s6
  simp only [ReadAndParseDiskInfo, foldl_diskLine, List.nil_append]
  congr 1
  simp [diskRows, List.filter_append, List.filter_cons, IsDiskRow, FindStringSubmatch, hm,
    diskRecord]

/-- A witness of C3: the row of the specification. -/
theorem disk_line_of_six_tokens_witness :
    ReadAndParseDiskInfo (Except.ok ⟨["/dev/sda1 100G 40G 60G 40% /".toList], none⟩) =
      Except.ok [⟨"/dev/sda1".toList, "100G".toList, "40G".toList, "60G".toList,
        "40%".toList, "/".toList⟩] :=
  disk_line_of_six_tokens "/dev/sda1".toList "100G".toList "40G".toList "60G".toList
    "40%".toList "/".toList " ".toList " ".toList " ".toList " ".toList " ".toList [] [] []
    none ⟨by decide, by decide⟩ ⟨by decide, by decide⟩ ⟨by decide, by decide⟩
    ⟨by decide, by decide⟩ ⟨by decide, by decide⟩ ⟨by decide, by decide⟩
    ⟨by decide, by decide⟩ ⟨by decide, by decide⟩ ⟨by decide, by decide⟩
    ⟨by decide, by decide⟩ ⟨by decide, by decide⟩ (by decide)

/-- C4. A line whose first token is the key of a text field and that has at least one
further token sets that field to the remaining tokens joined by single spaces; the
tokens are not empty and hold no white space, so runs of white space collapse and
none leads or trails. `cpuLine` is one iteration of the scan loop of
`ReadAndParseCPUInfo`, `cpuInfo` the descriptor the earlier lines built: with the
line last in the input, the descriptor returned is `cpuLine cpuInfo line`. -/
theorem cpu_text_field_value (cpuInfo : CPUInfo) (line key v : Str) (vs : List Str)
    (hf : Fields line = key :: v :: vs) :
    (∀ pre : List Str, ReadAndParseCPUInfo (Except.ok ⟨pre ++ [line], none⟩) =
      Except.ok (cpuLine (pre.foldl cpuLine CPUInfo.zero) line)) ∧
    (∀ t ∈ v :: vs, t ≠ [] ∧ ∀ c ∈ t, isSpace c = false) ∧
    (key = "Architecture:".toList →
      (cpuLine cpuInfo line).Architecture = Join (v :: vs) " ".toList) ∧
    (key = "CPUOpModes".toList →
      (cpuLine cpuInfo line).CPUOpModes = Join (v :: vs) " ".toList) ∧
    (key = "Byte".toList →
      (cpuLine cpuInfo line).ByteOrder = Join (v :: vs) " ".toList) ∧
    (key = "VendorID ".toList →
      (cpuLine cpuInfo line).VendorID = Join (v :: vs) " ".toList) ∧
    (key = "ModelName".toList →
      (cpuLine cpuInfo line).ModelName = Join (v :: vs) " ".toList) ∧
    (key = "HypervisorVendor".toList →
      (cpuLine cpuInfo line).HypervisorVendor = Join (v :: vs) " ".toList) ∧
    (key = "VirtualizationType ".toList →
      (cpuLine cpuInfo line).VirtualizationType = Join (v :: vs) " ".toList) ∧
    (key = "L1DCache".toList →
      (cpuLine cpuInfo line).L1DCache = Join (v :: vs) " ".toList) ∧
    (key = "L1ICache".toList →
      (cpuLine cpuInfo line).L1ICache = Join (v :: vs) " ".toList) ∧
    (key = "L2Cache".toList →
      (cpuLine cpuInfo line).L2Cache = Join (v :: vs) " ".toList) ∧
    (key = "L3Cache".toList →
      (cpuLine cpuInfo line).L3Cache = Join (v :: vs) " ".toList) ∧
    (key = "NUMANode0CPUs".toList →
      (cpuLine cpuInfo line).NUMANode0CPUs = Join (v :: vs) " ".toList) ∧
    (key = "Flags:".toList →
      (cpuLine cpuInfo line).Flags = Join (v :: vs) " ".toList) := by
  have htok : ∀ t ∈ v :: vs, t ≠ [] ∧ ∀ c ∈ t, isSpace c = false := by
    intro t ht
    apply Fields_tokens line t
    rw [hf]
    exact List.mem_cons_of_mem _ ht
  have hend : ∀ pre : List Str, ReadAndParseCPUInfo (Except.ok ⟨pre ++ [line], none⟩) =
      Except.ok (cpuLine (pre.foldl cpuLine CPUInfo.zero) line) := by
    intro pre
    rw [ReadAndParseCPUInfo_ok]
    simp [List.foldl_append]
  rw [cpuLine_fields cpuInfo line key v vs hf]
  refine ⟨hend, htok, ?_, ?_, ?_, ?_, ?_, ?_, ?_, ?_, ?_, ?_, ?_, ?_, ?_⟩ <;>
    (intro hk; subst hk; rfl)

/-- A witness of C4: the line of the specification, with extra blanks. -/
theorem cpu_text_field_value_witness :
    Fields "Architecture:   x86_64  ".toList = ["Architecture:".toList, "x86_64".toList] ∧
    (cpuLine CPUInfo.zero "Architecture:   x86_64  ".toList).Architecture =
      "x86_64".toList ∧
    (cpuLine CPUInfo.zero "Flags: fpu \t vme   de".toList).Flags = "fpu vme de".toList :=
  ⟨by decide,
   (cpu_text_field_value CPUInfo.zero "Architecture:   x86_64  ".toList
      "Architecture:".toList "x86_64".toList [] (by decide)).2.2.1 rfl,
   (cpu_text_field_value CPUInfo.zero "Flags: fpu \t vme   de".toList
      "Flags:".toList "fpu".toList ["vme".toList, "de".toList]
      (by decide)).2.2.2.2.2.2.2.2.2.2.2.2.2.2 rfl⟩

/-- C5, as the code has it. On a line with the key of a numeric field: when the
conversion of the value text reports a syntax error (the text is no number), the field
is set to zero; when it reports a range error, the field is set to the bound of the
range on the side of the number. For an integer field the text then begins with the
numeral of a number above the largest `int`, and the field is the largest `int`, or
with the numeral of a number below the smallest `int`, and the field is the smallest
`int`; every numeral of an integer beyond the range gives the range error and the
bound on its side. For a floating-point field the field is the negative infinity when
the text has a minus sign and the positive infinity when it has none. In all cases the
parser reports no error and goes on with the remaining lines. -/
theorem cpu_numeric_field_conversion_error (cpuInfo : CPUInfo) (line key v : Str)
    (vs : List Str) (pre post : List Str) (hf : Fields line = key :: v :: vs) :
    (∀ get : CPUInfo → Int,
      (key = "CPU(s):".toList ∧ get = CPUInfo.CPUs) ∨
      (key = "Thread(s)".toList ∧ get = CPUInfo.ThreadsPerCore) ∨
      (key = "Core(s)".toList ∧ get = CPUInfo.CoresPerSocket) ∨
      (key = "Socket(s):".toList ∧ get = CPUInfo.Sockets) ∨
      (key = "CPUFamily".toList ∧ get = CPUInfo.CPUFamily) ∨
      (key = "Model:".toList ∧ get = CPUInfo.Model) →
      ((Atoi (Join (v :: vs) " ".toList)).2 = some NumError.ErrSyntax →
        get (cpuLine cpuInfo line) = 0) ∧
      ((Atoi (Join (v :: vs) " ".toList)).2 = some NumError.ErrRange →
        (AboveIntRange (Join (v :: vs) " ".toList) ∧
          get (cpuLine cpuInfo line) = 2 ^ 63 - 1) ∨
        (BelowIntRange (Join (v :: vs) " ".toList) ∧
          get (cpuLine cpuInfo line) = -(2 ^ 63))) ∧
      (∀ n : Int, IsIntText (Join (v :: vs) " ".toList) n → 2 ^ 63 ≤ n →
        (Atoi (Join (v :: vs) " ".toList)).2 = some NumError.ErrRange ∧
        get (cpuLine cpuInfo line) = 2 ^ 63 - 1) ∧
      (∀ n : Int, IsIntText (Join (v :: vs) " ".toList) n → n < -(2 ^ 63) →
        (Atoi (Join (v :: vs) " ".toList)).2 = some NumError.ErrRange ∧
        get (cpuLine cpuInfo line) = -(2 ^ 63))) ∧
    (∀ get : CPUInfo → Float64,
      (key = "CPUMHz".toList ∧ get = CPUInfo.CPUMHz) ∨
      (key = "BogoMIPS:".toList ∧ get = CPUInfo.BogoMIPS) →
      ((ParseFloat (Join (v :: vs) " ".toList)).2 = some NumError.ErrSyntax →
        get (cpuLine cpuInfo line) = Float64.zero) ∧
      ((ParseFloat (Join (v :: vs) " ".toList)).2 = some NumError.ErrRange →
        (¬ HasMinus (Join (v :: vs) " ".toList) ∧
          get (cpuLine cpuInfo line) = Float64.inf false) ∨
        (HasMinus (Join (v :: vs) " ".toList) ∧
          get (cpuLine cpuInfo line) = Float64.inf true))) ∧
    ReadAndParseCPUInfo (Except.ok ⟨pre ++ line :: post, none⟩) =
      Except.ok (post.foldl cpuLine (cpuLine (pre.foldl cpuLine CPUInfo.zero) line)) := by
  rw [cpuLine_fields cpuInfo line key v vs hf]
  refine ⟨?_, ?_, ?_⟩
  · intro get hget
    have hval : get (cpuAssign cpuInfo key (Join (v :: vs) " ".toList)) =
        (Atoi (Join (v :: vs) " ".toList)).1 := by
      rcases hget with h | h | h | h | h | h <;> (obtain ⟨hk, hg⟩ := h; subst hk hg; rfl)
    rw [hval]
    exact ⟨Atoi_syntax_zero _, Atoi_range_side _,
      fun n hn h => by rw [Atoi_intText_above _ n hn h]; exact ⟨rfl, rfl⟩,
      fun n hn h => by rw [Atoi_intText_below _ n hn h]; exact ⟨rfl, rfl⟩⟩
  · intro get hget
    have hval : get (cpuAssign cpuInfo key (Join (v :: vs) " ".toList)) =
        (ParseFloat (Join (v :: vs) " ".toList)).1 := by
      rcases hget with h | h <;> (obtain ⟨hk, hg⟩ := h; subst hk hg; rfl)
    rw [hval]
    exact ⟨ParseFloat_syntax_zero _, ParseFloat_range_side _⟩
  · rw [ReadAndParseCPUInfo_ok]
    simp [List.foldl_append]

/-- A witness of the amended C5: text that is no number gives zero, and the line after
it is still parsed; a numeral below the `int` range gives the smallest `int` and one
above it the largest. -/
theorem cpu_numeric_field_conversion_error_witness :
    (Atoi "eight".toList).2 = some NumError.ErrSyntax ∧
    (cpuLine { CPUInfo.zero with CPUs := 4 } "CPU(s): eight".toList).CPUs = 0 ∧
    ReadAndParseCPUInfo
        (Except.ok ⟨["CPU(s): eight".toList, "Model: 7".toList], none⟩) =
      Except.ok { CPUInfo.zero with Model := 7 } ∧
    (cpuLine CPUInfo.zero "CPU(s): -99999999999999999999".toList).CPUs = -(2 ^ 63) ∧
    (cpuLine CPUInfo.zero "CPU(s): +9223372036854775808".toList).CPUs = 2 ^ 63 - 1 :=
  ⟨by decide,
   ((cpu_numeric_field_conversion_error { CPUInfo.zero with CPUs := 4 }
      "CPU(s): eight".toList "CPU(s):".toList "eight".toList [] [] [] (by decide)).1
      CPUInfo.CPUs (Or.inl ⟨rfl, rfl⟩)).1 (by decide),
   ((cpu_numeric_field_conversion_error CPUInfo.zero
      "CPU(s): eight".toList "CPU(s):".toList "eight".toList [] [] ["Model: 7".toList]
      (by decide)).2.2).trans (by decide),
   (((cpu_numeric_field_conversion_error CPUInfo.zero
      "CPU(s): -99999999999999999999".toList "CPU(s):".toList
      "-99999999999999999999".toList [] [] [] (by decide)).1
      CPUInfo.CPUs (Or.inl ⟨rfl, rfl⟩)).2.2.2
      (-(digitsVal "99999999999999999999".toList : Int))
      ⟨"99999999999999999999".toList, ⟨by decide, by decide⟩,
        Or.inr (Or.inl ⟨by decide, rfl⟩)⟩ (by decide)).2,
   (((cpu_numeric_field_conversion_error CPUInfo.zero
      "CPU(s): +9223372036854775808".toList "CPU(s):".toList
      "+9223372036854775808".toList [] [] [] (by decide)).1
      CPUInfo.CPUs (Or.inl ⟨rfl, rfl⟩)).2.2.1
      (digitsVal "9223372036854775808".toList : Int)
      ⟨"9223372036854775808".toList, ⟨by decide, by decide⟩,
        Or.inr (Or.inr ⟨by decide, rfl⟩)⟩ (by decide)).2⟩

/-- C5 as stated fails: a digit string beyond the `int` range is not a valid number for
the CPU count (`Atoi` reports a range error), yet the field is set to the largest
`int`, not to zero. -/
theorem cpu_numeric_field_out_of_range_not_zero :
    (Atoi "99999999999999999999".toList).2 = some NumError.ErrRange ∧
    ReadAndParseCPUInfo (Except.ok ⟨["CPU(s): 99999999999999999999".toList], none⟩) =
      Except.ok { CPUInfo.zero with CPUs := 9223372036854775807 } ∧
    ({ CPUInfo.zero with CPUs := 9223372036854775807 } : CPUInfo).CPUs ≠ 0 := by
  refine ⟨by decide, by decide, by decide⟩

/-- C6. A line made of the key of an integer field and a decimal numeral of an integer
`n` of the `int` range stores `n` in that field. `cpuLine` is one iteration of the scan
loop of `ReadAndParseCPUInfo`, `cpuInfo` the descriptor the earlier lines built: with
the line last in the input, the descriptor returned is `cpuLine cpuInfo line`. -/
theorem cpu_integer_field_value (cpuInfo : CPUInfo) (line key text : Str) (n : Int)
    (hf : Fields line = [key, text]) (ht : IsIntText text n)
    (hlo : -(2 ^ 63) ≤ n) (hhi : n < 2 ^ 63) :
    (∀ pre : List Str, ReadAndParseCPUInfo (Except.ok ⟨pre ++ [line], none⟩) =
      Except.ok (cpuLine (pre.foldl cpuLine CPUInfo.zero) line)) ∧
    (key = "CPU(s):".toList → (cpuLine cpuInfo line).CPUs = n) ∧
    (key = "Thread(s)".toList → (cpuLine cpuInfo line).ThreadsPerCore = n) ∧
    (key = "Core(s)".toList → (cpuLine cpuInfo line).CoresPerSocket = n) ∧
    (key = "Socket(s):".toList → (cpuLine cpuInfo line).Sockets = n) ∧
    (key = "CPUFamily".toList → (cpuLine cpuInfo line).CPUFamily = n) ∧
    (key = "Model:".toList → (cpuLine cpuInfo line).Model = n) := by
  have ha : (Atoi text).1 = n := by rw [Atoi_intText text n ht hlo hhi]
  have hj : Join [text] " ".toList = text := by simp [Join, List.intercalate]
  have hend : ∀ pre : List Str, ReadAndParseCPUInfo (Except.ok ⟨pre ++ [line], none⟩) =
      Except.ok (cpuLine (pre.foldl cpuLine CPUInfo.zero) line) := by
    intro pre
    rw [ReadAndParseCPUInfo_ok]
    simp [List.foldl_append]
  rw [cpuLine_fields cpuInfo line key text [] hf, hj]
  refine ⟨hend, ?_, ?_, ?_, ?_, ?_, ?_⟩ <;> (intro hk; subst hk; exact ha)

/-- A witness of C6: the line `CPU(s): 8` of the claim, and a negative numeral. -/
theorem cpu_integer_field_value_witness :
    (cpuLine CPUInfo.zero "CPU(s): 8".toList).CPUs = 8 ∧
    (cpuLine CPUInfo.zero "Model:  -142".toList).Model = -142 :=
  ⟨(cpu_integer_field_value CPUInfo.zero "CPU(s): 8".toList "CPU(s):".toList "8".toList 8
      (by decide) ⟨"8".toList, ⟨by decide, by decide⟩, Or.inl ⟨rfl, by decide⟩⟩
      (by decide) (by decide)).2.1 rfl,
   (cpu_integer_field_value CPUInfo.zero "Model:  -142".toList "Model:".toList
      "-142".toList (-142) (by decide)
      ⟨"142".toList, ⟨by decide, by decide⟩, Or.inr (Or.inl ⟨rfl, by decide⟩)⟩
      (by decide) (by decide)).2.2.2.2.2.2 rfl⟩

/-- C7. When a parser fails, the response is the failure naming the source of the first
parser that failed, in the order CPU, process table, disk, with status 500 and
whatever `marshalIndent` is: no `SystemInfo` is serialized. In particular, when the
CPU and process files open and the disk file does not, the message names the disk
source. -/
theorem handler_reports_first_failure (fs : FileSystem)
    (marshalIndent : SystemInfo → Except IOError Str) :
    (∀ e, ReadAndParseCPUInfo (fs "lscpu_out.txt".toList) = Except.error e →
      HandleSystemInfo fs marshalIndent =
        httpError ("Error reading CPU info: ".toList ++ e.msg) 500) ∧
    (∀ cpu e, ReadAndParseCPUInfo (fs "lscpu_out.txt".toList) = Except.ok cpu →
      ReadAndParseTopOutput (fs "top.txt".toList) = Except.error e →
      HandleSystemInfo fs marshalIndent =
        httpError ("Error reading top output: ".toList ++ e.msg) 500) ∧
    (∀ cpu procs e, ReadAndParseCPUInfo (fs "lscpu_out.txt".toList) = Except.ok cpu →
      ReadAndParseTopOutput (fs "top.txt".toList) = Except.ok procs →
      ReadAndParseDiskInfo (fs "df_output.txt".toList) = Except.error e →
      HandleSystemInfo fs marshalIndent =
        httpError ("Error reading disk info: ".toList ++ e.msg) 500) ∧
    (∀ cpuLines topSource e, fs "lscpu_out.txt".toList = Except.ok ⟨cpuLines, none⟩ →
      fs "top.txt".toList = Except.ok topSource →
      fs "df_output.txt".toList = Except.error e →
      HandleSystemInfo fs marshalIndent =
        httpError ("Error reading disk info: ".toList ++ e.msg) 500) := by
  refine ⟨?_, ?_, ?_, ?_⟩
  · intro e h1
    simp only [HandleSystemInfo, h1]
  · intro cpu e h1 h2
    simp only [HandleSystemInfo, h1, h2]
  · intro cpu procs e h1 h2 h3
    simp only [HandleSystemInfo, h1, h2, h3]
  · intro cpuLines topSource e h1 h2 h3
    simp only [HandleSystemInfo, h1, h2, h3, ReadAndParseCPUInfo, ReadAndParseTopOutput,
      ReadAndParseDiskInfo]

/-- A witness of C7: the CPU and process files are there, the disk file is not. -/
theorem handler_reports_first_failure_witness :
    HandleSystemInfo
        (fun path =>
          if path = "df_output.txt".toList then
            Except.error ⟨"open df_output.txt: no such file or directory".toList⟩
          else Except.ok ⟨[], none⟩)
        (fun _ => Except.ok "null".toList) =
      ⟨500, "text/plain; charset=utf-8".toList,
        "Error reading disk info: open df_output.txt: no such file or directory\n".toList⟩ :=
  ((handler_reports_first_failure
      (fun path =>
        if path = "df_output.txt".toList then
          Except.error ⟨"open df_output.txt: no such file or directory".toList⟩
        else Except.ok ⟨[], none⟩)
      (fun _ => Except.ok "null".toList)).2.2.2 [] ⟨[], none⟩
      ⟨"open df_output.txt: no such file or directory".toList⟩
      (by decide) (by decide) (by decide)).trans (by decide)

/-- C8. A line that does not match the process-row pattern (every blank line, empty or
all white space, and every line whose first token is not all digits, a header line
among them, are such lines) produces no record and no error: `ReadAndParseTopOutput`
returns what it returns for the input without that line. -/
theorem top_unmatched_line_skipped (pre post : List Str) (line : Str)
    (err : Option IOError)
    (h : ¬ IsProcessRow line ∨ (∀ c ∈ line, reSpace c = true) ∨ FirstTokenNotDigits line) :
    ¬ IsProcessRow line ∧
    ReadAndParseTopOutput (Except.ok ⟨pre ++ line :: post, err⟩) =
      ReadAndParseTopOutput (Except.ok ⟨pre ++ post, err⟩) ∧
    ∃ records, ReadAndParseTopOutput (Except.ok ⟨pre ++ line :: post, err⟩) =
      Except.ok records := by
  have hno : ¬ IsProcessRow line := by
    rcases h with h | h | h
    · exact h
    · exact not_processRow_of_no_match line (not_processRow_of_blank line h)
    · exact not_processRow_of_no_match line (not_processRow_of_first_token line h)
  refine ⟨hno, ?_, ?_⟩
  · simp [ReadAndParseTopOutput, List.foldl_append, topLine_unmatched _ line hno]
  · exact ⟨_, rfl⟩

/-- A witness of C8: the header line of `top`, between two process rows, and a blank
line. -/
theorem top_unmatched_line_skipped_witness :
    ¬ IsProcessRow "  \t ".toList ∧
    ¬ IsProcessRow
      "  PID USER      PR  NI    VIRT    RES    SHR S  %CPU  %MEM     TIME+ COMMAND".toList ∧
    ReadAndParseTopOutput (Except.ok ⟨["1 root 20 0 9 8 7 S 1.5 0.1 0:01 init".toList] ++
        "  PID USER      PR  NI    VIRT    RES    SHR S  %CPU  %MEM     TIME+ COMMAND".toList
          :: ["2 root 20 0 9 8 7 S 2.5 0.1 0:02 sh".toList], none⟩) =
      ReadAndParseTopOutput (Except.ok ⟨["1 root 20 0 9 8 7 S 1.5 0.1 0:01 init".toList] ++
        ["2 root 20 0 9 8 7 S 2.5 0.1 0:02 sh".toList], none⟩) :=
  have h := top_unmatched_line_skipped ["1 root 20 0 9 8 7 S 1.5 0.1 0:01 init".toList]
    ["2 root 20 0 9 8 7 S 2.5 0.1 0:02 sh".toList]
    "  PID USER      PR  NI    VIRT    RES    SHR S  %CPU  %MEM     TIME+ COMMAND".toList none
    (Or.inr (Or.inr ⟨"  ".toList, "PID".toList,
      " USER      PR  NI    VIRT    RES    SHR S  %CPU  %MEM     TIME+ COMMAND".toList,
      by decide, by decide, ⟨by decide, by decide⟩, by decide, by decide⟩))
  ⟨(top_unmatched_line_skipped [] [] "  \t ".toList none (Or.inr (Or.inl (by decide)))).1,
    h.1, h.2.1⟩

/-- C9. `ReadAndParseDiskInfo` returns the records of the matching lines, one for each,
in the order of the lines; nothing is sorted and nothing is cut, so the number of
records is the number of matching lines, whatever it is. -/
theorem disk_records_in_input_order (lines : List Str) (err : Option IOError) :
    ReadAndParseDiskInfo (Except.ok ⟨lines, err⟩) =
      Except.ok ((lines.filter (fun line => decide (IsDiskRow line))).map
        (fun line => diskRecord (FindStringSubmatch diskInfoRegex line))) ∧
    (∀ records, ReadAndParseDiskInfo (Except.ok ⟨lines, err⟩) = Except.ok records →
      records.length = (lines.filter (fun line => decide (IsDiskRow line))).length) := by
  have h : ReadAndParseDiskInfo (Except.ok ⟨lines, err⟩) = Except.ok (diskRows lines) := by
    simp [ReadAndParseDiskInfo, foldl_diskLine]
  refine ⟨h, ?_⟩
  intro records hr
  rw [h] at hr
  injection hr with hr
  subst hr
  simp [diskRows]

/-- Twelve matching rows give twelve records, in input order: no cap at ten. -/
theorem disk_twelve_rows :
    ReadAndParseDiskInfo (Except.ok ⟨(List.range 12).map
        (fun i => "/dev/sd".toList ++ [Char.ofNat (97 + i)] ++ " 1G 1G 0G 100% /m".toList
          ++ [Char.ofNat (97 + i)]), none⟩) =
      Except.ok ((List.range 12).map (fun i =>
        ⟨"/dev/sd".toList ++ [Char.ofNat (97 + i)], "1G".toList, "1G".toList, "0G".toList,
          "100%".toList, "/m".toList ++ [Char.ofNat (97 + i)]⟩)) := by
  decide

/-- The lines the scanner delivers for a small file, and the record read from it. -/
theorem scanLines_sample :
    scanLines "Filesystem Size Used Avail Use% Mounted on\r\n/dev/sda1 100G 40G 60G 40% /\n".toList =
      ⟨["Filesystem Size Used Avail Use% Mounted on".toList,
        "/dev/sda1 100G 40G 60G 40% /".toList], none⟩ ∧
    ReadAndParseDiskInfo (Except.ok (scanLines
        "Filesystem Size Used Avail Use% Mounted on\r\n/dev/sda1 100G 40G 60G 40% /\n".toList)) =
      Except.ok [⟨"/dev/sda1".toList, "100G".toList, "40G".toList, "60G".toList,
        "40%".toList, "/".toList⟩] := by
  refine ⟨by decide, by decide⟩

/-- C10. Inserting, anywhere among the lines of the input, a line with fewer than two
tokens or with a first token that is none of the recognized keys changes nothing in
what `ReadAndParseCPUInfo` returns: the same descriptor, or the same error of the
scanner. -/
theorem cpu_unrecognized_line_ignored (pre post : List Str) (line : Str)
    (err : Option IOError)
    (h : (Fields line).length < 2 ∨ (Fields line).headD [] ∉ cpuKeys) :
    ReadAndParseCPUInfo (Except.ok ⟨pre ++ line :: post, err⟩) =
      ReadAndParseCPUInfo (Except.ok ⟨pre ++ post, err⟩) := by
  have hline : ∀ cpuInfo : CPUInfo, cpuLine cpuInfo line = cpuInfo := by
    intro cpuInfo
    rcases h with h | h
    · exact cpuLine_short cpuInfo line h
    · by_cases hlen : (Fields line).length < 2
      · exact cpuLine_short cpuInfo line hlen
      · simp only [cpuLine, hlen, if_false]
        exact cpuAssign_unrecognized cpuInfo _ _ h
  simp [ReadAndParseCPUInfo, List.foldl_append, hline]

/-- A witness of C10: a line with one token and a line with an unknown key. -/
theorem cpu_unrecognized_line_ignored_witness :
    ReadAndParseCPUInfo
        (Except.ok ⟨["CPU(s): 8".toList] ++ "Architecture:".toList :: ["Model: 7".toList],
          none⟩) =
      ReadAndParseCPUInfo (Except.ok ⟨["CPU(s): 8".toList] ++ ["Model: 7".toList], none⟩) ∧
    ReadAndParseCPUInfo
        (Except.ok ⟨["CPU(s): 8".toList] ++ "Stepping: 10".toList :: ["Model: 7".toList],
          none⟩) =
      ReadAndParseCPUInfo (Except.ok ⟨["CPU(s): 8".toList] ++ ["Model: 7".toList], none⟩) :=
  ⟨cpu_unrecognized_line_ignored _ _ _ none (Or.inl (by decide)),
   cpu_unrecognized_line_ignored _ _ _ none (Or.inr (by decide))⟩

/-- C11. among the records of any one CPU value, `ReadAndParseTopOutput` returns the
first ones of the input, in input order: records of equal CPU keep the order of their
rows, and where the cut to ten falls between them the earlier rows are the ones kept.
(`sort.Slice` is the insertion sort that it is on the slices of at most eleven
records sorted here.) -/
theorem top_equal_cpu_in_input_order (lines : List Str) (err : Option IOError) :
    ∃ result, ReadAndParseTopOutput (Except.ok ⟨lines, err⟩) = Except.ok result ∧
      ∀ v : Float64, withCPU v result <+: withCPU v (processRows lines) :=
  ⟨workingList lines, rfl, fun v => workingList_withCPU v lines⟩

set_option maxRecDepth 100000 in
/-- Of twelve rows with the same CPU value, the first ten are returned, in input
order. -/
theorem sampleTies_result :
    (ReadAndParseTopOutput (Except.ok ⟨sampleTies, none⟩)).map (fun l => l.map (fun p => p.PID)) =
      Except.ok [1, 2, 3, 4, 5, 6, 7, 8, 9, 10] := by
  decide

/-- C12. after the step of `ReadAndParseTopOutput` on each line of the input the
working list is in descending (non-increasing) order of CPU, and so is the list
returned. -/
theorem top_working_list_sorted (lines : List Str) (err : Option IOError) :
    (∀ seen line rest, lines = seen ++ line :: rest →
      NonIncreasing (topLine (workingList seen) line)) ∧
    ∃ result, ReadAndParseTopOutput (Except.ok ⟨lines, err⟩) = Except.ok result ∧
      NonIncreasing result :=
  ⟨fun seen line _ _ => by
      rw [← workingList_snoc]; exact workingList_nonIncreasing _,
    workingList lines, rfl, workingList_nonIncreasing lines⟩

/-- C13. after the step of `ReadAndParseTopOutput` on each line of the input the
working list has at most ten records, and the list returned has between zero and ten
records: as many as there are matching lines, up to ten. -/
theorem top_working_list_at_most_ten (lines : List Str) (err : Option IOError) :
    (∀ seen line rest, lines = seen ++ line :: rest →
      (topLine (workingList seen) line).length ≤ 10) ∧
    ∃ result, ReadAndParseTopOutput (Except.ok ⟨lines, err⟩) = Except.ok result ∧
      0 ≤ result.length ∧ result.length ≤ 10 ∧
      result.length = min 10 (processRows lines).length :=
  ⟨fun seen line _ _ => by
      rw [← workingList_snoc, workingList_length]; exact Nat.min_le_left _ _,
    workingList lines, rfl, Nat.zero_le _,
    by rw [workingList_length]; exact Nat.min_le_left _ _, workingList_length lines⟩

/-- C14. for every field of the CPU descriptor, if no line of the input has the case
label of the field as its first token, `ReadAndParseCPUInfo` returns a descriptor with
the zero value of the field (the empty string, `0` or `0.0`) and no error. -/
theorem cpu_absent_key_zero (f : CPUField) (lines : List Str)
    (h : ∀ l ∈ lines, firstToken l ≠ some f.key) :
    ∃ cpuInfo, ReadAndParseCPUInfo (Except.ok ⟨lines, none⟩) = Except.ok cpuInfo ∧
      f.get cpuInfo = f.zeroValue ∧
      (f.zeroValue = FieldValue.text [] ∨ f.zeroValue = FieldValue.int 0 ∨
        f.zeroValue = FieldValue.float Float64.zero) :=
  ⟨lines.foldl cpuLine CPUInfo.zero, rfl,
    (foldl_cpuLine_other f lines
      (fun l hl => not_hasKey_of_firstToken f.key l (h l hl)) CPUInfo.zero).trans (get_zero f),
    by cases f <;> simp [CPUField.zeroValue, CPUField.get]⟩

/-- An input with lines for the architecture and the CPU count only: the model name is
the empty string. -/
theorem cpu_absent_key_zero_witness :
    (∀ l ∈ ["Architecture: x86_64".toList, "CPU(s): 4".toList],
      firstToken l ≠ some CPUField.ModelName.key) ∧
    ∃ cpuInfo, ReadAndParseCPUInfo
        (Except.ok ⟨["Architecture: x86_64".toList, "CPU(s): 4".toList], none⟩) =
          Except.ok cpuInfo ∧
      CPUField.ModelName.get cpuInfo = CPUField.ModelName.zeroValue ∧
      (CPUField.ModelName.zeroValue = FieldValue.text [] ∨
        CPUField.ModelName.zeroValue = FieldValue.int 0 ∨
        CPUField.ModelName.zeroValue = FieldValue.float Float64.zero) :=
  ⟨by decide, cpu_absent_key_zero CPUField.ModelName _ (by decide)⟩

/-- C15. on an empty input (no line, read without error) the three parsers succeed:
`ReadAndParseCPUInfo` returns the descriptor with every field zero,
`ReadAndParseTopOutput` an empty process list and `ReadAndParseDiskInfo` an empty disk
list. -/
theorem empty_input_parsers_succeed :
    scanLines [] = ⟨[], none⟩ ∧
    ReadAndParseCPUInfo (Except.ok (scanLines [])) =
      Except.ok ⟨[], [], [], 0, 0, 0, 0, 0, [], 0, 0, [], ⟨0⟩, ⟨0⟩, [], [], [], [], [], [], [], []⟩ ∧
    ReadAndParseTopOutput (Except.ok (scanLines [])) = Except.ok [] ∧
    ReadAndParseDiskInfo (Except.ok (scanLines [])) = Except.ok [] :=
  ⟨rfl, rfl, rfl, rfl⟩

/-- C16 fails in the code. A failure to open the input is returned by
`ReadAndParseTopOutput` and by `ReadAndParseDiskInfo`, but an error on which the
scanner stops is not. With a line of 65536 bytes in the input the scanner stops with
`bufio.ErrTooLong`; both functions return the records of the lines before it and no
error, where `ReadAndParseCPUInfo` returns the error. -/
theorem top_and_disk_drop_scanner_error :
    (∀ e, ReadAndParseTopOutput (Except.error e) = Except.error e ∧
      ReadAndParseDiskInfo (Except.error e) = Except.error e) ∧
    (∀ lines e, ReadAndParseTopOutput (Except.ok ⟨lines, some e⟩) ≠ Except.error e ∧
      ReadAndParseDiskInfo (Except.ok ⟨lines, some e⟩) ≠ Except.error e ∧
      ReadAndParseCPUInfo (Except.ok ⟨lines, some e⟩) = Except.error e) ∧
    scanLines overlongTop =
      ⟨["1 root 20 0 9 8 7 S 1.5 0.1 0:01 init".toList], some errTooLong⟩ ∧
    (ReadAndParseTopOutput (Except.ok (scanLines overlongTop))).map
      (fun l => l.map (fun p => p.PID)) = Except.ok [1] ∧
    scanLines overlongDisk = ⟨["/dev/sda1 50G 20G 30G 40% /".toList], some errTooLong⟩ ∧
    ReadAndParseDiskInfo (Except.ok (scanLines overlongDisk)) =
      Except.ok [⟨"/dev/sda1".toList, "50G".toList, "20G".toList, "30G".toList, "40%".toList,
        "/".toList⟩] ∧
    ReadAndParseCPUInfo (Except.ok (scanLines overlongTop)) = Except.error errTooLong := by
  have h1 : scanLines overlongTop =
      ⟨["1 root 20 0 9 8 7 S 1.5 0.1 0:01 init".toList], some errTooLong⟩ :=
    (scanLines_overlong _ _ (by decide) (by decide) 65536 (by decide)).trans
      (by rw [show dropCR "1 root 20 0 9 8 7 S 1.5 0.1 0:01 init".toList =
        "1 root 20 0 9 8 7 S 1.5 0.1 0:01 init".toList from by decide])
  have h2 : scanLines overlongDisk =
      ⟨["/dev/sda1 50G 20G 30G 40% /".toList], some errTooLong⟩ :=
    (scanLines_overlong _ _ (by decide) (by decide) 65536 (by decide)).trans
      (by rw [show dropCR "/dev/sda1 50G 20G 30G 40% /".toList =
        "/dev/sda1 50G 20G 30G 40% /".toList from by decide])
  refine ⟨fun e => ⟨rfl, rfl⟩, fun lines e => ⟨?_, ?_, rfl⟩, h1, ?_, h2, ?_, ?_⟩
  · simp [ReadAndParseTopOutput]
  · simp [ReadAndParseDiskInfo]
  · rw [h1]; decide
  · rw [h2]; decide
  · rw [h1]; rfl

/-- C17. the list that `ReadAndParseTopOutput` builds line by line, sorting and cutting
after each matching line, is the list of the collect-all reference: all records in
input order, sorted once by CPU descending with equal records in input order, cut to
the first ten. -/
theorem top_incremental_is_collect_all (lines : List Str) (err : Option IOError) :
    ReadAndParseTopOutput (Except.ok ⟨lines, err⟩) = Except.ok (collectAllTop lines) :=
  congrArg Except.ok (workingList_collectAll lines)

/-- C18. a line makes `ReadAndParseDiskInfo` add a record exactly when it is six tokens
separated by white space, with no white space in front and any white space behind
(white space being the class `\s` of the pattern); any other line is skipped: it adds
no record, and the result is that of the input without the line, with no error. -/
theorem disk_record_iff_six_tokens (line : Str) :
    ((∃ record, ∀ list, diskLine list line = list ++ [record]) ↔ SixTokens line) ∧
    (¬ SixTokens line → ∀ list, diskLine list line = list) ∧
    (¬ SixTokens line → ∀ pre post err,
      ReadAndParseDiskInfo (Except.ok ⟨pre ++ line :: post, err⟩) =
        Except.ok (diskRows (pre ++ post)) ∧
      ReadAndParseDiskInfo (Except.ok ⟨pre ++ post, err⟩) =
        Except.ok (diskRows (pre ++ post))) := by
  refine ⟨⟨?_, ?_⟩, ?_, ?_⟩
  · rintro ⟨record, hr⟩
    by_contra hn
    have hd : ¬ IsDiskRow line := fun hd => hn ((isDiskRow_iff_sixTokens line).1 hd)
    have := hr []
    rw [diskLine_unmatched [] line hd] at this
    exact append_singleton_ne [] record this
  · intro hs
    have hd := (isDiskRow_iff_sixTokens line).2 hs
    exact ⟨_, fun list => diskLine_matched list line hd⟩
  · intro hn list
    exact diskLine_unmatched list line (fun hd => hn ((isDiskRow_iff_sixTokens line).1 hd))
  · intro hn pre post err
    have hd : ¬ IsDiskRow line := fun hd => hn ((isDiskRow_iff_sixTokens line).1 hd)
    simp only [ReadAndParseDiskInfo, foldl_diskLine, List.nil_append,
      diskRows_skip pre post line hd, and_self]

/-- The header of `df -h`, a row of four columns, a row whose mount point holds a
space and a row behind a blank are skipped; a row of six tokens with blanks behind adds
its record. -/
theorem disk_record_iff_six_tokens_witness :
    (¬ SixTokens dfHeader ∧ diskLine [] dfHeader = []) ∧
    (¬ SixTokens dfShortRow ∧ diskLine [] dfShortRow = []) ∧
    (¬ SixTokens dfSpacedMount ∧ diskLine [] dfSpacedMount = []) ∧
    (¬ SixTokens dfIndentedRow ∧ diskLine [] dfIndentedRow = []) ∧
    (SixTokens dfRow ∧ ∃ record, ∀ list, diskLine list dfRow = list ++ [record]) := by
  have n1 : ¬ SixTokens dfHeader := fun h =>
    absurd ((isDiskRow_iff_sixTokens _).2 h) (by decide)
  have n2 : ¬ SixTokens dfShortRow := fun h =>
    absurd ((isDiskRow_iff_sixTokens _).2 h) (by decide)
  have n3 : ¬ SixTokens dfSpacedMount := fun h =>
    absurd ((isDiskRow_iff_sixTokens _).2 h) (by decide)
  have n4 : ¬ SixTokens dfIndentedRow := fun h =>
    absurd ((isDiskRow_iff_sixTokens _).2 h) (by decide)
  have p5 : SixTokens dfRow := (isDiskRow_iff_sixTokens _).1 (by decide)
  exact ⟨⟨n1, (disk_record_iff_six_tokens dfHeader).2.1 n1 []⟩,
    ⟨n2, (disk_record_iff_six_tokens dfShortRow).2.1 n2 []⟩,
    ⟨n3, (disk_record_iff_six_tokens dfSpacedMount).2.1 n3 []⟩,
    ⟨n4, (disk_record_iff_six_tokens dfIndentedRow).2.1 n4 []⟩,
    ⟨p5, (disk_record_iff_six_tokens dfRow).1.2 p5⟩⟩

/-- C19. `ReadAndParseCPUInfo` never returns a descriptor with a `VendorID`, a
`VirtualizationType` or a `NUMANodes` other than zero: the case labels of these fields
have a space as last character, and no line has such a label as its first token. -/
theorem cpu_space_keys_never_selected (lines : List Str) (err : Option IOError)
    (cpuInfo : CPUInfo)
    (h : ReadAndParseCPUInfo (Except.ok ⟨lines, err⟩) = Except.ok cpuInfo) :
    cpuInfo.VendorID = [] ∧ cpuInfo.VirtualizationType = [] ∧ cpuInfo.NUMANodes = 0 ∧
    ∀ line, firstToken line ≠ some "VendorID ".toList ∧
      firstToken line ≠ some "VirtualizationType ".toList ∧
      firstToken line ≠ some "NUMANode0CPUs ".toList := by
  have k1 : ∀ line, firstToken line ≠ some "VendorID ".toList :=
    fun line => firstToken_no_space line _ ' ' (by decide) (by decide)
  have k2 : ∀ line, firstToken line ≠ some "VirtualizationType ".toList :=
    fun line => firstToken_no_space line _ ' ' (by decide) (by decide)
  have k3 : ∀ line, firstToken line ≠ some "NUMANode0CPUs ".toList :=
    fun line => firstToken_no_space line _ ' ' (by decide) (by decide)
  have e : cpuInfo = lines.foldl cpuLine CPUInfo.zero := by
    cases err with
    | none => exact (Except.ok.inj h).symm
    | some e0 => exact absurd h (by simp [ReadAndParseCPUInfo])
  subst e
  have g1 := foldl_cpuLine_other CPUField.VendorID lines
    (fun l _ => not_hasKey_of_firstToken _ l (k1 l)) CPUInfo.zero
  have g2 := foldl_cpuLine_other CPUField.VirtualizationType lines
    (fun l _ => not_hasKey_of_firstToken _ l (k2 l)) CPUInfo.zero
  have g3 := foldl_cpuLine_other CPUField.NUMANodes lines
    (fun l _ => not_hasKey_of_firstToken _ l (k3 l)) CPUInfo.zero
  exact ⟨FieldValue.text.inj g1, FieldValue.text.inj g2, FieldValue.int.inj g3,
    fun line => ⟨k1 line, k2 line, k3 line⟩⟩

/-- Lines that begin with the three labels without the space leave the three fields at
zero; the last line sets the text field `NUMANode0CPUs`, whose label has no space. -/
theorem cpu_space_keys_never_selected_witness :
    ReadAndParseCPUInfo (Except.ok ⟨spaceKeyLines, none⟩) = Except.ok spaceKeyInfo ∧
    spaceKeyInfo.VendorID = [] ∧ spaceKeyInfo.VirtualizationType = [] ∧
    spaceKeyInfo.NUMANodes = 0 ∧
    ∀ line, firstToken line ≠ some "VendorID ".toList ∧
      firstToken line ≠ some "VirtualizationType ".toList ∧
      firstToken line ≠ some "NUMANode0CPUs ".toList :=
  ⟨by decide, cpu_space_keys_never_selected spaceKeyLines none spaceKeyInfo (by decide)⟩

/-- C20, as the code has it. When lines of at least two tokens have the case label of a
field as first token, the field returned by `ReadAndParseCPUInfo` is what the last of
them stores, whatever the lines before it: its value text, or the first result of the
numeric conversion of that text. That result is zero when the text is not a number;
when the conversion reports a range error it is not zero but the bound on the side of
the number: the largest `int` for the numeral of a number above the range, the smallest
`int` for one below it, the positive infinity for a floating-point text without a minus
sign and the negative infinity for one with it. A line changes no field other than the
one of its first token. -/
theorem cpu_last_line_decides (f : CPUField) (pre post : List Str) (line v : Str)
    (vs : List Str) (hf : Fields line = f.key :: v :: vs)
    (hpost : ∀ l ∈ post, ¬ HasKey f.key l) :
    ∃ cpuInfo, ReadAndParseCPUInfo (Except.ok ⟨pre ++ line :: post, none⟩) = Except.ok cpuInfo ∧
      f.get cpuInfo = f.stored (Join (v :: vs) " ".toList) ∧
      (f.conversionError (Join (v :: vs) " ".toList) = some NumError.ErrSyntax →
        f.get cpuInfo = f.zeroValue) ∧
      (f.conversionError (Join (v :: vs) " ".toList) = some NumError.ErrRange →
        f.get cpuInfo ≠ f.zeroValue) ∧
      (f.conversionError (Join (v :: vs) " ".toList) = some NumError.ErrRange →
        RangeBound (Join (v :: vs) " ".toList) (f.get cpuInfo)) ∧
      ∀ (g : CPUField) (c : CPUInfo) (l : Str), ¬ HasKey g.key l →
        g.get (cpuLine c l) = g.get c := by
  have hl := foldl_cpuLine_last f pre post line v vs hf hpost CPUInfo.zero
  refine ⟨(pre ++ line :: post).foldl cpuLine CPUInfo.zero, rfl, hl, ?_, ?_, ?_, ?_⟩
  · intro he; rw [hl]; exact stored_syntax_zero f _ he
  · intro he; rw [hl]; exact stored_range_not_zero f _ he
  · intro he; rw [hl]; exact stored_range_bound f _ he
  · intro g c l hg; exact cpuLine_other g c l hg

/-- Three lines for the CPU count, the last of them not a number, between lines for
other fields: the count returned is zero and the other fields are kept. With a last
line for the count that holds a numeral below the `int` range, the count returned is
the smallest `int`. -/
theorem cpu_last_line_decides_witness :
    ReadAndParseCPUInfo (Except.ok ⟨["CPU(s): 4".toList, "Model: 7".toList, "CPU(s): 8".toList,
        "CPU(s): many".toList, "ModelName Xeon Gold".toList], none⟩) =
      Except.ok { CPUInfo.zero with Model := 7, ModelName := "Xeon Gold".toList } ∧
    (∃ cpuInfo, ReadAndParseCPUInfo (Except.ok ⟨["CPU(s): 4".toList, "Model: 7".toList,
        "CPU(s): 8".toList] ++ "CPU(s): many".toList :: ["ModelName Xeon Gold".toList], none⟩) =
          Except.ok cpuInfo ∧
      CPUField.CPUs.get cpuInfo = CPUField.CPUs.zeroValue) ∧
    (∃ cpuInfo, ReadAndParseCPUInfo (Except.ok ⟨["CPU(s): 4".toList] ++
        "CPU(s): -99999999999999999999".toList :: ["Model: 7".toList], none⟩) =
          Except.ok cpuInfo ∧
      RangeBound "-99999999999999999999".toList (CPUField.CPUs.get cpuInfo) ∧
      CPUField.CPUs.get cpuInfo = FieldValue.int (-(2 ^ 63))) := by
  refine ⟨by decide, ?_, ?_⟩
  · obtain ⟨cpuInfo, h1, _, h3, _, _, _⟩ := cpu_last_line_decides CPUField.CPUs
      ["CPU(s): 4".toList, "Model: 7".toList, "CPU(s): 8".toList]
      ["ModelName Xeon Gold".toList] "CPU(s): many".toList "many".toList []
      (by decide) (by decide)
    exact ⟨cpuInfo, h1, h3 (by decide)⟩
  · obtain ⟨cpuInfo, h1, h2, _, _, h5, _⟩ := cpu_last_line_decides CPUField.CPUs
      ["CPU(s): 4".toList] ["Model: 7".toList] "CPU(s): -99999999999999999999".toList
      "-99999999999999999999".toList [] (by decide) (by decide)
    exact ⟨cpuInfo, h1, h5 (by decide), h2.trans (by decide)⟩

/-- C20 as stated fails: the last line for the CPU count holds a digit string beyond
the `int` range, so its numeric conversion fails (`Atoi` reports a range error), yet the
count returned is the largest `int`, not zero. -/
theorem cpu_last_line_out_of_range_not_zero :
    (∀ l ∈ repeatedCount, HasKey CPUField.CPUs.key l) ∧
    (Atoi "99999999999999999999".toList).2 = some NumError.ErrRange ∧
    ReadAndParseCPUInfo (Except.ok ⟨repeatedCount, none⟩) =
      Except.ok { CPUInfo.zero with CPUs := 9223372036854775807 } ∧
    CPUField.CPUs.get { CPUInfo.zero with CPUs := 9223372036854775807 } ≠
      CPUField.CPUs.zeroValue := by
  refine ⟨by decide, by decide, by decide, by decide⟩

end Info
